import Mathlib

/-!
Verification of the bagit-python bag engine (`src/bagit.py`) against its
natural-language specification.

The source is shallowly embedded: Python strings are lists of characters
(`PyStr`), file contents are lists of byte values, the filesystem state of a
bag is an explicit structure (`BagDisk`), and the `hashlib` library is a
parameter mapping an algorithm name to an optional digest function.  Python
exceptions are modelled with `Except`.  Modelling notes that restrict the
embedding (ASCII whitespace classes, deterministic `listdir` order) are
recorded on the definitions they concern.
-/

namespace Bagit

/-- Python strings are modelled as lists of characters. -/
abbrev PyStr := List Char

/-- A Lean string literal viewed as the model's string type. -/
def pstr (s : String) : PyStr := s.data

/-- Bytes of a file are modelled as natural numbers below 256. -/
abbrev Bytes := List Nat

/-- Whitespace as recognised by Python 3's `str.isspace`, `str.strip` and
`str.split(None)`: the code points of CPython's `Py_UNICODE_ISSPACE` table —
space, TAB/LF/VT/FF/CR (U+0009–U+000D), the separator controls U+001C–U+001F,
NEL U+0085, NO-BREAK SPACE U+00A0, OGHAM SPACE MARK U+1680, the space
separators U+2000–U+200A, LINE SEPARATOR U+2028, PARAGRAPH SEPARATOR U+2029,
NARROW NO-BREAK SPACE U+202F, MEDIUM MATHEMATICAL SPACE U+205F and
IDEOGRAPHIC SPACE U+3000. -/
def pyIsSpace (c : Char) : Bool :=
  c.toNat = 32 || (9 ≤ c.toNat && c.toNat ≤ 13) || (28 ≤ c.toNat && c.toNat ≤ 31) ||
  c.toNat = 0x85 || c.toNat = 0xA0 || c.toNat = 0x1680 ||
  (0x2000 ≤ c.toNat && c.toNat ≤ 0x200A) || c.toNat = 0x2028 || c.toNat = 0x2029 ||
  c.toNat = 0x202F || c.toNat = 0x205F || c.toNat = 0x3000

/-- Python `str.rstrip()`. -/
def pyStripRight (s : PyStr) : PyStr := (s.reverse.dropWhile pyIsSpace).reverse

/-- Python `str.strip()`. -/
def pyStrip (s : PyStr) : PyStr := pyStripRight (s.dropWhile pyIsSpace)

/-- Python `str.lower()` (ASCII case mapping). -/
def pyLower (s : PyStr) : PyStr := s.map Char.toLower

/-- Iterating over a Python text file yields the lines with their trailing
newline characters kept; a final line without a newline is yielded as is. -/
def splitLinesPy : PyStr → List PyStr
  | [] => []
  | c :: rest =>
    if c = '\n' then [c] :: splitLinesPy rest
    else
      match splitLinesPy rest with
      | [] => [[c]]
      | l :: ls => (c :: l) :: ls

/-- Whether `pat` occurs as a contiguous substring. -/
def hasSubstr (pat : PyStr) : PyStr → Bool
  | [] => pat.isEmpty
  | c :: rest => pat.isPrefixOf (c :: rest) || hasSubstr pat rest

/-- Left-to-right replacement of non-overlapping occurrences of a literal
pattern.  `count = none` replaces every occurrence (Python `str.replace` and
`re.sub` without a count); `count = some n` replaces at most `n` occurrences
(`re.sub`'s positional `count` argument). -/
def replaceLimitedGo (pat repl : PyStr) : Nat → PyStr → Option Nat → PyStr
  | 0, s, _ => s
  | _ + 1, [], _ => []
  | fuel + 1, c :: rest, count =>
    if pat ≠ [] ∧ pat.isPrefixOf (c :: rest) ∧ count ≠ some 0 then
      repl ++ replaceLimitedGo pat repl fuel ((c :: rest).drop pat.length) (count.map (· - 1))
    else
      c :: replaceLimitedGo pat repl fuel rest count

/-- See `replaceLimitedGo`; the fuel equals the input length (each step of the
scan consumes at least one character, so the fuel is never exhausted). -/
def replaceLimited (pat repl : PyStr) (s : PyStr) (count : Option Nat) : PyStr :=
  replaceLimitedGo pat repl s.length s count

/-- `_encode_filename` (src/bagit.py line 835): escape CR and LF in names
written to a manifest. -/
def encodeFilename (s : PyStr) : PyStr :=
  replaceLimited (pstr "\n") (pstr "%0A")
    (replaceLimited (pstr "\r") (pstr "%0D") s none) none

/-- `_decode_filename` (src/bagit.py line 840).  The source passes
`re.IGNORECASE` (whose numeric value is 2) as the positional `count` argument
of `re.sub`, so each escape is replaced at most twice and matching is
case-sensitive. -/
def decodeFilename (s : PyStr) : PyStr :=
  replaceLimited (pstr "%0A") (pstr "\n")
    (replaceLimited (pstr "%0D") (pstr "\r") s (some 2)) (some 2)

/-- Python `str.split(sep)` for a single-character separator, keeping empty
fields (`"".split('/') == ['']`). -/
def splitOnChar (sep : Char) : PyStr → List PyStr
  | [] => [[]]
  | c :: rest =>
    if c = sep then [] :: splitOnChar sep rest
    else
      match splitOnChar sep rest with
      | [] => [[c]]
      | l :: ls => (c :: l) :: ls

/-- One step of `posixpath.normpath`'s component loop: keep the component
unless it is a resolvable `..`, which pops the previous one. -/
def normpathStep (slashes : Nat) (acc : List PyStr) (comp : PyStr) : List PyStr :=
  if comp ≠ pstr ".." ∨ (slashes = 0 ∧ acc = []) ∨ acc.getLast? = some (pstr "..") then
    acc ++ [comp]
  else if acc ≠ [] then acc.dropLast else acc

/-- `posixpath.normpath` keeps a path component unless it is empty or `.`. -/
def keepComp (c : PyStr) : Bool :=
  c ≠ [] ∧ c ≠ pstr "."

/-- `posixpath.normpath`, the meaning of `os.path.normpath` on the POSIX host
modelled here. -/
def posixNormpath (p : PyStr) : PyStr :=
  if p = [] then pstr "." else
  let slashes : Nat :=
    if (pstr "/").isPrefixOf p then
      (if (pstr "//").isPrefixOf p ∧ ¬ (pstr "///").isPrefixOf p then 2 else 1)
    else 0
  let comps := (splitOnChar '/' p).filter keepComp
  let joined := List.replicate slashes '/'
    ++ List.intercalate (pstr "/") (comps.foldl (normpathStep slashes) [])
  if joined = [] then pstr "." else joined

/-- Python `str.split(None, 1)`: split on runs of whitespace, at most once,
after discarding leading whitespace; the second field keeps any further
whitespace verbatim. -/
def pySplitWs1 (s : PyStr) : List PyStr :=
  let t := s.dropWhile pyIsSpace
  if t = [] then []
  else
    let w := t.takeWhile (fun c => ¬ pyIsSpace c)
    let rest := (t.dropWhile (fun c => ¬ pyIsSpace c)).dropWhile pyIsSpace
    if rest = [] then [w] else [w, rest]

/-- Python `str.split(sep, 1)` for a one-character separator that is known to
occur: the text before the first occurrence and the text after it.  When the
separator does not occur the whole string is the first field (the callers
check for occurrence beforehand, mirroring the source). -/
def splitOnce (sep : Char) : PyStr → PyStr × PyStr
  | [] => ([], [])
  | c :: rest =>
    if c = sep then ([], rest)
    else
      let (a, b) := splitOnce sep rest
      (c :: a, b)

/-! ## Error taxonomy

`BagError` and its subclasses from src/bagit.py lines 551-583.  `RuntimeError`
is a distinct Python built-in that is *not* a `BagError`.  Error messages keep
the source's format strings; filesystem-path prefixes that the source
interpolates into some messages are omitted, since the model does not name the
bag's location. -/

/-- The typed sub-errors collected by `Bag._validate_entries`
(`FileMissing`, `UnexpectedFile`, `ChecksumMismatch`). -/
inductive ValidationDetail where
  | fileMissing (path : PyStr)
  | unexpectedFile (path : PyStr)
  | checksumMismatch (path alg expected found : PyStr)
deriving DecidableEq, Repr

/-- Exceptions that escape the engine: `BagError`, its subclass
`BagValidationError` (carrying aggregated details), and Python's built-in
`RuntimeError`. -/
inductive BagErr where
  | bagError (msg : PyStr)
  | bagValidationError (msg : PyStr) (details : List ValidationDetail)
  | runtimeError (msg : PyStr)
deriving DecidableEq, Repr

instance {ε α : Type} [DecidableEq ε] [DecidableEq α] : DecidableEq (Except ε α) := fun x y =>
  match x, y with
  | .ok a, .ok b =>
    match decEq a b with
    | isTrue h => isTrue (h ▸ rfl)
    | isFalse h => isFalse (fun hc => h (Except.ok.inj hc))
  | .error a, .error b =>
    match decEq a b with
    | isTrue h => isTrue (h ▸ rfl)
    | isFalse h => isFalse (fun hc => h (Except.error.inj hc))
  | .ok _, .error _ => isFalse (fun hc => Except.noConfusion hc)
  | .error _, .ok _ => isFalse (fun hc => Except.noConfusion hc)

/-- Whether an exception is an instance of the `BagError` class
(`RuntimeError` is not). -/
def BagErr.isBagError : BagErr → Bool
  | .bagError _ => true
  | .bagValidationError _ _ => true
  | .runtimeError _ => false

/-! ## Tag files (`_parse_tags`, `_load_tag_file`, `_make_tag_file`) -/

/-- A value stored under one tag name: a single string, or the list that
`_load_tag_file` builds for repeated tags. -/
inductive TagValue where
  | one (s : PyStr)
  | many (vs : List PyStr)
deriving DecidableEq, Repr

/-- An in-memory Python dict with string keys, in insertion order. -/
abbrev TagMap := List (PyStr × TagValue)

/-- First-match association-list lookup (Python dict access; the lists built
by the model never hold duplicate keys). -/
def lookupAssoc {α : Type} (k : PyStr) : List (PyStr × α) → Option α
  | [] => none
  | (k', v) :: rest => if k' = k then some v else lookupAssoc k rest

/-- Python dict assignment `d[k] = v`: replace the value at an existing key in
place, else append. -/
def dictSet {α : Type} (m : List (PyStr × α)) (k : PyStr) (v : α) : List (PyStr × α) :=
  match m with
  | [] => [(k, v)]
  | (k', v') :: rest => if k' = k then (k', v) :: rest else (k', v') :: dictSet rest k v

/-- The UTF-8 byte-order mark, decoded (`BOM` at src/bagit.py line 72). -/
def bomChar : Char := Char.ofNat 0xFEFF

/-- Truthiness of the loop state: Python's `if tag_name:` is false for both
`None` and the empty string. -/
def stateYield (st : Option (PyStr × PyStr)) : List (PyStr × PyStr) :=
  match st with
  | none => []
  | some (n, v) => if n ≠ [] then [(n, pyStrip v)] else []

/-- The loop of `_parse_tags` (src/bagit.py lines 648-686) over the remaining
lines, carrying the pending `(tag_name, tag_value)` pair (`none` before the
first tag). -/
def parseTagsLoop : List PyStr → Option (PyStr × PyStr) →
    Except BagErr (List (PyStr × PyStr))
  | [], st => .ok (stateYield st)
  | line :: rest, st =>
    if line = [] ∨ line.all pyIsSpace then
      parseTagsLoop rest st
    else if (line.headD ' ' |> pyIsSpace) ∧ st.isSome then
      match st with
      | some (n, v) => parseTagsLoop rest (some (n, v ++ line))
      | none => parseTagsLoop rest st
    else
      let yielded := stateYield st
      if ¬ line.contains ':' then
        .error (.bagValidationError (pstr "invalid line '" ++ pyStrip line ++ pstr "'") [])
      else
        let parts := splitOnce ':' (pyStrip line)
        match parseTagsLoop rest (some (pyStrip parts.1, parts.2)) with
        | .ok tl => .ok (yielded ++ tl)
        | .error e => .error e

/-- The byte-order-mark strip applied to the first line
(`if num == 0: ... line.lstrip(BOM)` in `_parse_tags`). -/
def stripBOMFirstLine : List PyStr → List PyStr
  | [] => []
  | l :: ls => (if l.headD ' ' = bomChar then l.dropWhile (· = bomChar) else l) :: ls

/-- `_parse_tags` on a whole file: line iteration plus the byte-order-mark
strip on the first line. -/
def parseTags (content : PyStr) : Except BagErr (List (PyStr × PyStr)) :=
  parseTagsLoop (stripBOMFirstLine (splitLinesPy content)) none

/-- Merging a repeated tag into the value already stored
(src/bagit.py lines 642-645). -/
def mergeTag : TagValue → PyStr → TagValue
  | .one x, v => .many [x, v]
  | .many xs, v => .many (xs ++ [v])

/-- One step of `_load_tag_file`'s duplicate-collecting fold. -/
def insertTagDup (tags : TagMap) (kv : PyStr × PyStr) : TagMap :=
  match tags with
  | [] => [(kv.1, .one kv.2)]
  | (k', tv) :: rest =>
    if k' = kv.1 then (k', mergeTag tv kv.2) :: rest
    else (k', tv) :: insertTagDup rest kv

/-- `_load_tag_file` (src/bagit.py lines 632-646). -/
def loadTagFile (content : PyStr) : Except BagErr TagMap :=
  (parseTags content).map (fun pairs => pairs.foldl insertTagDup [])

/-- The characters removed by `_make_tag_file`'s `re.sub('\n|\r|(\r\n)', '', txt)`. -/
def stripCRLF (v : PyStr) : PyStr := v.filter (fun c => ¬ (c = '\n' ∨ c = '\r'))

/-- One emitted `Name: value` line (`"%s: %s\n"`). -/
def tagLine (k v : PyStr) : PyStr := k ++ pstr ": " ++ v ++ pstr "\n"

/-- String comparison as Python compares `str` (lexicographic on code points),
as a Boolean. -/
def strLeB : PyStr → PyStr → Bool
  | [], _ => true
  | _ :: _, [] => false
  | a :: as', b :: bs => if a < b then true else if b < a then false else strLeB as' bs

/-- The propositional form of `strLeB`, used to instantiate `List.insertionSort`
as the model of Python's `sort()`. -/
def strLeP (a b : PyStr) : Prop := strLeB a b = true

instance : DecidableRel strLeP := fun a b => by
  unfold strLeP; infer_instance

/-- The lines `_make_tag_file` writes for one header: a single value is
CR/LF-stripped; a list value emits one line per element in stored order. -/
def emitTagEntry (info : TagMap) (h : PyStr) : PyStr :=
  match lookupAssoc h info with
  | some (.one v) => tagLine h (stripCRLF v)
  | some (.many vs) => (vs.map (tagLine h)).flatten
  | none => []

/-- `_make_tag_file` (src/bagit.py lines 689-701), as the content of the
written file: keys sorted, then each header's lines. -/
def makeTagFileContent (info : TagMap) : PyStr :=
  (((info.map Prod.fst).insertionSort strLeP).map (emitTagEntry info)).flatten

/-! ## MD5 (RFC 1321), the one digest the claims evaluate concretely

`hashlib.md5` is embedded as a pure function on byte lists.  32-bit machine
words are naturals reduced modulo `2 ^ 32`. -/

/-- Reduce to a 32-bit word. -/
def w32 (n : Nat) : Nat := n % 4294967296

/-- Left-rotation of a 32-bit word by `s` places. -/
def rotl32 (x s : Nat) : Nat := w32 (x * 2 ^ s) + x / 2 ^ (32 - s)

/-- Bitwise complement of a 32-bit word. -/
def bnot32 (x : Nat) : Nat := 4294967295 - x

/-- The 64 sine-derived round constants of MD5. -/
def md5K : List Nat :=
  [0xd76aa478, 0xe8c7b756, 0x242070db, 0xc1bdceee,
   0xf57c0faf, 0x4787c62a, 0xa8304613, 0xfd469501,
   0x698098d8, 0x8b44f7af, 0xffff5bb1, 0x895cd7be,
   0x6b901122, 0xfd987193, 0xa679438e, 0x49b40821,
   0xf61e2562, 0xc040b340, 0x265e5a51, 0xe9b6c7aa,
   0xd62f105d, 0x02441453, 0xd8a1e681, 0xe7d3fbc8,
   0x21e1cde6, 0xc33707d6, 0xf4d50d87, 0x455a14ed,
   0xa9e3e905, 0xfcefa3f8, 0x676f02d9, 0x8d2a4c8a,
   0xfffa3942, 0x8771f681, 0x6d9d6122, 0xfde5380c,
   0xa4beea44, 0x4bdecfa9, 0xf6bb4b60, 0xbebfbc70,
   0x289b7ec6, 0xeaa127fa, 0xd4ef3085, 0x04881d05,
   0xd9d4d039, 0xe6db99e5, 0x1fa27cf8, 0xc4ac5665,
   0xf4292244, 0x432aff97, 0xab9423a7, 0xfc93a039,
   0x655b59c3, 0x8f0ccc92, 0xffeff47d, 0x85845dd1,
   0x6fa87e4f, 0xfe2ce6e0, 0xa3014314, 0x4e0811a1,
   0xf7537e82, 0xbd3af235, 0x2ad7d2bb, 0xeb86d391]

/-- Per-round left-rotation amounts. -/
def md5S (i : Nat) : Nat :=
  (([[7, 12, 17, 22], [5, 9, 14, 20], [4, 11, 16, 23], [6, 10, 15, 21]].getD
    (i / 16) []).getD (i % 4) 0)

/-- A number rendered as `k` little-endian bytes. -/
def toLE (n k : Nat) : List Nat := (List.range k).map (fun i => n / 256 ^ i % 256)

/-- MD5 message padding: a `0x80` byte, zeros to 56 mod 64, then the bit
length as 8 little-endian bytes. -/
def md5Pad (m : Bytes) : Bytes :=
  m ++ [128] ++ List.replicate ((119 - m.length % 64) % 64) 0
    ++ toLE (m.length * 8 % 2 ^ 64) 8

/-- Split into 64-byte blocks, with fuel bounding the number of blocks. -/
def chunks64Go : Nat → Bytes → List Bytes
  | 0, _ => []
  | fuel + 1, l => if l = [] then [] else l.take 64 :: chunks64Go fuel (l.drop 64)

/-- Split a padded message into 64-byte blocks. -/
def chunks64 (l : Bytes) : List Bytes := chunks64Go l.length l

/-- The sixteen 32-bit little-endian words of one block. -/
def md5Words (block : Bytes) : List Nat :=
  (List.range 16).map (fun i =>
    (block.getD (4 * i) 0) + 256 * (block.getD (4 * i + 1) 0)
      + 65536 * (block.getD (4 * i + 2) 0) + 16777216 * (block.getD (4 * i + 3) 0))

/-- One of the 64 MD5 rounds. -/
def md5Step (m : List Nat) (st : Nat × Nat × Nat × Nat) (i : Nat) :
    Nat × Nat × Nat × Nat :=
  let (a, b, c, d) := st
  let (f, g) :=
    if i < 16 then ((b &&& c) ||| (bnot32 b &&& d), i)
    else if i < 32 then ((d &&& b) ||| (bnot32 d &&& c), (5 * i + 1) % 16)
    else if i < 48 then (b ^^^ c ^^^ d, (3 * i + 5) % 16)
    else (c ^^^ (b ||| bnot32 d), 7 * i % 16)
  let tmp := w32 (a + f + md5K.getD i 0 + m.getD g 0)
  (d, w32 (b + rotl32 tmp (md5S i)), b, c)

/-- Process one 64-byte block. -/
def md5Block (st : Nat × Nat × Nat × Nat) (block : Bytes) : Nat × Nat × Nat × Nat :=
  let m := md5Words block
  let (a, b, c, d) := (List.range 64).foldl (md5Step m) st
  (w32 (st.1 + a), w32 (st.2.1 + b), w32 (st.2.2.1 + c), w32 (st.2.2.2 + d))

/-- Lowercase hexadecimal digit. -/
def hexDig (n : Nat) : Char := (pstr "0123456789abcdef").getD n '0'

/-- A byte as two lowercase hexadecimal characters. -/
def hexByte (b : Nat) : PyStr := [hexDig (b / 16 % 16), hexDig (b % 16)]

/-- `hashlib.md5(bytes).hexdigest()`. -/
def md5Hex (m : Bytes) : PyStr :=
  let (a, b, c, d) :=
    (chunks64 (md5Pad m)).foldl md5Block (0x67452301, 0xefcdab89, 0x98badcfe, 0x10325476)
  ((toLE a 4 ++ toLE b 4 ++ toLE c 4 ++ toLE d 4).map hexByte).flatten

/-! ## The on-disk bag and the hash library -/

/-- The filesystem state of one bag directory: whether `data/` exists, the
payload files under `data/` (keyed by their bag-relative `/`-separated path,
as `os.walk` reports them), and the regular files in the bag root (tag files
and manifests, keyed by name, with their textual content).  The model fixes
the otherwise unspecified `os.listdir` order to the list order of
`rootFiles`. -/
structure BagDisk where
  hasDataDir : Bool
  payload : List (PyStr × Bytes)
  rootFiles : List (PyStr × PyStr)
deriving DecidableEq, Repr

/-- The host `hashlib`: an algorithm name yields a digest function when the
library provides that algorithm (`hashlib.new` raises otherwise). -/
abbrev HashImpl := PyStr → Option (Bytes → PyStr)

/-- Digest of a byte string under a provided algorithm (callers only apply
this to algorithms the implementation provides). -/
def hashApply (H : HashImpl) (alg : PyStr) (b : Bytes) : PyStr :=
  match H alg with
  | some f => f b
  | none => []

/-- A text file's content as the byte string the engine hashes.  Code points
stand for bytes, which is exact for the ASCII contents the scenarios
evaluate. -/
def strBytes (s : PyStr) : Bytes := s.map Char.toNat

/-- `checksum_algos` (src/bagit.py line 70). -/
def checksumAlgos : List PyStr := [pstr "md5", pstr "sha1", pstr "sha256", pstr "sha512"]

/-- The concrete hash library used by the evaluated scenarios: only `md5` is
ever consulted by them, so only `md5` is provided. -/
def md5Hashlib : HashImpl := fun a => if a = pstr "md5" then some md5Hex else none

/-- The loaded `Bag` object: the fields of `Bag.__init__`/`Bag._open` that the
engine reads (src/bagit.py lines 160-213). -/
structure Bag where
  tags : TagMap
  info : TagMap
  version : PyStr
  encoding : PyStr
  tagFileName : PyStr
  entries : List (PyStr × List (PyStr × PyStr))
  algs : List PyStr
deriving DecidableEq, Repr

/-- Look up a bag-root file by name. -/
def lookupRoot (disk : BagDisk) (name : PyStr) : Option PyStr :=
  lookupAssoc name disk.rootFiles

/-- `Bag.manifest_files` (src/bagit.py lines 215-219): the existing
`manifest-<alg>.txt` files, in `checksum_algos` order, paired with the
algorithm derived from the file name. -/
def manifestFilesOf (disk : BagDisk) : List (PyStr × PyStr) :=
  checksumAlgos.filterMap (fun a =>
    (lookupRoot disk (pstr "manifest-" ++ a ++ pstr ".txt")).map (fun c => (a, c)))

/-- `Bag.tagmanifest_files` (src/bagit.py lines 221-225). -/
def tagmanifestFilesOf (disk : BagDisk) : List (PyStr × PyStr) :=
  checksumAlgos.filterMap (fun a =>
    (lookupRoot disk (pstr "tagmanifest-" ++ a ++ pstr ".txt")).map (fun c => (a, c)))

/-- Storing one parsed manifest entry: `self.entries[path][alg] = hash`,
creating the per-path dict if needed (src/bagit.py lines 410-414). -/
def insertEntry (entries : List (PyStr × List (PyStr × PyStr))) (path alg h : PyStr) :
    List (PyStr × List (PyStr × PyStr)) :=
  match lookupAssoc path entries with
  | some m => dictSet entries path (dictSet m alg h)
  | none => entries ++ [(path, [(alg, h)])]

/-- One line of a manifest during `Bag._load_manifests`: strip, skip blanks
and comments, split `FILENAME *CHECKSUM`, skip malformed lines, normalise and
decode the path. -/
def processManifestLine (alg : PyStr) (entries : List (PyStr × List (PyStr × PyStr)))
    (line : PyStr) : List (PyStr × List (PyStr × PyStr)) :=
  let l := pyStrip line
  if l = [] ∨ l.headD ' ' = '#' then entries
  else
    match pySplitWs1 l with
    | [h, p] => insertEntry entries (decodeFilename (posixNormpath (p.dropWhile (· = '*')))) alg h
    | _ => entries

/-- `Bag._load_manifests` (src/bagit.py lines 377-414): parse every payload
manifest, and for v0.97 every tagmanifest, into the entry store, recording
each file's algorithm.  The manifest/tagmanifest distinction is drawn from
which enumeration produced the file (the source's substring test on the full
path agrees with this whenever the bag's own path does not contain
`tagmanifest-`). -/
def loadManifests (disk : BagDisk) (version : PyStr) :
    List (PyStr × List (PyStr × PyStr)) × List PyStr :=
  let files := manifestFilesOf disk ++
    (if version = pstr "0.97" then tagmanifestFilesOf disk else [])
  files.foldl (fun acc f =>
    ((splitLinesPy f.2).foldl (processManifestLine f.1) acc.1, acc.2 ++ [f.1])) ([], [])

/-- The exact content `make_bag` writes to `bagit.txt` (src/bagit.py line 133). -/
def bagitTxtStd : PyStr := pstr "BagIt-Version: 0.97\nTag-File-Character-Encoding: UTF-8\n"

/-- `Bag._open` (src/bagit.py lines 183-213): read `bagit.txt`, check the
mandatory tags, the version and the encoding, load the info tag file if
present, then load the manifests.  A list-valued `Tag-File-Character-Encoding`
would crash Python's `.lower()` with an `AttributeError`, modelled as the
non-`BagError` `runtimeError`. -/
def loadBag (disk : BagDisk) : Except BagErr Bag := do
  match lookupRoot disk (pstr "bagit.txt") with
  | none => .error (.bagError (pstr "No bagit.txt found"))
  | some bagitContent =>
    let tags ← loadTagFile bagitContent
    let vtv ← match lookupAssoc (pstr "BagIt-Version") tags with
      | some tv => pure tv
      | none => throw (BagErr.bagError (pstr "Missing required tag in bagit.txt: 'BagIt-Version'"))
    let etv ← match lookupAssoc (pstr "Tag-File-Character-Encoding") tags with
      | some tv => pure tv
      | none => throw (BagErr.bagError
          (pstr "Missing required tag in bagit.txt: 'Tag-File-Character-Encoding'"))
    let vt ← match vtv with
      | .one v =>
        if v = pstr "0.93" ∨ v = pstr "0.94" ∨ v = pstr "0.95" then
          pure (v, pstr "package-info.txt")
        else if v = pstr "0.96" ∨ v = pstr "0.97" then
          pure (v, pstr "bag-info.txt")
        else throw (BagErr.bagError (pstr "Unsupported bag version: " ++ v))
      | .many _ => throw (BagErr.bagError (pstr "Unsupported bag version"))
    let encoding ← match etv with
      | .one e => pure e
      | .many _ => throw (BagErr.runtimeError (pstr "AttributeError"))
    if pyLower encoding = pstr "utf-8" then pure () else
      throw (.bagValidationError (pstr "Unsupported encoding: " ++ encoding) [])
    let info ← match lookupRoot disk vt.2 with
      | some c => loadTagFile c
      | none => pure []
    let es := loadManifests disk vt.1
    .ok { tags, info, version := vt.1, encoding, tagFileName := vt.2,
          entries := es.1, algs := es.2 }

/-! ## Validation -/

/-- `Bag.payload_files` (src/bagit.py lines 248-257): the bag-relative paths
of the files under `data/`.  The source's per-name backslash replacement and
`normpath` are the identity for the names the scenarios and theorems cover
(no backslashes; `os.walk` reports normalised paths). -/
def payloadFilesOf (disk : BagDisk) : List PyStr := disk.payload.map Prod.fst

/-- `os.path.isfile` relative to the bag root. -/
def fileExistsDisk (disk : BagDisk) (p : PyStr) : Bool :=
  (lookupAssoc p disk.payload).isSome || (lookupAssoc p disk.rootFiles).isSome

/-- The byte content of a file named relative to the bag root. -/
def fileContentDisk (disk : BagDisk) (p : PyStr) : Option Bytes :=
  match lookupAssoc p disk.payload with
  | some b => some b
  | none => (lookupRoot disk p).map strBytes

/-- The `data/` prefix test of `payload_entries` (`data + os.sep` on the POSIX
host modelled here). -/
def startsWithData (p : PyStr) : Bool := (pstr "data/").isPrefixOf p

/-- Keys of `Bag.payload_entries`. -/
def payloadEntriesKeys (b : Bag) : List PyStr :=
  (b.entries.map Prod.fst).filter startsWithData

/-- Keys of `Bag.tagfile_entries`. -/
def tagfileEntriesKeys (b : Bag) : List PyStr :=
  (b.entries.map Prod.fst).filter (fun k => ¬ startsWithData k)

/-- `Bag.missing_optional_tagfiles` (src/bagit.py lines 326-336). -/
def missingOptionalTagfiles (b : Bag) (disk : BagDisk) : List PyStr :=
  (tagfileEntriesKeys b).filter (fun k => ¬ fileExistsDisk disk k)

/-- `Bag.compare_manifests_with_fs` (src/bagit.py lines 227-235).  Python's
set differences are modelled as duplicate-free filtered lists in
first-occurrence order. -/
def compareManifestsWithFs (b : Bag) (disk : BagDisk) : List PyStr × List PyStr :=
  let filesOnFs := payloadFilesOf disk
  let filesInManifest := payloadEntriesKeys b ++
    (if b.version = pstr "0.97" then missingOptionalTagfiles b disk else [])
  (filesInManifest.dedup.filter (fun p => ¬ filesOnFs.contains p),
   filesOnFs.dedup.filter (fun p => ¬ filesInManifest.contains p))

/-- The algorithms of the bag that `hashlib` recognises
(src/bagit.py lines 495-501). -/
def availableHashers (b : Bag) (H : HashImpl) : List PyStr :=
  b.algs.dedup.filter (fun a => (H a).isSome)

/-- `_calc_hashes` for one entry (src/bagit.py lines 586-629): hash the file
once under every recognised algorithm recorded for it; a missing file turns
every digest into the validation-error text (`"%s does not exist"`, with the
model omitting the directory prefix of the path). -/
def calcHashes (disk : BagDisk) (H : HashImpl) (avail : List PyStr) (p : PyStr)
    (hs : List (PyStr × PyStr)) : List (PyStr × PyStr) :=
  let fAlgs := (hs.map Prod.fst).filter (fun a => avail.contains a)
  match fileContentDisk disk p with
  | some bytes => fAlgs.map (fun a => (a, hashApply H a bytes))
  | none => fAlgs.map (fun a => (a, p ++ pstr " does not exist"))

/-- The `ChecksumMismatch` details collected by `Bag._validate_entries`
(src/bagit.py lines 529-535): stored digests are compared lowercased. -/
def checksumMismatches (b : Bag) (disk : BagDisk) (H : HashImpl) : List ValidationDetail :=
  b.entries.flatMap (fun e =>
    (calcHashes disk H (availableHashers b H) e.1 e.2).filterMap (fun ac =>
      let stored := (lookupAssoc ac.1 e.2).getD []
      if pyLower stored ≠ ac.2 then
        some (.checksumMismatch e.1 ac.1 (pyLower stored) ac.2)
      else none))

/-- Python's `repr` of a list of strings, used in an error message. -/
def renderPyList (l : List PyStr) : PyStr :=
  pstr "[" ++ List.intercalate (pstr ", ") (l.map (fun s => pstr "'" ++ s ++ pstr "'")) ++ pstr "]"

/-- The `RuntimeError` message of src/bagit.py line 504 (without the
leading bag-path prefix). -/
def rtUnsupportedMsg (algs : List PyStr) : PyStr :=
  pstr "Unable to validate bag contents: none of the hash algorithms in "
    ++ renderPyList algs ++ pstr " are supported!"

/-- The full ordered detail list aggregated by `Bag._validate_entries`:
`FileMissing` per entry absent from disk, `UnexpectedFile` per payload file
absent from the manifests, then every digest disagreement. -/
def validationDetails (b : Bag) (disk : BagDisk) (H : HashImpl) : List ValidationDetail :=
  let cmp := compareManifestsWithFs b disk
  cmp.1.map .fileMissing ++ cmp.2.map .unexpectedFile ++ checksumMismatches b disk H

/-- `Bag._validate_entries` (src/bagit.py lines 472-538). -/
def validateEntries (b : Bag) (disk : BagDisk) (H : HashImpl) : Except BagErr Unit :=
  if availableHashers b H = [] then
    .error (.runtimeError (rtUnsupportedMsg b.algs))
  else
    let errs := validationDetails b disk H
    if errs = [] then .ok () else .error (.bagValidationError (pstr "invalid bag") errs)

/-- Python `str.isdigit` over ASCII digits. -/
def pyIsDigit (c : Char) : Bool := '0' ≤ c && c ≤ '9'

/-- `s.isdigit()`: non-empty and all digits. -/
def pyIsDigitStr (s : PyStr) : Bool := s ≠ [] && s.all pyIsDigit

/-- Decimal value of a digit string. -/
def natOfDigits (s : PyStr) : Nat := s.foldl (fun n c => 10 * n + (c.toNat - 48)) 0

/-- The character of a decimal digit. -/
def digitChar (n : Nat) : Char := Char.ofNat (48 + n)

/-- Decimal rendering with explicit fuel (the recursion divides by ten). -/
def natStrGo : Nat → Nat → PyStr
  | 0, _ => []
  | fuel + 1, n => if n < 10 then [digitChar n] else natStrGo fuel (n / 10) ++ [digitChar (n % 10)]

/-- A natural number printed in decimal (Python `str(int)`). -/
def natStr (n : Nat) : PyStr := natStrGo (n + 1) n

/-- The `Oxum error` message of src/bagit.py line 470. -/
def mkOxumErrorMsg (totalFiles totalBytes fileCount byteCount : Nat) : PyStr :=
  pstr "Oxum error.  Found " ++ natStr totalFiles ++ pstr " files and " ++ natStr totalBytes
    ++ pstr " bytes on disk; expected " ++ natStr fileCount ++ pstr " files and "
    ++ natStr byteCount ++ pstr " bytes."

/-- `Bag.has_oxum` (src/bagit.py lines 351-352). -/
def hasOxum (b : Bag) : Bool := (lookupAssoc (pstr "Payload-Oxum") b.info).isSome

/-- The Oxum value examined: a `many` value takes its first element
(`oxum[0]`; the parser only ever builds lists of two or more). -/
def oxumString : TagValue → PyStr
  | .one s => s
  | .many vs => vs.headD []

/-- The body of `Bag._validate_oxum` after the tag lookup
(src/bagit.py lines 451-470).  A dotless Oxum would make the two-target
unpacking of `split('.', 1)` raise `ValueError`, modelled as the
non-`BagError` `runtimeError`. -/
def validateOxumStr (ox : PyStr) (disk : BagDisk) : Except BagErr Unit :=
  if ¬ (ox.contains '.') then
    .error (.runtimeError (pstr "ValueError"))
  else if ¬ (pyIsDigitStr (splitOnce '.' ox).1 ∧ pyIsDigitStr (splitOnce '.' ox).2) then
    .error (.bagError (pstr "Invalid oxum: " ++ ox))
  else if natOfDigits (splitOnce '.' ox).2 ≠ disk.payload.length
      ∨ natOfDigits (splitOnce '.' ox).1 ≠ (disk.payload.map (fun f => f.2.length)).sum then
    .error (.bagValidationError
      (mkOxumErrorMsg disk.payload.length ((disk.payload.map (fun f => f.2.length)).sum)
        (natOfDigits (splitOnce '.' ox).2) (natOfDigits (splitOnce '.' ox).1)) [])
  else .ok ()

/-- `Bag._validate_oxum` (src/bagit.py lines 445-470). -/
def validateOxum (b : Bag) (disk : BagDisk) : Except BagErr Unit :=
  match lookupAssoc (pstr "Payload-Oxum") b.info with
  | none => .ok ()
  | some tv => validateOxumStr (oxumString tv) disk

/-- `Bag._validate_structure` (src/bagit.py lines 416-436). -/
def validateStructure (disk : BagDisk) : Except BagErr Unit := do
  if disk.hasDataDir then pure () else
    throw (.bagValidationError (pstr "Missing data directory") [])
  if manifestFilesOf disk = [] then
    throw (.bagValidationError (pstr "Missing manifest file") []) else pure ()
  if (disk.rootFiles.map Prod.fst).contains (pstr "bagit.txt") then pure ()
  else throw (.bagValidationError (pstr "Missing bagit.txt") [])

/-- `Bag._validate_bagittxt` (src/bagit.py lines 540-548): the first line must
not begin with a byte-order mark. -/
def validateBagitTxt (disk : BagDisk) : Except BagErr Unit :=
  match lookupRoot disk (pstr "bagit.txt") with
  | none => .error (.runtimeError (pstr "IOError"))
  | some c =>
    if ((splitLinesPy c).headD []).headD ' ' = bomChar then
      .error (.bagValidationError (pstr "bagit.txt must not contain a byte-order mark") [])
    else .ok ()

/-- The error raised by fast validation of an Oxum-less bag
(src/bagit.py line 440); the specification's `OxumMissing`. -/
def oxumMissingError : BagErr :=
  .bagValidationError (pstr "cannot validate Bag with fast=True if Bag lacks a Payload-Oxum") []

/-- `Bag._validate_contents` (src/bagit.py lines 438-443). -/
def validateContents (b : Bag) (disk : BagDisk) (H : HashImpl) (fast : Bool) :
    Except BagErr Unit := do
  if fast ∧ ¬ hasOxum b then throw oxumMissingError else pure ()
  validateOxum b disk
  if ¬ fast then validateEntries b disk H else pure ()

/-- `Bag.validate` (src/bagit.py lines 354-365). -/
def validate (b : Bag) (disk : BagDisk) (H : HashImpl) (fast : Bool) : Except BagErr Unit := do
  validateStructure disk
  validateBagitTxt disk
  validateContents b disk H fast

/-- `Bag.is_valid` (src/bagit.py lines 367-375): `except BagError` turns a
`BagError` (or subclass) into `False`; any other exception propagates. -/
def isValid (b : Bag) (disk : BagDisk) (H : HashImpl) (fast : Bool) : Except BagErr Bool :=
  match validate b disk H fast with
  | .ok _ => .ok true
  | .error e => if e.isBagError then .ok false else .error e

/-! ## Bag creation (`make_bag`) -/

/-- `Bag-Software-Agent` default (src/bagit.py line 145). -/
def agentString : PyStr := pstr "bagit.py <http://github.com/libraryofcongress/bagit-python>"

/-- The regex `^tagmanifest-.+\.txt$` that `_make_tagmanifest_file` uses to
exclude tagmanifests from their own coverage. -/
def isTagmanifestName (n : PyStr) : Bool :=
  (pstr "tagmanifest-").isPrefixOf n && n.reverse.take 4 = (pstr ".txt").reverse && 17 ≤ n.length

/-- The content `_make_manifest` writes (src/bagit.py lines 726-735): for each
walked payload file, `"%s  %s\n" % (digest, _encode_filename(name))` where the
name is the `_decode_filename` of the walked path (src/bagit.py line 833). -/
def manifestContent (H : HashImpl) (alg : PyStr) (payload : List (PyStr × Bytes))
    (walk : List PyStr) : PyStr :=
  (walk.map (fun p =>
    hashApply H alg ((lookupAssoc p payload).getD [])
      ++ pstr "  " ++ encodeFilename (decodeFilename p) ++ pstr "\n")).flatten

/-- The `Payload-Oxum` value `"%s.%s" % (total_bytes, num_files)` accumulated
by `_make_manifest` over the walked files. -/
def oxumOfWalk (payload : List (PyStr × Bytes)) (walk : List PyStr) : PyStr :=
  natStr ((walk.map (fun p => ((lookupAssoc p payload).getD []).length)).sum)
    ++ pstr "." ++ natStr walk.length

/-- `bag_info.setdefault`-style insertion used for `Bagging-Date` and
`Bag-Software-Agent` (src/bagit.py lines 142-145). -/
def addTagIfMissing (m : TagMap) (k : PyStr) (v : PyStr) : TagMap :=
  if (lookupAssoc k m).isSome then m else m ++ [(k, .one v)]

/-- `if not checksum: checksum = ['md5']` (src/bagit.py lines 85-87): both
`None` and the empty list are falsy. -/
def resolveChecksums : Option (List PyStr) → List PyStr
  | none => [pstr "md5"]
  | some [] => [pstr "md5"]
  | some l => l

/-- `make_bag` up to its final `Bag(bag_dir)` (src/bagit.py lines 77-157), as
the bag directory it leaves on disk.  The input directory is given as its
file listing (the readability and writability pre-checks are assumed to have
passed); `today` is the `Bagging-Date` value.  `_walk` is modelled as the
lexicographically sorted payload paths (the source sorts names per directory
level, which yields root files before subdirectories; every property stated
over this model is insensitive to that interleaving).  The per-algorithm
`unknown algorithm` check of `_make_manifest` is hoisted in front of the
writes; the error is unchanged. -/
def makeBagDisk (files : List (PyStr × Bytes)) (bagInfo : Option TagMap)
    (checksum : Option (List PyStr)) (today : PyStr) (H : HashImpl) :
    Except BagErr BagDisk :=
  let cs := resolveChecksums checksum
  if ¬ cs.all (fun c => checksumAlgos.contains c) then
    .error (.runtimeError (pstr "unknown algorithm"))
  else
    let payload := files.map (fun f => (pstr "data/" ++ f.1, f.2))
    let walk := (payload.map Prod.fst).insertionSort strLeP
    let rf0 := cs.foldl (fun rf c =>
      dictSet rf (pstr "manifest-" ++ c ++ pstr ".txt") (manifestContent H c payload walk)) []
    let oxum := oxumOfWalk payload walk
    let info0 := bagInfo.getD []
    let info1 := addTagIfMissing info0 (pstr "Bagging-Date") today
    let info2 := addTagIfMissing info1 (pstr "Bag-Software-Agent") agentString
    let info3 := dictSet info2 (pstr "Payload-Oxum") (.one oxum)
    let rf1 := dictSet rf0 (pstr "bagit.txt") bagitTxtStd
    let rf2 := dictSet rf1 (pstr "bag-info.txt") (makeTagFileContent info3)
    let rf3 := cs.foldl (fun rf c =>
      dictSet rf (pstr "tagmanifest-" ++ c ++ pstr ".txt")
        (((rf.filter (fun f => ¬ isTagmanifestName f.1)).map (fun f =>
          hashApply H c (strBytes f.2) ++ pstr " " ++ f.1 ++ pstr "\n")).flatten)) rf2
    .ok { hasDataDir := true, payload := payload, rootFiles := rf3 }

/-- `make_bag`'s return value, `Bag(bag_dir)`: the freshly written bag,
loaded. -/
def makeBag (files : List (PyStr × Bytes)) (bagInfo : Option TagMap)
    (checksum : Option (List PyStr)) (today : PyStr) (H : HashImpl) :
    Except BagErr Bag := do
  let disk ← makeBagDisk files bagInfo checksum today H
  loadBag disk

/-! ## Concrete scenario data -/

/-- The empty fallback bag for extracting `Except` results. -/
def emptyBag : Bag := ⟨[], [], [], [], [], [], []⟩

/-- The empty fallback disk. -/
def emptyDisk : BagDisk := ⟨false, [], []⟩

/-- The payload of scenario S1: one file `greeting` containing `"hello\n"`. -/
def helloBytes : Bytes := strBytes (pstr "hello\n")

/-- `make_bag` on the S1 directory with `checksum=['md5']`. -/
def s1Make : Except BagErr BagDisk :=
  makeBagDisk [(pstr "greeting", helloBytes)] none (some [pstr "md5"])
    (pstr "2026-10-12") md5Hashlib

/-- The S1 bag directory. -/
def s1Disk : BagDisk := s1Make.toOption.getD emptyDisk

/-- The S1 bag, loaded. -/
def s1Bag : Bag := (loadBag s1Disk).toOption.getD emptyBag

/-- S1's disk after overwriting `data/greeting` with the equal-length
`"Xello\n"` (scenario S2). -/
def s1CorruptDisk : BagDisk :=
  { s1Disk with payload := [(pstr "data/greeting", strBytes (pstr "Xello\n"))] }

/-- A bag directory whose `manifest-sha256.txt` holds the handcrafted line
`00…00  ../etc/passwd` (scenario S4). -/
def c1Disk : BagDisk :=
  { hasDataDir := false, payload := [],
    rootFiles := [(pstr "bagit.txt", bagitTxtStd),
                  (pstr "manifest-sha256.txt",
                   List.replicate 64 '0' ++ pstr "  ../etc/passwd\n")] }

/-- `make_bag` on a directory holding one empty file whose name contains the
literal text `%0D`. -/
def c2xMake : Except BagErr BagDisk :=
  makeBagDisk [(pstr "x%0D", [])] none none (pstr "2026-10-12") md5Hashlib

/-- The resulting bag directory. -/
def c2xDisk : BagDisk := c2xMake.toOption.getD emptyDisk

/-- The resulting bag, loaded. -/
def c2xBag : Bag := (loadBag c2xDisk).toOption.getD emptyBag

/-- The folded tag file of scenario S6. -/
def c8Content : PyStr :=
  pstr "External-Description: line one\n  continued line two\nContact-Name: Alice\n"

/-! ## Well-formedness predicates used as theorem hypotheses -/

/-- Properties every `hexdigest` string has: non-empty, whitespace-free, not
starting the manifest comment marker, already lowercase. -/
def goodDigestB (s : PyStr) : Bool :=
  !(s == []) && s.all (fun c => !pyIsSpace c) && !(s.headD ' ' == '#') && (pyLower s == s)

/-- A digest function whose outputs are well-formed digests. -/
def GoodHashAt (H : HashImpl) (a : PyStr) : Prop :=
  ∃ f, H a = some f ∧ ∀ b, goodDigestB (f b) = true

/-- A payload file name (relative to the bagged directory, `/`-separated)
that survives the write/read round trip of the manifest machinery: normalised
components, no CR/LF/backslash, no literal `%0D`/`%0A` escapes, and no
trailing whitespace. -/
def goodRelPathB (p : PyStr) : Bool :=
  !(p == []) &&
  (splitOnChar '/' p).all (fun c => !(c == []) && !(c == pstr ".") && !(c == pstr "..")) &&
  p.all (fun c => !(c == '\r') && !(c == '\n') && !(c == '\\')) &&
  !hasSubstr (pstr "%0D") p && !hasSubstr (pstr "%0A") p &&
  !pyIsSpace (p.getLastD '.')

/-- A tag key that the emitter writes and the parser reads back unchanged:
non-empty, colon-free, CR/LF-free, not beginning or ending in whitespace, not
beginning with the byte-order mark. -/
def goodTagKeyB (k : PyStr) : Bool :=
  !(k == []) && !k.contains ':' && !k.contains '\n' && !k.contains '\r' &&
  !pyIsSpace (k.headD ' ') && !(k.headD ' ' == bomChar) && !pyIsSpace (k.getLastD ' ')

/-! ## The artefacts `make_bag` writes, named for the proofs about fresh bags -/

/-- The payload listing with the `data/` prefix `make_bag` adds. -/
def dataPrefixed (files : List (PyStr × Bytes)) : List (PyStr × Bytes) :=
  files.map (fun f => (pstr "data/" ++ f.1, f.2))

/-- The order in which `_walk` reports the fresh payload. -/
def sortedWalk (files : List (PyStr × Bytes)) : List PyStr :=
  ((dataPrefixed files).map Prod.fst).insertionSort strLeP

/-- `manifest-<alg>.txt`. -/
def mName (c : PyStr) : PyStr := pstr "manifest-" ++ c ++ pstr ".txt"

/-- `tagmanifest-<alg>.txt`. -/
def tmName (c : PyStr) : PyStr := pstr "tagmanifest-" ++ c ++ pstr ".txt"

/-- The payload manifests written by `make_bag`, keyed by file name. -/
def manifestsOf (files : List (PyStr × Bytes)) (cs : List PyStr) (H : HashImpl) :
    List (PyStr × PyStr) :=
  cs.map (fun c => (mName c, manifestContent H c (dataPrefixed files) (sortedWalk files)))

/-- The `bag-info.txt` dictionary `make_bag` builds when the caller passes no
info, in insertion order. -/
def infoThree (files : List (PyStr × Bytes)) (today : PyStr) : TagMap :=
  [(pstr "Bagging-Date", .one today),
   (pstr "Bag-Software-Agent", .one agentString),
   (pstr "Payload-Oxum", .one (oxumOfWalk (dataPrefixed files) (sortedWalk files)))]

/-- The non-tagmanifest files of the fresh bag root, in written order. -/
def coreRoots (files : List (PyStr × Bytes)) (cs : List PyStr) (today : PyStr)
    (H : HashImpl) : List (PyStr × PyStr) :=
  manifestsOf files cs H
    ++ [(pstr "bagit.txt", bagitTxtStd),
        (pstr "bag-info.txt", makeTagFileContent (infoThree files today))]

/-- Tagmanifest content over a fixed covered listing. -/
def tmContent (base : List (PyStr × PyStr)) (H : HashImpl) (c : PyStr) : PyStr :=
  (base.map (fun f => hashApply H c (strBytes f.2) ++ pstr " " ++ f.1 ++ pstr "\n")).flatten

/-- Every root file of the fresh bag. -/
def allRoots (files : List (PyStr × Bytes)) (cs : List PyStr) (today : PyStr)
    (H : HashImpl) : List (PyStr × PyStr) :=
  coreRoots files cs today H
    ++ cs.map (fun c => (tmName c, tmContent (coreRoots files cs today H) H c))

/-- The directory `make_bag` leaves behind. -/
def freshDisk (files : List (PyStr × Bytes)) (cs : List PyStr) (today : PyStr)
    (H : HashImpl) : BagDisk :=
  ⟨true, dataPrefixed files, allRoots files cs today H⟩

/-- The algorithms of the fresh bag in `checksum_algos` order. -/
def algsOf (cs : List PyStr) : List PyStr := checksumAlgos.filter (fun a => cs.contains a)

/-- The payload entries of the freshly loaded bag. -/
def payEntries (files : List (PyStr × Bytes)) (cs : List PyStr) (H : HashImpl) :
    List (PyStr × List (PyStr × PyStr)) :=
  (sortedWalk files).map (fun p => (p, (algsOf cs).map (fun a =>
    (a, hashApply H a ((lookupAssoc p (dataPrefixed files)).getD [])))))

/-- The tag-file entries of the freshly loaded bag. -/
def tagEntries (files : List (PyStr × Bytes)) (cs : List PyStr) (today : PyStr)
    (H : HashImpl) : List (PyStr × List (PyStr × PyStr)) :=
  (coreRoots files cs today H).map (fun f => (f.1, (algsOf cs).map (fun a =>
    (a, hashApply H a (strBytes f.2)))))

/-- The parsed `bag-info.txt` of the fresh bag. -/
def freshInfo (files : List (PyStr × Bytes)) (today : PyStr) : TagMap :=
  [(pstr "Bag-Software-Agent", .one agentString),
   (pstr "Bagging-Date", .one (pyStrip (stripCRLF today))),
   (pstr "Payload-Oxum", .one (oxumOfWalk (dataPrefixed files) (sortedWalk files)))]

/-- The fresh bag as `Bag(path)` loads it. -/
def freshBag (files : List (PyStr × Bytes)) (cs : List PyStr) (today : PyStr)
    (H : HashImpl) : Bag :=
  { tags := [(pstr "BagIt-Version", .one (pstr "0.97")),
             (pstr "Tag-File-Character-Encoding", .one (pstr "UTF-8"))],
    info := freshInfo files today,
    version := pstr "0.97", encoding := pstr "UTF-8",
    tagFileName := pstr "bag-info.txt",
    entries := payEntries files cs H ++ tagEntries files cs today H,
    algs := algsOf cs ++ algsOf cs }


set_option maxRecDepth 1000000

/-! ## General lemmas: stripping and line splitting -/

theorem pyStripRight_append {xs ys : PyStr} (h : pyStripRight ys ≠ []) :
    pyStripRight (xs ++ ys) = xs ++ pyStripRight ys := by
  have hne : ¬ ((ys.reverse.dropWhile pyIsSpace).isEmpty = true) := by
    rw [List.isEmpty_iff]
    intro hc
    apply h
    unfold pyStripRight
    rw [hc, List.reverse_nil]
  unfold pyStripRight
  rw [List.reverse_append, List.dropWhile_append, if_neg hne, List.reverse_append,
    List.reverse_reverse]

theorem pyStripRight_cons_of_not_space {c : Char} {t : PyStr} (h : pyIsSpace c = false) :
    pyStripRight (c :: t) = c :: pyStripRight t := by
  unfold pyStripRight
  rw [show (c :: t).reverse = t.reverse ++ [c] from by simp, List.dropWhile_append]
  by_cases ht : (t.reverse.dropWhile pyIsSpace).isEmpty = true
  · rw [if_pos ht]
    rw [List.isEmpty_iff] at ht
    simp [List.dropWhile, h, ht]
  · rw [if_neg ht]
    simp

theorem pyStripRight_ne_nil_of_cons {c : Char} {t : PyStr} (h : pyIsSpace c = false) :
    pyStripRight (c :: t) ≠ [] := by
  rw [pyStripRight_cons_of_not_space h]
  exact List.cons_ne_nil _ _

theorem pyStripRight_append_newline (s : PyStr) :
    pyStripRight (s ++ [('\n' : Char)]) = pyStripRight s := by
  unfold pyStripRight
  rw [List.reverse_append]
  simp [List.dropWhile_cons, show pyIsSpace '\n' = true from rfl]

theorem pyStripRight_eq_self {s : PyStr} {d : Char} (h : pyIsSpace (s.getLastD d) = false) :
    pyStripRight s = s := by
  unfold pyStripRight
  cases hs : s.reverse with
  | nil => simpa using congrArg List.reverse hs
  | cons c t =>
    have : s.getLastD d = c := by
      have := congrArg List.reverse hs
      rw [List.reverse_reverse] at this
      subst this
      simp [List.getLastD_concat]
    rw [this] at h
    rw [List.dropWhile_cons, if_neg (by simp [h]), ← hs, List.reverse_reverse]

theorem pyStripRight_cons_of_ne_nil {c : Char} {t : PyStr} (h : pyStripRight t ≠ []) :
    pyStripRight (c :: t) = c :: pyStripRight t :=
  @pyStripRight_append [c] t h

theorem pyStripRight_cons_nil {c : Char} {t : PyStr} (h : pyStripRight t = [])
    (hc : pyIsSpace c = true) : pyStripRight (c :: t) = [] := by
  unfold pyStripRight at h ⊢
  rw [show (c :: t).reverse = t.reverse ++ [c] from by simp, List.dropWhile_append,
    if_pos (by rw [List.isEmpty_iff]; rwa [List.reverse_eq_nil_iff] at h)]
  simp [List.dropWhile, hc]

theorem dropWhile_pyStripRight (s : PyStr) :
    (pyStripRight s).dropWhile pyIsSpace = pyStripRight (s.dropWhile pyIsSpace) := by
  induction s with
  | nil => rfl
  | cons c t ih =>
    by_cases hc : pyIsSpace c = true
    · by_cases ht : pyStripRight t = []
      · rw [pyStripRight_cons_nil ht hc, List.dropWhile_cons, if_pos hc, ← ih, ht]
      · rw [pyStripRight_cons_of_ne_nil ht, List.dropWhile_cons, if_pos hc,
          List.dropWhile_cons, if_pos hc, ih]
    · rw [pyStripRight_cons_of_not_space (by simpa using hc), List.dropWhile_cons,
        if_neg hc, List.dropWhile_cons, if_neg hc,
        pyStripRight_cons_of_not_space (by simpa using hc)]

theorem pyStrip_pyStripRight (s : PyStr) : pyStrip (pyStripRight s) = pyStrip s := by
  unfold pyStrip
  rw [dropWhile_pyStripRight]
  unfold pyStripRight
  rw [List.reverse_reverse, List.dropWhile_idempotent]

theorem pyStrip_eq_self {s : PyStr} (h1 : pyIsSpace (s.headD ' ') = false)
    (h2 : pyIsSpace (s.getLastD ' ') = false) : pyStrip s = s := by
  unfold pyStrip
  cases s with
  | nil => rfl
  | cons c t =>
    rw [List.dropWhile_cons, if_neg (by simpa using h1)]
    exact pyStripRight_eq_self h2

theorem pyStrip_cons_space {c : Char} {t : PyStr} (hc : pyIsSpace c = true) :
    pyStrip (c :: t) = pyStrip t := by
  unfold pyStrip
  rw [List.dropWhile_cons, if_pos hc]

theorem headD_append_of_ne_nil {k r : PyStr} {d : Char} (h : k ≠ []) :
    (k ++ r).headD d = k.headD d := by
  cases k with
  | nil => exact absurd rfl h
  | cons c t => rfl

theorem splitOnce_append {sep : Char} {k r : PyStr} (h : sep ∉ k) :
    splitOnce sep (k ++ sep :: r) = (k, r) := by
  induction k with
  | nil => simp [splitOnce]
  | cons c t ih =>
    have hc : ¬ (c = sep) := fun hc => h (by simp [hc])
    rw [List.cons_append]
    unfold splitOnce
    rw [if_neg hc, ih (fun hm => h (List.mem_cons_of_mem _ hm))]

theorem splitLinesPy_append {l : PyStr} (s : PyStr) (hnl : ('\n' : Char) ∉ l) :
    splitLinesPy (l ++ '\n' :: s) = (l ++ ['\n']) :: splitLinesPy s := by
  induction l with
  | nil => simp [splitLinesPy]
  | cons c t ih =>
    have hc : ¬ (c = '\n') := fun h => hnl (by simp [h])
    have ht : ('\n' : Char) ∉ t := fun h => hnl (List.mem_cons_of_mem _ h)
    rw [List.cons_append]
    conv_lhs => rw [splitLinesPy]
    rw [if_neg hc, ih ht]
    rfl

theorem contains_eq_true_of_mem {c : Char} {l : PyStr} (h : c ∈ l) :
    l.contains c = true := List.elem_iff.mpr h

theorem not_mem_of_contains_eq_false {c : Char} {l : PyStr} (h : l.contains c = false) :
    c ∉ l := by
  intro hm
  rw [contains_eq_true_of_mem hm] at h
  exact Bool.noConfusion h

/-! ## General lemmas: association lists -/

theorem lookupAssoc_append {α : Type} (k : PyStr) (m₁ m₂ : List (PyStr × α)) :
    lookupAssoc k (m₁ ++ m₂) =
      (match lookupAssoc k m₁ with
       | some v => some v
       | none => lookupAssoc k m₂) := by
  induction m₁ with
  | nil => simp [lookupAssoc]
  | cons kv rest ih =>
    by_cases hk : kv.1 = k
    · simp [lookupAssoc, hk]
    · simpa [lookupAssoc, hk] using ih

theorem lookupAssoc_eq_none {α : Type} {k : PyStr} {m : List (PyStr × α)}
    (h : ∀ kv ∈ m, kv.1 ≠ k) : lookupAssoc k m = none := by
  induction m with
  | nil => rfl
  | cons kv rest ih =>
    rw [show lookupAssoc k (kv :: rest) = if kv.1 = k then some kv.2 else lookupAssoc k rest
        from rfl, if_neg (h kv (List.mem_cons_self ..)),
      ih (fun x hx => h x (List.mem_cons_of_mem _ hx))]

theorem insertTagDup_of_none {m : TagMap} {kv : PyStr × PyStr}
    (h : lookupAssoc kv.1 m = none) : insertTagDup m kv = m ++ [(kv.1, .one kv.2)] := by
  induction m with
  | nil => rfl
  | cons kv' rest ih =>
    have hne : ¬ (kv'.1 = kv.1) := by
      intro hc
      rw [show lookupAssoc kv.1 (kv' :: rest) = if kv'.1 = kv.1 then some kv'.2
          else lookupAssoc kv.1 rest from rfl, if_pos hc] at h
      exact Option.noConfusion h
    have hrest : lookupAssoc kv.1 rest = none := by
      rw [show lookupAssoc kv.1 (kv' :: rest) = if kv'.1 = kv.1 then some kv'.2
          else lookupAssoc kv.1 rest from rfl, if_neg hne] at h
      exact h
    show (if kv'.1 = kv.1 then _ else _) = _
    rw [if_neg hne, ih hrest, List.cons_append]

theorem foldl_insertTagDup_nodup (pairs : List (PyStr × PyStr)) (acc : TagMap)
    (hdisj : ∀ kv ∈ pairs, lookupAssoc kv.1 acc = none)
    (hnd : (pairs.map Prod.fst).Nodup) :
    pairs.foldl insertTagDup acc = acc ++ pairs.map (fun kv => (kv.1, .one kv.2)) := by
  induction pairs generalizing acc with
  | nil => simp
  | cons kv rest ih =>
    rw [List.foldl_cons, insertTagDup_of_none (hdisj kv (List.mem_cons_self ..))]
    rw [List.map_cons] at hnd
    rw [ih _ ?_ hnd.of_cons]
    · simp
    · intro kv' hkv'
      rw [lookupAssoc_append, hdisj kv' (List.mem_cons_of_mem _ hkv')]
      show (if kv.1 = kv'.1 then some (TagValue.one kv.2) else lookupAssoc kv'.1 []) = none
      rw [if_neg ?_]
      · rfl
      · intro hc
        exact (List.nodup_cons.mp hnd).1 (hc ▸ List.mem_map_of_mem Prod.fst hkv')

/-! ## General lemmas: the tag-file round trip -/

theorem parseTagsLoop_tagLines (L : List (PyStr × PyStr)) (st : Option (PyStr × PyStr))
    (hL : ∀ kv ∈ L, goodTagKeyB kv.1 = true ∧ ('\n' : Char) ∉ kv.2) :
    parseTagsLoop (L.map (fun kv => tagLine kv.1 kv.2)) st
      = .ok (stateYield st ++ L.map (fun kv => (kv.1, pyStrip kv.2))) := by
  induction L generalizing st with
  | nil => simp [parseTagsLoop]
  | cons kv L' ih =>
    obtain ⟨hk, hw⟩ := hL kv (List.mem_cons_self ..)
    obtain ⟨hne, hcol, hnl, hcr, hhead, hbom, hlast⟩ := by
      simpa only [goodTagKeyB, Bool.and_eq_true, Bool.not_eq_true', beq_iff_eq,
        beq_eq_false_iff_ne, ne_eq, and_assoc] using hk
    obtain ⟨c, t, hkct⟩ := List.exists_cons_of_ne_nil hne
    have hline : tagLine kv.1 kv.2 = kv.1 ++ ':' :: ' ' :: (kv.2 ++ ['\n']) := by
      simp [tagLine, pstr]
    have hheadc : pyIsSpace c = false := by
      rw [hkct] at hhead; simpa using hhead
    rw [List.map_cons, hline]
    unfold parseTagsLoop
    rw [if_neg ?_, if_neg ?_, if_neg ?_]
    · have hstrip : pyStrip (kv.1 ++ ':' :: ' ' :: (kv.2 ++ ['\n']))
          = kv.1 ++ ':' :: pyStripRight (' ' :: kv.2) := by
        unfold pyStrip
        rw [hkct, List.cons_append, List.dropWhile_cons, if_neg (by simp [hheadc]),
          ← List.cons_append, ← hkct]
        rw [@pyStripRight_append kv.1 (':' :: ' ' :: (kv.2 ++ ['\n'])) ?_]
        · rw [pyStripRight_cons_of_not_space (by decide),
            show (' ' :: (kv.2 ++ ['\n'])) = (' ' :: kv.2) ++ ['\n'] from by simp,
            pyStripRight_append_newline]
        · exact pyStripRight_ne_nil_of_cons (by decide)
      simp only [hstrip, splitOnce_append (not_mem_of_contains_eq_false hcol)]
      have hkstrip : pyStrip kv.1 = kv.1 := by
        refine pyStrip_eq_self ?_ ?_
        · rw [hkct]; simpa using hheadc
        · simpa using hlast
      rw [hkstrip, ih _ (fun x hx => hL x (List.mem_cons_of_mem _ hx))]
      have hyield : stateYield (some (kv.1, pyStripRight (' ' :: kv.2)))
          = [(kv.1, pyStrip kv.2)] := by
        simp only [stateYield]
        rw [if_pos hne, pyStrip_pyStripRight, pyStrip_cons_space (by decide)]
      rw [hyield]
      simp
    · show ¬ ¬ ((kv.1 ++ ':' :: ' ' :: (kv.2 ++ ['\n'])).contains ':' = true)
      rw [not_not]
      exact contains_eq_true_of_mem (List.mem_append_right _ (List.mem_cons_self ..))
    · rintro ⟨h1, -⟩
      rw [headD_append_of_ne_nil hne, hkct] at h1
      simp [hheadc] at h1
    · rintro (h1 | h1)
      · rw [hkct] at h1
        simp at h1
      · rw [hkct, List.cons_append, List.all_cons, hheadc] at h1
        simp at h1

theorem stripCRLF_eq_self {v : PyStr} (h1 : ('\n' : Char) ∉ v) (h2 : ('\r' : Char) ∉ v) :
    stripCRLF v = v := by
  unfold stripCRLF
  refine List.filter_eq_self.mpr ?_
  intro c hc
  have hne : ¬ (c = '\n' ∨ c = '\r') := by
    rintro (rfl | rfl)
    exacts [h1 hc, h2 hc]
  exact decide_eq_true hne

theorem not_mem_stripCRLF_nl (v : PyStr) : ('\n' : Char) ∉ stripCRLF v := by
  intro hm
  have := (List.mem_filter.mp hm).2
  simp at this

theorem splitLinesPy_tagLines (L : List (PyStr × PyStr))
    (h : ∀ kv ∈ L, ('\n' : Char) ∉ kv.1 ∧ ('\n' : Char) ∉ kv.2) :
    splitLinesPy ((L.map (fun kv => tagLine kv.1 kv.2)).flatten)
      = L.map (fun kv => tagLine kv.1 kv.2) := by
  induction L with
  | nil => rfl
  | cons kv L' ih =>
    obtain ⟨h1, h2⟩ := h kv (List.mem_cons_self ..)
    rw [List.map_cons, List.flatten_cons]
    have hsplit : tagLine kv.1 kv.2 ++ (L'.map (fun kv => tagLine kv.1 kv.2)).flatten
        = (kv.1 ++ ':' :: ' ' :: kv.2)
            ++ '\n' :: (L'.map (fun kv => tagLine kv.1 kv.2)).flatten := by
      simp [tagLine, pstr]
    rw [hsplit, splitLinesPy_append _ ?_, ih (fun x hx => h x (List.mem_cons_of_mem _ hx))]
    · congr 1
      simp [tagLine, pstr]
    · intro hm
      rcases List.mem_append.mp hm with hm | hm
      · exact h1 hm
      · simp only [List.mem_cons] at hm
        rcases hm with hm | hm | hm
        · exact absurd hm (by decide)
        · exact absurd hm (by decide)
        · exact h2 hm

theorem parseTags_tagLines (L : List (PyStr × PyStr))
    (hL : ∀ kv ∈ L, goodTagKeyB kv.1 = true ∧ ('\n' : Char) ∉ kv.2) :
    parseTags ((L.map (fun kv => tagLine kv.1 kv.2)).flatten)
      = .ok (L.map (fun kv => (kv.1, pyStrip kv.2))) := by
  have hkeysnl : ∀ kv ∈ L, ('\n' : Char) ∉ kv.1 ∧ ('\n' : Char) ∉ kv.2 := by
    intro kv hkv
    obtain ⟨hk, hw⟩ := hL kv hkv
    refine ⟨?_, hw⟩
    obtain ⟨-, -, h3, -⟩ := by
      simpa only [goodTagKeyB, Bool.and_eq_true, Bool.not_eq_true', and_assoc] using hk
    exact not_mem_of_contains_eq_false h3
  unfold parseTags
  rw [splitLinesPy_tagLines L hkeysnl]
  have hbomstrip : stripBOMFirstLine (L.map (fun kv => tagLine kv.1 kv.2))
      = L.map (fun kv => tagLine kv.1 kv.2) := by
    cases hLc : L with
    | nil => rfl
    | cons kv L' =>
      rw [List.map_cons]
      have hk := (hL kv (hLc ▸ List.mem_cons_self ..)).1
      obtain ⟨hne, -, -, -, -, hbom, -⟩ := by
        simpa only [goodTagKeyB, Bool.and_eq_true, Bool.not_eq_true', beq_iff_eq,
          beq_eq_false_iff_ne, ne_eq, and_assoc] using hk
      have hhead : (tagLine kv.1 kv.2).headD ' ' = kv.1.headD ' ' := by
        unfold tagLine
        rw [List.append_assoc, List.append_assoc, headD_append_of_ne_nil hne]
      simp only [stripBOMFirstLine]
      rw [if_neg (by rw [hhead]; exact hbom)]
  rw [hbomstrip, parseTagsLoop_tagLines L none hL]
  rfl

theorem loadTagFile_tagLines (L : List (PyStr × PyStr))
    (hL : ∀ kv ∈ L, goodTagKeyB kv.1 = true ∧ ('\n' : Char) ∉ kv.2)
    (hnd : (L.map Prod.fst).Nodup) :
    loadTagFile ((L.map (fun kv => tagLine kv.1 kv.2)).flatten)
      = .ok (L.map (fun kv => (kv.1, TagValue.one (pyStrip kv.2)))) := by
  unfold loadTagFile
  rw [parseTags_tagLines L hL]
  show Except.ok (List.foldl insertTagDup [] (L.map (fun kv => (kv.1, pyStrip kv.2)))) = _
  rw [foldl_insertTagDup_nodup _ [] (fun kv _ => rfl) (by simpa using hnd)]
  simp

theorem map_lookup_tagLine (M : List (PyStr × PyStr)) (hnd : (M.map Prod.fst).Nodup) :
    (M.map Prod.fst).map (emitTagEntry (M.map (fun kv => (kv.1, TagValue.one kv.2))))
    = M.map (fun kv => tagLine kv.1 (stripCRLF kv.2)) := by
  induction M with
  | nil => rfl
  | cons kv M' ih =>
    rw [List.map_cons] at hnd
    rw [List.map_cons, List.map_cons, List.map_cons, List.map_cons]
    congr 1
    · unfold emitTagEntry
      have hself : lookupAssoc kv.1 ((kv.1, TagValue.one kv.2)
          :: M'.map (fun kv => (kv.1, TagValue.one kv.2))) = some (TagValue.one kv.2) := by
        show (if kv.1 = kv.1 then _ else _) = _
        rw [if_pos rfl]
      rw [hself]
    · rw [← ih hnd.of_cons]
      refine List.map_congr_left ?_
      intro h hmem
      have hne : ¬ (kv.1 = h) := by
        intro hc
        exact (List.nodup_cons.mp hnd).1 (hc ▸ hmem)
      have hskip : lookupAssoc h ((kv.1, TagValue.one kv.2)
          :: M'.map (fun kv => (kv.1, TagValue.one kv.2)))
          = lookupAssoc h (M'.map (fun kv => (kv.1, TagValue.one kv.2))) := by
        show (if kv.1 = h then _ else _) = _
        rw [if_neg hne]
      unfold emitTagEntry
      rw [hskip]

theorem makeTagFileContent_ones (M : List (PyStr × PyStr))
    (hsort : (M.map Prod.fst).Sorted strLeP)
    (hnd : (M.map Prod.fst).Nodup) :
    makeTagFileContent (M.map (fun kv => (kv.1, TagValue.one kv.2)))
      = ((M.map (fun kv => (kv.1, stripCRLF kv.2))).map
          (fun kv => tagLine kv.1 kv.2)).flatten := by
  unfold makeTagFileContent
  rw [show (M.map (fun kv => (kv.1, TagValue.one kv.2))).map Prod.fst = M.map Prod.fst
      from by simp]
  rw [hsort.insertionSort_eq, map_lookup_tagLine M hnd]
  rw [List.map_map]
  rfl

theorem loadTagFile_makeTagFile (M : List (PyStr × PyStr))
    (hsort : (M.map Prod.fst).Sorted strLeP)
    (hnd : (M.map Prod.fst).Nodup)
    (hkeys : ∀ kv ∈ M, goodTagKeyB kv.1 = true) :
    loadTagFile (makeTagFileContent (M.map (fun kv => (kv.1, TagValue.one kv.2))))
      = .ok (M.map (fun kv => (kv.1, TagValue.one (pyStrip (stripCRLF kv.2))))) := by
  rw [makeTagFileContent_ones M hsort hnd]
  rw [loadTagFile_tagLines _ ?_ (by simpa using hnd)]
  · simp
  · intro kv hkv
    obtain ⟨kv₀, hkv₀, rfl⟩ := List.mem_map.mp hkv
    exact ⟨hkeys kv₀ hkv₀, not_mem_stripCRLF_nl kv₀.2⟩

/-! ## General lemmas: decimal rendering and the Oxum -/

theorem pyIsDigit_digitChar {m : Nat} (h : m < 10) : pyIsDigit (digitChar m) = true := by
  interval_cases m <;> decide

theorem toNat_digitChar {m : Nat} (h : m < 10) : (digitChar m).toNat = 48 + m := by
  interval_cases m <;> decide

theorem natStrGo_ne_nil {fuel n : Nat} (h : n < fuel) : natStrGo fuel n ≠ [] := by
  cases fuel with
  | zero => omega
  | succ fuel =>
    unfold natStrGo
    by_cases h10 : n < 10
    · rw [if_pos h10]
      exact List.cons_ne_nil _ _
    · rw [if_neg h10]
      simp

theorem natStrGo_digits {fuel : Nat} : ∀ {n}, n < fuel →
    ∀ c ∈ natStrGo fuel n, pyIsDigit c = true := by
  induction fuel with
  | zero => intro n h; omega
  | succ fuel ih =>
    intro n h c hc
    unfold natStrGo at hc
    by_cases h10 : n < 10
    · rw [if_pos h10] at hc
      rcases List.mem_singleton.mp hc with rfl
      exact pyIsDigit_digitChar h10
    · rw [if_neg h10] at hc
      rcases List.mem_append.mp hc with hc | hc
      · have hlt : n / 10 < fuel := by
          have := Nat.div_lt_self (show 0 < n by omega) (show 1 < 10 by omega)
          omega
        exact ih hlt c hc
      · rcases List.mem_singleton.mp hc with rfl
        exact pyIsDigit_digitChar (Nat.mod_lt _ (by omega))

theorem natOfDigits_append_digit (a : PyStr) (c : Char) :
    natOfDigits (a ++ [c]) = 10 * natOfDigits a + (c.toNat - 48) := by
  unfold natOfDigits
  rw [List.foldl_append]
  rfl

theorem natOfDigits_natStrGo {fuel : Nat} : ∀ {n}, n < fuel →
    natOfDigits (natStrGo fuel n) = n := by
  induction fuel with
  | zero => intro n h; omega
  | succ fuel ih =>
    intro n h
    unfold natStrGo
    by_cases h10 : n < 10
    · rw [if_pos h10]
      show 10 * 0 + ((digitChar n).toNat - 48) = n
      rw [toNat_digitChar h10]
      omega
    · have hlt : n / 10 < fuel := by
        have := Nat.div_lt_self (show 0 < n by omega) (show 1 < 10 by omega)
        omega
      rw [if_neg h10, natOfDigits_append_digit, ih hlt,
        toNat_digitChar (Nat.mod_lt _ (by omega))]
      have := Nat.div_add_mod n 10
      omega

theorem natStr_digits (n : Nat) : ∀ c ∈ natStr n, pyIsDigit c = true :=
  natStrGo_digits (Nat.lt_succ_self n)

theorem natStr_ne_nil (n : Nat) : natStr n ≠ [] := natStrGo_ne_nil (Nat.lt_succ_self n)

theorem natOfDigits_natStr (n : Nat) : natOfDigits (natStr n) = n :=
  natOfDigits_natStrGo (Nat.lt_succ_self n)

theorem digit_not_space {c : Char} (h : pyIsDigit c = true) : pyIsSpace c = false := by
  have h1 : 48 ≤ c.toNat ∧ c.toNat ≤ 57 := by
    unfold pyIsDigit at h
    rw [Bool.and_eq_true, decide_eq_true_iff, decide_eq_true_iff] at h
    exact ⟨h.1, h.2⟩
  unfold pyIsSpace
  simp only [Bool.or_eq_false_iff, Bool.and_eq_false_iff, decide_eq_false_iff_not, Nat.not_le]
  omega

theorem digit_ne {c d : Char} (h : pyIsDigit c = true) (hd : pyIsDigit d = false) :
    c ≠ d := by
  intro hc
  rw [hc, hd] at h
  exact Bool.noConfusion h

theorem pyIsDigitStr_natStr (n : Nat) : pyIsDigitStr (natStr n) = true := by
  unfold pyIsDigitStr
  rw [List.all_eq_true.mpr (natStr_digits n), decide_eq_true (natStr_ne_nil n)]
  rfl

theorem getLastD_append_of_ne_nil {a b : PyStr} (h : b ≠ []) :
    ∀ d, (a ++ b).getLastD d = b.getLastD d := by
  induction a with
  | nil => intro d; rfl
  | cons c t ih =>
    intro d
    rw [List.cons_append, List.getLastD_cons, ih]
    cases hb : b with
    | nil => exact absurd hb h
    | cons x y => rw [List.getLastD_cons, List.getLastD_cons]

/-! ## General lemmas: validation plumbing -/

theorem validate_eq_contents {b : Bag} {disk : BagDisk} {H : HashImpl} {fast : Bool}
    (hs : validateStructure disk = .ok ()) (hb : validateBagitTxt disk = .ok ()) :
    validate b disk H fast = validateContents b disk H fast := by
  unfold validate
  rw [hs, hb]
  rfl

theorem validateContents_fast (b : Bag) (disk : BagDisk) (H : HashImpl) :
    validateContents b disk H true
      = if hasOxum b then validateOxum b disk else .error oxumMissingError := by
  unfold validateContents
  by_cases hox : hasOxum b = true
  · rw [if_pos hox, if_neg (by simp [hox]), if_neg (by simp)]
    show (Except.ok () >>= fun _ => validateOxum b disk >>= fun _ => Except.ok ()) = _
    cases hv : validateOxum b disk with
    | ok u => cases u; rfl
    | error e => rfl
  · rw [if_neg hox, if_pos (by simp [hox])]
    rfl

theorem validateContents_full (b : Bag) (disk : BagDisk) (H : HashImpl)
    (hox : validateOxum b disk = .ok ()) :
    validateContents b disk H false = validateEntries b disk H := by
  unfold validateContents
  rw [if_neg (by simp), hox]
  show (Except.ok () >>= fun _ => Except.ok () >>= fun _ =>
    if ¬ false = true then validateEntries b disk H else Except.ok ()) = _
  rw [if_pos (by simp)]
  rfl

theorem mkOxumErrorMsg_ne_missing (a b c d : Nat) :
    BagErr.bagValidationError (mkOxumErrorMsg a b c d) [] ≠ oxumMissingError := by
  intro h
  have hmsg : mkOxumErrorMsg a b c d
      = pstr "cannot validate Bag with fast=True if Bag lacks a Payload-Oxum" := by
    injection h
  have h1 : (mkOxumErrorMsg a b c d).headD ' ' = 'O' := by
    unfold mkOxumErrorMsg
    rfl
  rw [hmsg] at h1
  exact absurd h1 (by decide)

theorem validateOxumStr_error_shape {ox : PyStr} {disk : BagDisk} {e : BagErr}
    (h : validateOxumStr ox disk = .error e) : e ≠ oxumMissingError := by
  unfold validateOxumStr at h
  split at h
  · injection h with h
    rw [← h]
    intro hc
    exact BagErr.noConfusion hc
  · split at h
    · injection h with h
      rw [← h]
      intro hc
      exact BagErr.noConfusion hc
    · split at h
      · injection h with h
        rw [← h]
        exact mkOxumErrorMsg_ne_missing _ _ _ _
      · exact absurd h (by simp)

theorem validateOxum_error_shape {b : Bag} {disk : BagDisk} {e : BagErr}
    (h : validateOxum b disk = .error e) : e ≠ oxumMissingError := by
  unfold validateOxum at h
  split at h
  · exact absurd h (by simp)
  · exact validateOxumStr_error_shape h

theorem validateOxumStr_ok_totals (disk : BagDisk) :
    validateOxumStr (natStr ((disk.payload.map (fun f => f.2.length)).sum)
        ++ pstr "." ++ natStr disk.payload.length) disk = .ok () := by
  have hdot : ('.' : Char) ∉ natStr ((disk.payload.map (fun f => f.2.length)).sum) := by
    intro hm
    exact absurd (natStr_digits _ '.' hm) (by decide)
  have hsplit : splitOnce '.' (natStr ((disk.payload.map (fun f => f.2.length)).sum)
      ++ pstr "." ++ natStr disk.payload.length)
      = (natStr ((disk.payload.map (fun f => f.2.length)).sum),
         natStr disk.payload.length) := by
    rw [List.append_assoc]
    exact splitOnce_append hdot
  have hmem : ('.' : Char) ∈ natStr ((disk.payload.map (fun f => f.2.length)).sum)
      ++ pstr "." ++ natStr disk.payload.length := by
    rw [List.append_assoc]
    exact List.mem_append_right _ (List.mem_cons_self ..)
  unfold validateOxumStr
  rw [hsplit, if_neg (by rw [not_not]; exact contains_eq_true_of_mem hmem), if_neg ?_,
    if_neg ?_]
  · simp [natOfDigits_natStr]
  · rw [not_not]
    exact ⟨pyIsDigitStr_natStr _, pyIsDigitStr_natStr _⟩

/-! ## General lemmas: dict updates and root-file lookups -/

theorem lookupAssoc_dictSet_self {α : Type} (m : List (PyStr × α)) (k : PyStr) (v : α) :
    lookupAssoc k (dictSet m k v) = some v := by
  induction m with
  | nil => simp [dictSet, lookupAssoc]
  | cons kv rest ih =>
    by_cases hk : kv.1 = k
    · simp [dictSet, lookupAssoc, hk]
    · simp only [dictSet]
      rw [if_neg (by simpa using hk)]
      show (if kv.1 = k then some kv.2 else lookupAssoc k (dictSet rest k v)) = some v
      rw [if_neg hk, ih]

theorem lookupAssoc_dictSet_ne {α : Type} (m : List (PyStr × α)) {k' k : PyStr} (v : α)
    (h : k' ≠ k) : lookupAssoc k (dictSet m k' v) = lookupAssoc k m := by
  induction m with
  | nil => simp [dictSet, lookupAssoc, h]
  | cons kv rest ih =>
    by_cases hk : kv.1 = k'
    · simp only [dictSet]
      rw [if_pos (by simpa using hk)]
      show (if kv.1 = k then some v else lookupAssoc k rest)
        = (if kv.1 = k then some kv.2 else lookupAssoc k rest)
      rw [if_neg (hk ▸ h), if_neg (hk ▸ h)]
    · simp only [dictSet]
      rw [if_neg (by simpa using hk)]
      show (if kv.1 = k then some kv.2 else lookupAssoc k (dictSet rest k' v))
        = (if kv.1 = k then some kv.2 else lookupAssoc k rest)
      by_cases hkk : kv.1 = k
      · rw [if_pos hkk, if_pos hkk]
      · rw [if_neg hkk, if_neg hkk, ih]

theorem dictSet_of_none {α : Type} {m : List (PyStr × α)} {k : PyStr} {v : α}
    (h : lookupAssoc k m = none) : dictSet m k v = m ++ [(k, v)] := by
  induction m with
  | nil => rfl
  | cons kv rest ih =>
    have hne : ¬ (kv.1 = k) := by
      intro hc
      rw [show lookupAssoc k (kv :: rest) = if kv.1 = k then some kv.2 else lookupAssoc k rest
          from rfl, if_pos hc] at h
      exact Option.noConfusion h
    have hrest : lookupAssoc k rest = none := by
      rw [show lookupAssoc k (kv :: rest) = if kv.1 = k then some kv.2 else lookupAssoc k rest
          from rfl, if_neg hne] at h
      exact h
    show (if kv.1 = k then _ else _) = _
    rw [if_neg hne, ih hrest, List.cons_append]

/-! ## General lemmas: codec and path-normalisation identities -/

theorem contains_eq_false_of_not_mem {c : Char} {l : PyStr} (h : c ∉ l) :
    l.contains c = false := by
  cases hc : l.contains c with
  | false => rfl
  | true => exact absurd (List.elem_iff.mp hc) h

theorem replaceLimitedGo_eq_self {pat repl : PyStr} :
    ∀ {s : PyStr} (fuel : Nat) (count : Option Nat), hasSubstr pat s = false →
      replaceLimitedGo pat repl fuel s count = s := by
  intro s
  induction s with
  | nil =>
    intro fuel count h
    cases fuel <;> rfl
  | cons c rest ih =>
    intro fuel count h
    cases fuel with
    | zero => rfl
    | succ fuel =>
      have hpre : pat.isPrefixOf (c :: rest) = false := by
        unfold hasSubstr at h
        exact (Bool.or_eq_false_iff.mp h).1
      have hrest : hasSubstr pat rest = false := by
        unfold hasSubstr at h
        exact (Bool.or_eq_false_iff.mp h).2
      unfold replaceLimitedGo
      rw [if_neg ?_, ih fuel count hrest]
      rintro ⟨-, h2, -⟩
      rw [hpre] at h2
      exact Bool.noConfusion h2

theorem replaceLimited_eq_self {pat repl s : PyStr} {count : Option Nat}
    (h : hasSubstr pat s = false) : replaceLimited pat repl s count = s :=
  replaceLimitedGo_eq_self _ _ h

theorem hasSubstr_singleton (c : Char) (s : PyStr) : hasSubstr [c] s = s.contains c := by
  induction s with
  | nil => rfl
  | cons d rest ih =>
    unfold hasSubstr
    rw [ih]
    cases hcd : c == d <;>
      simp [List.isPrefixOf, List.contains, List.elem, hcd]

theorem decodeFilename_eq_self {p : PyStr} (h1 : hasSubstr (pstr "%0D") p = false)
    (h2 : hasSubstr (pstr "%0A") p = false) : decodeFilename p = p := by
  unfold decodeFilename
  rw [replaceLimited_eq_self h1, replaceLimited_eq_self h2]

theorem encodeFilename_eq_self {p : PyStr} (h1 : ('\r' : Char) ∉ p)
    (h2 : ('\n' : Char) ∉ p) : encodeFilename p = p := by
  unfold encodeFilename
  have hr : replaceLimited (pstr "\r") (pstr "%0D") p none = p := by
    refine replaceLimited_eq_self ?_
    rw [show pstr "\r" = ['\r'] from rfl, hasSubstr_singleton]
    exact contains_eq_false_of_not_mem h1
  rw [hr]
  refine replaceLimited_eq_self ?_
  rw [show pstr "\n" = ['\n'] from rfl, hasSubstr_singleton]
  exact contains_eq_false_of_not_mem h2

theorem splitOnChar_ne_nil (sep : Char) (p : PyStr) : splitOnChar sep p ≠ [] := by
  cases p with
  | nil => simp [splitOnChar]
  | cons c rest =>
    unfold splitOnChar
    by_cases hc : c = sep
    · rw [if_pos hc]
      simp
    · rw [if_neg hc]
      cases splitOnChar sep rest <;> simp

theorem intercalate_cons_of_ne_nil {sep : Char} {a : PyStr} {ls : List PyStr}
    (h : ls ≠ []) : List.intercalate [sep] (a :: ls) = a ++ sep :: List.intercalate [sep] ls := by
  cases ls with
  | nil => exact absurd rfl h
  | cons b ls' =>
    unfold List.intercalate
    rw [List.intersperse_cons₂]
    simp

theorem intercalate_cons_head (sep c : Char) (a : PyStr) (ls : List PyStr) :
    List.intercalate [sep] ((c :: a) :: ls) = c :: List.intercalate [sep] (a :: ls) := by
  cases ls with
  | nil => simp [List.intercalate]
  | cons b ls' =>
    rw [List.intercalate, List.intercalate, List.intersperse_cons₂, List.intersperse_cons₂]
    simp [List.flatten_cons]

theorem intercalate_splitOnChar (sep : Char) (p : PyStr) :
    List.intercalate [sep] (splitOnChar sep p) = p := by
  induction p with
  | nil => rfl
  | cons c rest ih =>
    unfold splitOnChar
    by_cases hc : c = sep
    · rw [if_pos hc, intercalate_cons_of_ne_nil (splitOnChar_ne_nil sep rest), ih,
        List.nil_append, hc]
    · rw [if_neg hc]
      cases hs : splitOnChar sep rest with
      | nil => exact absurd hs (splitOnChar_ne_nil sep rest)
      | cons l ls =>
        rw [hs] at ih
        show List.intercalate [sep] ((c :: l) :: ls) = c :: rest
        rw [intercalate_cons_head, ih]

theorem normpath_fold_all (slashes : Nat) (l : List PyStr) (acc : List PyStr)
    (h : ∀ x ∈ l, ¬ (x = pstr "..")) :
    l.foldl (normpathStep slashes) acc = acc ++ l := by
  induction l generalizing acc with
  | nil => simp
  | cons x l' ih =>
    rw [List.foldl_cons,
      show normpathStep slashes acc x = acc ++ [x] from by
        unfold normpathStep
        rw [if_pos (Or.inl (h x (List.mem_cons_self ..)))],
      ih _ (fun y hy => h y (List.mem_cons_of_mem _ hy))]
    simp

theorem posixNormpath_eq_self {p : PyStr} (hne : p ≠ []) (hhead : p.headD ' ' ≠ '/')
    (hcomps : ∀ comp ∈ splitOnChar '/' p,
      ¬ (comp = []) ∧ ¬ (comp = pstr ".") ∧ ¬ (comp = pstr "..")) :
    posixNormpath p = p := by
  have hpre : (pstr "/").isPrefixOf p = false := by
    cases hp : p with
    | nil => exact absurd hp hne
    | cons c t =>
      have hc : ¬ (c = '/') := by
        rw [hp] at hhead
        simpa using hhead
      have hcc : (('/' : Char) == c) = false := by
        cases hq : (('/' : Char) == c) with
        | false => rfl
        | true => exact absurd (beq_iff_eq.mp hq).symm hc
      simp [List.isPrefixOf, pstr, hcc]
  have hfilter : (splitOnChar '/' p).filter keepComp = splitOnChar '/' p := by
    refine List.filter_eq_self.mpr ?_
    intro a ha
    obtain ⟨h1, h2, -⟩ := hcomps a ha
    simp [keepComp, h1, h2]
  have hsl : (if List.isPrefixOf (pstr "/") p = true then
      (if List.isPrefixOf (pstr "//") p = true ∧ ¬ List.isPrefixOf (pstr "///") p = true
        then 2 else 1)
    else 0) = 0 := by
    rw [hpre]
    simp
  unfold posixNormpath
  rw [if_neg hne, hsl, hfilter]
  show (if List.replicate 0 '/'
        ++ List.intercalate (pstr "/") ((splitOnChar '/' p).foldl (normpathStep 0) []) = []
      then pstr "." else List.replicate 0 '/'
        ++ List.intercalate (pstr "/") ((splitOnChar '/' p).foldl (normpathStep 0) [])) = p
  rw [normpath_fold_all 0 _ [] (fun x hx => (hcomps x hx).2.2), List.nil_append,
    List.replicate_zero, List.nil_append,
    show (pstr "/") = ['/'] from rfl, intercalate_splitOnChar, if_neg hne]

/-! ## General lemmas: manifest lines and their parsing -/

theorem foldlCongrMem {α β : Type} {f g : β → α → β} {l : List α}
    (h : ∀ b, ∀ a ∈ l, f b a = g b a) : ∀ b, l.foldl f b = l.foldl g b := by
  induction l with
  | nil => intro b; rfl
  | cons x t ih =>
    intro b
    rw [List.foldl_cons, List.foldl_cons, h b x (List.mem_cons_self ..)]
    exact ih (fun b a ha => h b a (List.mem_cons_of_mem _ ha)) _

theorem hasSubstr_cons_ne {p0 : Char} {pr : PyStr} {c : Char} {s : PyStr} (h : ¬ (p0 = c)) :
    hasSubstr (p0 :: pr) (c :: s) = hasSubstr (p0 :: pr) s := by
  show (List.isPrefixOf (p0 :: pr) (c :: s) || hasSubstr (p0 :: pr) s) = _
  have hpre : List.isPrefixOf (p0 :: pr) (c :: s) = false := by
    show ((p0 == c) && List.isPrefixOf pr s) = false
    rw [beq_eq_false_iff_ne.mpr h, Bool.false_and]
  rw [hpre, Bool.false_or]

theorem isPrefixOf_self_append (a b : PyStr) : List.isPrefixOf a (a ++ b) = true :=
  List.isPrefixOf_iff_prefix.mpr (List.prefix_append a b)

theorem takeWhile_append_cons {α : Type} (f : α → Bool) (a : List α) (x : α) (b : List α)
    (ha : ∀ c ∈ a, f c = true) (hx : f x = false) :
    (a ++ x :: b).takeWhile f = a := by
  induction a with
  | nil => simp [List.takeWhile_cons, hx]
  | cons c t ih =>
    rw [List.cons_append, List.takeWhile_cons, if_pos (ha c (List.mem_cons_self ..)),
      ih (fun y hy => ha y (List.mem_cons_of_mem _ hy))]

theorem dropWhile_append_cons {α : Type} (f : α → Bool) (a : List α) (x : α) (b : List α)
    (ha : ∀ c ∈ a, f c = true) (hx : f x = false) :
    (a ++ x :: b).dropWhile f = x :: b := by
  induction a with
  | nil => simp [List.dropWhile_cons, hx]
  | cons c t ih =>
    rw [List.cons_append, List.dropWhile_cons, if_pos (ha c (List.mem_cons_self ..)),
      ih (fun y hy => ha y (List.mem_cons_of_mem _ hy))]

theorem goodDigestB_spec {s : PyStr} (h : goodDigestB s = true) :
    s ≠ [] ∧ (∀ c ∈ s, pyIsSpace c = false) ∧ ¬ (s.headD ' ' = '#') ∧ pyLower s = s := by
  obtain ⟨h1, h2, h3, h4⟩ := by
    simpa only [goodDigestB, Bool.and_eq_true, Bool.not_eq_true', beq_iff_eq,
      beq_eq_false_iff_ne, ne_eq, and_assoc] using h
  refine ⟨h1, ?_, h3, h4⟩
  intro c hc
  simpa using List.all_eq_true.mp h2 c hc

theorem goodDigestB_head_not_space {s : PyStr} (h : goodDigestB s = true) :
    pyIsSpace (s.headD ' ') = false := by
  obtain ⟨h1, h2, -, -⟩ := goodDigestB_spec h
  cases s with
  | nil => exact absurd rfl h1
  | cons c t => exact h2 c (List.mem_cons_self ..)

theorem goodDigestB_no_newline {s : PyStr} (h : goodDigestB s = true) :
    ('\n' : Char) ∉ s := by
  intro hm
  obtain ⟨-, h2, -, -⟩ := goodDigestB_spec h
  exact absurd (h2 '\n' hm) (by decide)

theorem pySplitWs1_sep {d ws p : PyStr}
    (hd : d ≠ []) (hdns : ∀ c ∈ d, pyIsSpace c = false)
    (hws : ∀ c ∈ ws, pyIsSpace c = true) (hws0 : ws ≠ [])
    (hp : p ≠ []) (hph : pyIsSpace (p.headD ' ') = false) :
    pySplitWs1 (d ++ ws ++ p) = [d, p] := by
  obtain ⟨c, dt, rfl⟩ := List.exists_cons_of_ne_nil hd
  obtain ⟨w0, wt, rfl⟩ := List.exists_cons_of_ne_nil hws0
  obtain ⟨p0, pt, rfl⟩ := List.exists_cons_of_ne_nil hp
  have hdrop0 : ((c :: dt) ++ (w0 :: wt) ++ (p0 :: pt)).dropWhile pyIsSpace
      = (c :: dt) ++ (w0 :: wt) ++ (p0 :: pt) := by
    rw [List.append_assoc, List.cons_append, List.dropWhile_cons,
      if_neg (by simp [hdns c (List.mem_cons_self ..)]), ← List.cons_append,
      ← List.append_assoc]
  have hshape : (c :: dt) ++ (w0 :: wt) ++ (p0 :: pt)
      = (c :: dt) ++ w0 :: (wt ++ (p0 :: pt)) := by simp
  have htake : (((c :: dt) ++ (w0 :: wt) ++ (p0 :: pt)).takeWhile
      (fun x => ¬ pyIsSpace x)) = c :: dt := by
    rw [hshape]
    refine takeWhile_append_cons _ _ _ _ ?_ ?_
    · intro y hy
      simp [hdns y hy]
    · simp [hws w0 (List.mem_cons_self ..)]
  have hdrop1 : (((c :: dt) ++ (w0 :: wt) ++ (p0 :: pt)).dropWhile
      (fun x => ¬ pyIsSpace x)) = (w0 :: wt) ++ (p0 :: pt) := by
    rw [hshape]
    refine (dropWhile_append_cons _ _ _ _ ?_ ?_).trans (by simp)
    · intro y hy
      simp [hdns y hy]
    · simp [hws w0 (List.mem_cons_self ..)]
  have hdrop2 : ((w0 :: wt) ++ (p0 :: pt)).dropWhile pyIsSpace = p0 :: pt := by
    refine dropWhile_append_cons _ _ _ _ hws ?_
    simpa using hph
  unfold pySplitWs1
  rw [hdrop0, if_neg (by simp), htake, hdrop1, hdrop2, if_neg (by simp)]

theorem processManifestLine_good (alg : PyStr)
    (es : List (PyStr × List (PyStr × PyStr))) {d ws p q : PyStr}
    (hd : goodDigestB d = true)
    (hws : ∀ c ∈ ws, pyIsSpace c = true) (hws0 : ws ≠ [])
    (hp : p ≠ []) (hph : pyIsSpace (p.headD ' ') = false)
    (hpl : pyIsSpace (p.getLastD ' ') = false)
    (hq : decodeFilename (posixNormpath (p.dropWhile (fun c => c = '*'))) = q) :
    processManifestLine alg es (d ++ ws ++ p ++ pstr "\n") = insertEntry es q alg d := by
  obtain ⟨hd0, hdns, hdh, -⟩ := goodDigestB_spec hd
  have hstrip : pyStrip (d ++ ws ++ p ++ pstr "\n") = d ++ ws ++ p := by
    unfold pyStrip
    have hdr : (d ++ ws ++ p ++ pstr "\n").dropWhile pyIsSpace = d ++ ws ++ p ++ pstr "\n" := by
      obtain ⟨c, dt, rfl⟩ := List.exists_cons_of_ne_nil hd0
      rw [List.append_assoc, List.append_assoc, List.cons_append, List.dropWhile_cons,
        if_neg (by simp [hdns c (List.mem_cons_self ..)]), ← List.cons_append,
        ← List.append_assoc, ← List.append_assoc]
    have hlast : pyIsSpace ((d ++ ws ++ p).getLastD ' ') = false := by
      rw [List.append_assoc, getLastD_append_of_ne_nil (by simp [hp]),
        getLastD_append_of_ne_nil hp]
      exact hpl
    rw [hdr, show d ++ ws ++ p ++ pstr "\n" = (d ++ ws ++ p) ++ ['\n'] from by
      simp [pstr], pyStripRight_append_newline, pyStripRight_eq_self hlast]
  unfold processManifestLine
  rw [hstrip]
  rw [if_neg ?hc]
  case hc =>
    rintro (hnil | hhash)
    · obtain ⟨c, dt, rfl⟩ := List.exists_cons_of_ne_nil hd0
      exact absurd hnil (by simp)
    · rw [List.append_assoc, headD_append_of_ne_nil hd0] at hhash
      exact hdh hhash
  rw [pySplitWs1_sep hd0 hdns hws hws0 hp hph]
  show insertEntry es (decodeFilename (posixNormpath (p.dropWhile (fun c => c = '*')))) alg d = _
  rw [hq]

theorem splitLinesPy_flatten_lines {α : Type} (g : α → PyStr) (l : List α)
    (h : ∀ x ∈ l, ('\n' : Char) ∉ g x) :
    splitLinesPy ((l.map (fun x => g x ++ pstr "\n")).flatten)
      = l.map (fun x => g x ++ pstr "\n") := by
  induction l with
  | nil => rfl
  | cons x t ih =>
    rw [List.map_cons, List.flatten_cons,
      show (g x ++ pstr "\n") ++ (t.map (fun x => g x ++ pstr "\n")).flatten
        = g x ++ '\n' :: (t.map (fun x => g x ++ pstr "\n")).flatten from by simp [pstr],
      splitLinesPy_append _ (h x (List.mem_cons_self ..)),
      ih (fun y hy => h y (List.mem_cons_of_mem _ hy))]
    congr 1

theorem foldl_lines_insertEntry {ι : Type} (alg : PyStr) (key dg : ι → PyStr) (ws : PyStr)
    (l : List ι) (hws : ∀ c ∈ ws, pyIsSpace c = true) (hws0 : ws ≠ [])
    (hwsnl : ('\n' : Char) ∉ ws)
    (h : ∀ i ∈ l, goodDigestB (dg i) = true ∧ key i ≠ []
      ∧ pyIsSpace ((key i).headD ' ') = false ∧ pyIsSpace ((key i).getLastD ' ') = false
      ∧ ('\n' : Char) ∉ key i
      ∧ decodeFilename (posixNormpath ((key i).dropWhile (fun c => c = '*'))) = key i) :
    ∀ es, (splitLinesPy ((l.map (fun i => dg i ++ ws ++ key i ++ pstr "\n")).flatten)).foldl
        (processManifestLine alg) es
      = l.foldl (fun es i => insertEntry es (key i) alg (dg i)) es := by
  intro es
  rw [splitLinesPy_flatten_lines (fun i => dg i ++ ws ++ key i) l ?hnl]
  case hnl =>
    intro i hi hm
    obtain ⟨h1, -, -, -, h5, -⟩ := h i hi
    rcases List.mem_append.mp hm with hm | hm
    · rcases List.mem_append.mp hm with hm | hm
      · exact goodDigestB_no_newline h1 hm
      · exact hwsnl hm
    · exact h5 hm
  rw [List.foldl_map]
  refine foldlCongrMem ?_ es
  intro b i hi
  obtain ⟨h1, h2, h3, h4, -, h6⟩ := h i hi
  exact processManifestLine_good alg b h1 hws hws0 h2 h3 h4 h6

/-! ## General lemmas: the entry store of `_load_manifests` -/

theorem lookupAssoc_of_mem_nodup {α : Type} {m : List (PyStr × α)} {k : PyStr} {v : α}
    (hmem : (k, v) ∈ m) (hnd : (m.map Prod.fst).Nodup) : lookupAssoc k m = some v := by
  induction m with
  | nil => exact absurd hmem (by simp)
  | cons kv rest ih =>
    rw [List.map_cons] at hnd
    rcases List.mem_cons.mp hmem with heq | hmem'
    · rw [← heq]
      show (if k = k then some v else _) = some v
      rw [if_pos rfl]
    · show (if kv.1 = k then some kv.2 else lookupAssoc k rest) = some v
      rw [if_neg ?_, ih hmem' hnd.of_cons]
      intro hc
      exact (List.nodup_cons.mp hnd).1
        (hc ▸ List.mem_map_of_mem Prod.fst (show ((k, v) : PyStr × α) ∈ rest from hmem'))

theorem insertEntry_fresh {es : List (PyStr × List (PyStr × PyStr))} {p alg h : PyStr}
    (hp : lookupAssoc p es = none) : insertEntry es p alg h = es ++ [(p, [(alg, h)])] := by
  unfold insertEntry
  rw [hp]

theorem insertEntry_found {es : List (PyStr × List (PyStr × PyStr))} {p alg h : PyStr}
    {m : List (PyStr × PyStr)} (hp : lookupAssoc p es = some m) :
    insertEntry es p alg h = dictSet es p (dictSet m alg h) := by
  unfold insertEntry
  rw [hp]

theorem dictSet_append_of_none {α : Type} {m₁ : List (PyStr × α)} (m₂ : List (PyStr × α))
    (k : PyStr) (v : α) (h : lookupAssoc k m₁ = none) :
    dictSet (m₁ ++ m₂) k v = m₁ ++ dictSet m₂ k v := by
  induction m₁ with
  | nil => rfl
  | cons kv rest ih =>
    have hne : ¬ (kv.1 = k) := by
      intro hc
      rw [show lookupAssoc k (kv :: rest) = if kv.1 = k then some kv.2 else lookupAssoc k rest
          from rfl, if_pos hc] at h
      exact Option.noConfusion h
    have hrest : lookupAssoc k rest = none := by
      rw [show lookupAssoc k (kv :: rest) = if kv.1 = k then some kv.2 else lookupAssoc k rest
          from rfl, if_neg hne] at h
      exact h
    rw [List.cons_append]
    show (if kv.1 = k then _ else _) = _
    rw [if_neg hne, ih hrest, List.cons_append]

theorem dictSet_cons_self {α : Type} (k : PyStr) (v0 v : α) (rest : List (PyStr × α)) :
    dictSet ((k, v0) :: rest) k v = (k, v) :: rest := by
  show (if k = k then _ else _) = _
  rw [if_pos rfl]

theorem foldl_dictSet_fresh {α ι : Type} (key : ι → PyStr) (v : ι → α) (l : List ι)
    (hnd : (l.map key).Nodup) :
    ∀ acc, (∀ i ∈ l, lookupAssoc (key i) acc = none) →
      l.foldl (fun m i => dictSet m (key i) (v i)) acc = acc ++ l.map (fun i => (key i, v i)) := by
  induction l with
  | nil => intro acc _; simp
  | cons i t ih =>
    intro acc hfresh
    rw [List.map_cons] at hnd
    rw [List.foldl_cons, dictSet_of_none (hfresh i (List.mem_cons_self ..)),
      ih hnd.of_cons _ ?_]
    · simp
    · intro j hj
      rw [lookupAssoc_append, hfresh j (List.mem_cons_of_mem _ hj)]
      refine lookupAssoc_eq_none ?_
      intro kv hkv
      rw [List.mem_singleton] at hkv
      subst hkv
      intro hc
      exact (List.nodup_cons.mp hnd).1
        ((show key i = key j from hc) ▸ List.mem_map_of_mem key hj)

theorem foldl_insertEntry_fresh {ι : Type} (key dg : ι → PyStr) (alg : PyStr) (l : List ι)
    (hnd : (l.map key).Nodup) :
    ∀ es, (∀ i ∈ l, lookupAssoc (key i) es = none) →
      l.foldl (fun es i => insertEntry es (key i) alg (dg i)) es
        = es ++ l.map (fun i => (key i, [(alg, dg i)])) := by
  induction l with
  | nil => intro es _; simp
  | cons i t ih =>
    intro es hfresh
    rw [List.map_cons] at hnd
    rw [List.foldl_cons, insertEntry_fresh (hfresh i (List.mem_cons_self ..)),
      ih hnd.of_cons _ ?_]
    · simp
    · intro j hj
      rw [lookupAssoc_append, hfresh j (List.mem_cons_of_mem _ hj)]
      refine lookupAssoc_eq_none ?_
      intro kv hkv
      rw [List.mem_singleton] at hkv
      subst hkv
      intro hc
      exact (List.nodup_cons.mp hnd).1
        ((show key i = key j from hc) ▸ List.mem_map_of_mem key hj)

theorem foldl_insertEntry_update {ι : Type} (key dg : ι → PyStr) (m : ι → List (PyStr × PyStr))
    (alg : PyStr) (l : List ι) :
    ∀ done, (l.map key).Nodup → (∀ i ∈ l, lookupAssoc alg (m i) = none) →
      (∀ i ∈ l, lookupAssoc (key i) done = none) →
      l.foldl (fun es i => insertEntry es (key i) alg (dg i))
          (done ++ l.map (fun i => (key i, m i)))
        = done ++ l.map (fun i => (key i, m i ++ [(alg, dg i)])) := by
  induction l with
  | nil => intro done _ _ _; simp
  | cons i t ih =>
    intro done hnd hm hdone
    rw [List.map_cons] at hnd
    have hfound : lookupAssoc (key i) (done ++ ((key i, m i) :: t.map (fun j => (key j, m j))))
        = some (m i) := by
      rw [lookupAssoc_append, hdone i (List.mem_cons_self ..)]
      show (if key i = key i then _ else _) = _
      rw [if_pos rfl]
    rw [List.map_cons, List.foldl_cons, insertEntry_found hfound,
      dictSet_of_none (hm i (List.mem_cons_self ..)),
      dictSet_append_of_none _ _ _ (hdone i (List.mem_cons_self ..)),
      dictSet_cons_self,
      show done ++ ((key i, m i ++ [(alg, dg i)]) :: t.map (fun j => (key j, m j)))
        = (done ++ [(key i, m i ++ [(alg, dg i)])]) ++ t.map (fun j => (key j, m j))
        from by simp,
      ih _ hnd.of_cons (fun j hj => hm j (List.mem_cons_of_mem _ hj)) ?_]
    · simp
    · intro j hj
      rw [lookupAssoc_append, hdone j (List.mem_cons_of_mem _ hj)]
      refine lookupAssoc_eq_none ?_
      intro kv hkv
      rw [List.mem_singleton] at hkv
      subst hkv
      intro hc
      exact (List.nodup_cons.mp hnd).1
        ((show key i = key j from hc) ▸ List.mem_map_of_mem key hj)

theorem foldl_insertEntry_algs_aux {ι : Type} (key : ι → PyStr) (dg : PyStr → ι → PyStr)
    (l : List ι) (hnd : (l.map key).Nodup) :
    ∀ (algs : List PyStr), ∀ (as : List PyStr) (done : List (PyStr × List (PyStr × PyStr))),
      (as ++ algs).Nodup → (∀ i ∈ l, lookupAssoc (key i) done = none) →
      algs.foldl (fun es a => l.foldl (fun es i => insertEntry es (key i) a (dg a i)) es)
        (done ++ l.map (fun i => (key i, as.map (fun a => (a, dg a i)))))
      = done ++ l.map (fun i => (key i, (as ++ algs).map (fun a => (a, dg a i)))) := by
  intro algs
  induction algs with
  | nil =>
    intro as done _ _
    simp
  | cons a algs' ih =>
    intro as done hndAlgs hdone
    rw [List.foldl_cons,
      foldl_insertEntry_update key (dg a) (fun i => as.map (fun a' => (a', dg a' i))) a l
        done hnd ?hm hdone,
      show done ++ l.map (fun i => (key i,
          as.map (fun a' => (a', dg a' i)) ++ [(a, dg a i)]))
        = done ++ l.map (fun i => (key i, (as ++ [a]).map (fun a' => (a', dg a' i))))
        from by simp,
      ih (as ++ [a]) done (by simpa using hndAlgs) hdone]
    · simp
    case hm =>
      intro i _
      refine lookupAssoc_eq_none ?_
      intro kv hkv
      obtain ⟨a', ha', rfl⟩ := List.mem_map.mp hkv
      intro hc
      exact (List.nodup_append.mp hndAlgs).2.2 ha' (hc ▸ List.mem_cons_self ..)

theorem foldl_insertEntry_algs {ι : Type} (key : ι → PyStr) (dg : PyStr → ι → PyStr)
    (l : List ι) (algs : List PyStr) (done : List (PyStr × List (PyStr × PyStr)))
    (hnd : (l.map key).Nodup) (hndAlgs : algs.Nodup) (halgs : algs ≠ [])
    (hdone : ∀ i ∈ l, lookupAssoc (key i) done = none) :
    algs.foldl (fun es a => l.foldl (fun es i => insertEntry es (key i) a (dg a i)) es) done
      = done ++ l.map (fun i => (key i, algs.map (fun a => (a, dg a i)))) := by
  obtain ⟨a, algs', rfl⟩ := List.exists_cons_of_ne_nil halgs
  rw [List.foldl_cons, foldl_insertEntry_fresh key (dg a) a l hnd done hdone,
    show done ++ l.map (fun i => (key i, [(a, dg a i)]))
      = done ++ l.map (fun i => (key i, ([a] : List PyStr).map (fun a' => (a', dg a' i))))
      from by simp,
    foldl_insertEntry_algs_aux key dg l hnd algs' [a] done (by simpa using hndAlgs) hdone]
  simp

theorem loadManifests_split (files : List (PyStr × PyStr)) :
    ∀ (e0 : List (PyStr × List (PyStr × PyStr))) (l0 : List PyStr),
      files.foldl (fun acc f => ((splitLinesPy f.2).foldl (processManifestLine f.1) acc.1,
          acc.2 ++ [f.1])) (e0, l0)
      = (files.foldl (fun es f => (splitLinesPy f.2).foldl (processManifestLine f.1) es) e0,
         l0 ++ files.map Prod.fst) := by
  induction files with
  | nil =>
    intro e0 l0
    simp
  | cons f t ih =>
    intro e0 l0
    rw [List.foldl_cons, List.foldl_cons, ih]
    simp

/-! ## General lemmas: names and paths of the fresh bag -/

theorem mName_headD (c : PyStr) : (mName c).headD ' ' = 'm' := rfl

theorem tmName_headD (c : PyStr) : (tmName c).headD ' ' = 't' := rfl

theorem dataKey_headD (f1 : PyStr) : (pstr "data/" ++ f1).headD ' ' = 'd' := rfl

theorem mName_inj {a c : PyStr} (h : mName a = mName c) : a = c := by
  unfold mName at h
  exact List.append_cancel_left (List.append_cancel_right h)

theorem tmName_inj {a c : PyStr} (h : tmName a = tmName c) : a = c := by
  unfold tmName at h
  exact List.append_cancel_left (List.append_cancel_right h)

theorem dataKey_ne_nil (f1 : PyStr) : pstr "data/" ++ f1 ≠ [] := by
  show ('d' :: (pstr "ata/" ++ f1)) ≠ []
  exact List.cons_ne_nil _ _

theorem getLastD_irrel {l : PyStr} (h : l ≠ []) (d d' : Char) :
    l.getLastD d = l.getLastD d' := by
  rcases l.eq_nil_or_concat with rfl | ⟨t, b, rfl⟩
  · exact absurd rfl h
  · rw [List.concat_eq_append, List.getLastD_concat, List.getLastD_concat]

theorem goodRelPathB_spec {p : PyStr} (h : goodRelPathB p = true) :
    p ≠ []
    ∧ (∀ comp ∈ splitOnChar '/' p, ¬ (comp = []) ∧ ¬ (comp = pstr ".") ∧ ¬ (comp = pstr ".."))
    ∧ (∀ c ∈ p, ¬ (c = '\r') ∧ ¬ (c = '\n') ∧ ¬ (c = '\\'))
    ∧ hasSubstr (pstr "%0D") p = false ∧ hasSubstr (pstr "%0A") p = false
    ∧ pyIsSpace (p.getLastD '.') = false := by
  obtain ⟨h1, h2, h3, h4, h5, h6⟩ := by
    simpa only [goodRelPathB, Bool.and_eq_true, Bool.not_eq_true', beq_iff_eq,
      beq_eq_false_iff_ne, ne_eq, and_assoc] using h
  refine ⟨h1, ?_, ?_, h4, h5, h6⟩
  · intro comp hcomp
    have := List.all_eq_true.mp h2 comp hcomp
    simpa only [Bool.and_eq_true, Bool.not_eq_true', beq_eq_false_iff_ne, ne_eq,
      and_assoc] using this
  · intro c hc
    have := List.all_eq_true.mp h3 c hc
    simpa only [Bool.and_eq_true, Bool.not_eq_true', beq_eq_false_iff_ne, ne_eq,
      and_assoc] using this

theorem splitOnChar_append_sep {sep : Char} {a : PyStr} (rest : PyStr) (h : sep ∉ a) :
    splitOnChar sep (a ++ sep :: rest) = a :: splitOnChar sep rest := by
  induction a with
  | nil =>
    show splitOnChar sep (sep :: rest) = _
    conv_lhs => rw [splitOnChar]
    rw [if_pos rfl]
  | cons c t ih =>
    have hc : ¬ (c = sep) := fun hc => h (by simp [hc])
    rw [List.cons_append]
    conv_lhs => rw [splitOnChar]
    rw [if_neg hc, ih (fun hm => h (List.mem_cons_of_mem _ hm))]

theorem hasSubstr_data {pat0 : Char} (patr f1 : PyStr) (h1 : ¬ pat0 = 'd') (h2 : ¬ pat0 = 'a')
    (h3 : ¬ pat0 = 't') (h4 : ¬ pat0 = '/') :
    hasSubstr (pat0 :: patr) (pstr "data/" ++ f1) = hasSubstr (pat0 :: patr) f1 := by
  show hasSubstr (pat0 :: patr) ('d' :: 'a' :: 't' :: 'a' :: '/' :: f1) = _
  rw [hasSubstr_cons_ne h1, hasSubstr_cons_ne h2, hasSubstr_cons_ne h3, hasSubstr_cons_ne h2,
    hasSubstr_cons_ne h4]

theorem dataPath_codec {f1 : PyStr} (hgood : goodRelPathB f1 = true) :
    decodeFilename (posixNormpath ((pstr "data/" ++ f1).dropWhile (fun c => c = '*')))
      = pstr "data/" ++ f1
    ∧ encodeFilename (decodeFilename (pstr "data/" ++ f1)) = pstr "data/" ++ f1 := by
  obtain ⟨hne, hcomps, hchars, hsub1, hsub2, hlast⟩ := goodRelPathB_spec hgood
  have hdrop : (pstr "data/" ++ f1).dropWhile (fun c => c = '*') = pstr "data/" ++ f1 := by
    show ('d' :: (pstr "ata/" ++ f1)).dropWhile (fun c => c = '*') = _
    rw [List.dropWhile_cons, if_neg (by decide)]
    rfl
  have hsplit : splitOnChar '/' (pstr "data/" ++ f1) = pstr "data" :: splitOnChar '/' f1 := by
    rw [show pstr "data/" ++ f1 = pstr "data" ++ '/' :: f1 from rfl]
    exact splitOnChar_append_sep f1 (by decide)
  have hnorm : posixNormpath (pstr "data/" ++ f1) = pstr "data/" ++ f1 := by
    refine posixNormpath_eq_self (dataKey_ne_nil f1) ?_ ?_
    · rw [dataKey_headD]
      decide
    · intro comp hcomp
      rw [hsplit] at hcomp
      rcases List.mem_cons.mp hcomp with rfl | hcomp'
      · exact ⟨by decide, by decide, by decide⟩
      · exact hcomps comp hcomp'
  have hd1 : hasSubstr (pstr "%0D") (pstr "data/" ++ f1) = false := by
    rw [show pstr "%0D" = '%' :: pstr "0D" from rfl,
      hasSubstr_data _ _ (by decide) (by decide) (by decide) (by decide)]
    exact hsub1
  have hd2 : hasSubstr (pstr "%0A") (pstr "data/" ++ f1) = false := by
    rw [show pstr "%0A" = '%' :: pstr "0A" from rfl,
      hasSubstr_data _ _ (by decide) (by decide) (by decide) (by decide)]
    exact hsub2
  have hdec : decodeFilename (pstr "data/" ++ f1) = pstr "data/" ++ f1 :=
    decodeFilename_eq_self hd1 hd2
  refine ⟨?_, ?_⟩
  · rw [hdrop, hnorm]
    exact hdec
  · rw [hdec]
    refine encodeFilename_eq_self ?_ ?_
    · intro hm
      rcases List.mem_append.mp (show ('\r' : Char) ∈ pstr "data/" ++ f1 from hm) with hm | hm
      · exact absurd hm (by decide)
      · exact (hchars _ hm).1 rfl
    · intro hm
      rcases List.mem_append.mp (show ('\n' : Char) ∈ pstr "data/" ++ f1 from hm) with hm | hm
      · exact absurd hm (by decide)
      · exact (hchars _ hm).2.1 rfl

theorem dataKey_no_newline {f1 : PyStr} (hgood : goodRelPathB f1 = true) :
    ('\n' : Char) ∉ pstr "data/" ++ f1 := by
  obtain ⟨-, -, hchars, -⟩ := goodRelPathB_spec hgood
  intro hm
  rcases List.mem_append.mp hm with hm | hm
  · exact absurd hm (by decide)
  · exact (hchars _ hm).2.1 rfl

theorem dataKey_last_not_space {f1 : PyStr} (hgood : goodRelPathB f1 = true) :
    pyIsSpace ((pstr "data/" ++ f1).getLastD ' ') = false := by
  obtain ⟨hne, -, -, -, -, hlast⟩ := goodRelPathB_spec hgood
  rw [getLastD_append_of_ne_nil hne, getLastD_irrel hne ' ' '.']
  exact hlast

theorem dataKey_startsWithData (f1 : PyStr) : startsWithData (pstr "data/" ++ f1) = true := by
  unfold startsWithData
  exact isPrefixOf_self_append _ _

theorem rootName_props {n : PyStr}
    (h : n = pstr "bagit.txt" ∨ n = pstr "bag-info.txt" ∨ ∃ a ∈ checksumAlgos, n = mName a) :
    n ≠ [] ∧ pyIsSpace (n.headD ' ') = false ∧ pyIsSpace (n.getLastD ' ') = false
      ∧ ('\n' : Char) ∉ n
      ∧ decodeFilename (posixNormpath (n.dropWhile (fun c => c = '*'))) = n
      ∧ startsWithData n = false ∧ isTagmanifestName n = false
      ∧ ¬ (n.headD ' ' = 'd') ∧ ¬ (n.headD ' ' = 't') := by
  obtain rfl | rfl | ⟨a, ha, rfl⟩ := h
  · decide
  · decide
  · have hcase : a = pstr "md5" ∨ a = pstr "sha1" ∨ a = pstr "sha256" ∨ a = pstr "sha512" := by
      simpa [checksumAlgos] using ha
    obtain rfl | rfl | rfl | rfl := hcase
    · decide
    · decide
    · decide
    · decide

theorem tmName_isTagmanifest {a : PyStr} (ha : a ∈ checksumAlgos) :
    isTagmanifestName (tmName a) = true := by
  have hcase : a = pstr "md5" ∨ a = pstr "sha1" ∨ a = pstr "sha256" ∨ a = pstr "sha512" := by
    simpa [checksumAlgos] using ha
  obtain rfl | rfl | rfl | rfl := hcase
  · decide
  · decide
  · decide
  · decide

/-! ## General lemmas: the structure of the fresh bag directory -/

theorem manifestsOf_keys (files : List (PyStr × Bytes)) (cs : List PyStr) (H : HashImpl) :
    (manifestsOf files cs H).map Prod.fst = cs.map mName := by
  unfold manifestsOf
  rw [List.map_map]
  rfl

theorem coreRoots_keys (files : List (PyStr × Bytes)) (cs : List PyStr) (today : PyStr)
    (H : HashImpl) :
    (coreRoots files cs today H).map Prod.fst
      = cs.map mName ++ [pstr "bagit.txt", pstr "bag-info.txt"] := by
  unfold coreRoots
  rw [List.map_append, manifestsOf_keys]
  rfl

theorem coreRoots_keys_nodup {files : List (PyStr × Bytes)} {cs : List PyStr} {today : PyStr}
    {H : HashImpl} (hnd : cs.Nodup) :
    ((coreRoots files cs today H).map Prod.fst).Nodup := by
  rw [coreRoots_keys]
  refine List.nodup_append.mpr ⟨hnd.map (fun _ _ h => mName_inj h), by decide, ?_⟩
  intro x hx hx2
  obtain ⟨c, -, rfl⟩ := List.mem_map.mp hx
  have hm := mName_headD c
  rcases (show mName c = pstr "bagit.txt" ∨ mName c = pstr "bag-info.txt"
      by simpa using hx2) with hb | hb
  · rw [hb] at hm
    exact absurd hm (by decide)
  · rw [hb] at hm
    exact absurd hm (by decide)

theorem rootName_of_mem_coreRoots {files : List (PyStr × Bytes)} {cs : List PyStr}
    {today : PyStr} {H : HashImpl} {kv : PyStr × PyStr}
    (hkv : kv ∈ coreRoots files cs today H) (hcs : ∀ c ∈ cs, c ∈ checksumAlgos) :
    kv.1 = pstr "bagit.txt" ∨ kv.1 = pstr "bag-info.txt"
      ∨ ∃ a ∈ checksumAlgos, kv.1 = mName a := by
  unfold coreRoots at hkv
  rcases List.mem_append.mp hkv with hm | hm
  · unfold manifestsOf at hm
    obtain ⟨c, hc, rfl⟩ := List.mem_map.mp hm
    exact Or.inr (Or.inr ⟨c, hcs c hc, rfl⟩)
  · rcases (show kv = (pstr "bagit.txt", bagitTxtStd)
        ∨ kv = (pstr "bag-info.txt", makeTagFileContent (infoThree files today))
        by simpa using hm) with rfl | rfl
    · exact Or.inl rfl
    · exact Or.inr (Or.inl rfl)

theorem manifestsOf_lookup_none {files : List (PyStr × Bytes)} {cs : List PyStr} {H : HashImpl}
    {n : PyStr} (h : ¬ (n.headD ' ' = 'm')) :
    lookupAssoc n (manifestsOf files cs H) = none := by
  refine lookupAssoc_eq_none ?_
  intro kv hkv
  unfold manifestsOf at hkv
  obtain ⟨c, -, rfl⟩ := List.mem_map.mp hkv
  intro he
  exact h ((show mName c = n from he) ▸ mName_headD c)

theorem tagmanifestPart_lookup_none {cs : List PyStr} {g : PyStr → PyStr}
    {n : PyStr} (h : ¬ (n.headD ' ' = 't')) :
    lookupAssoc n (cs.map (fun c => (tmName c, g c))) = none := by
  refine lookupAssoc_eq_none ?_
  intro kv hkv
  obtain ⟨c, -, rfl⟩ := List.mem_map.mp hkv
  intro he
  exact h ((show tmName c = n from he) ▸ tmName_headD c)

theorem tailPart_lookup_none {files : List (PyStr × Bytes)} {today : PyStr}
    {n : PyStr} (h1 : ¬ (n = pstr "bagit.txt")) (h2 : ¬ (n = pstr "bag-info.txt")) :
    lookupAssoc n [(pstr "bagit.txt", bagitTxtStd),
      (pstr "bag-info.txt", makeTagFileContent (infoThree files today))] = none := by
  refine lookupAssoc_eq_none ?_
  intro kv hkv
  rcases (show kv = (pstr "bagit.txt", bagitTxtStd)
      ∨ kv = (pstr "bag-info.txt", makeTagFileContent (infoThree files today))
      by simpa using hkv) with rfl | rfl
  · exact fun hc => h1 hc.symm
  · exact fun hc => h2 hc.symm

theorem coreRoots_lookup_bagit (files : List (PyStr × Bytes)) (cs : List PyStr)
    (today : PyStr) (H : HashImpl) :
    lookupAssoc (pstr "bagit.txt") (coreRoots files cs today H) = some bagitTxtStd := by
  unfold coreRoots
  rw [lookupAssoc_append, manifestsOf_lookup_none (by decide)]
  rfl

theorem coreRoots_lookup_baginfo (files : List (PyStr × Bytes)) (cs : List PyStr)
    (today : PyStr) (H : HashImpl) :
    lookupAssoc (pstr "bag-info.txt") (coreRoots files cs today H)
      = some (makeTagFileContent (infoThree files today)) := by
  unfold coreRoots
  rw [lookupAssoc_append, manifestsOf_lookup_none (by decide)]
  rfl

theorem coreRoots_lookup_mName {files : List (PyStr × Bytes)} {cs : List PyStr}
    {today : PyStr} {H : HashImpl} {a : PyStr} (ha : a ∈ cs) (hnd : cs.Nodup) :
    lookupAssoc (mName a) (coreRoots files cs today H)
      = some (manifestContent H a (dataPrefixed files) (sortedWalk files)) := by
  unfold coreRoots
  rw [lookupAssoc_append, lookupAssoc_of_mem_nodup ?mem ?nodup]
  case mem =>
    unfold manifestsOf
    exact List.mem_map_of_mem _ ha
  case nodup =>
    rw [manifestsOf_keys]
    exact hnd.map (fun _ _ h => mName_inj h)

theorem coreRoots_lookup_mName_none {files : List (PyStr × Bytes)} {cs : List PyStr}
    {today : PyStr} {H : HashImpl} {a : PyStr} (ha : a ∉ cs) :
    lookupAssoc (mName a) (coreRoots files cs today H) = none := by
  have h1 : ¬ (mName a = pstr "bagit.txt") := by
    intro hc
    have h' : (mName a).headD ' ' = (pstr "bagit.txt").headD ' ' :=
      congrArg (fun l => List.headD l ' ') hc
    rw [mName_headD] at h'
    exact absurd h' (by decide)
  have h2 : ¬ (mName a = pstr "bag-info.txt") := by
    intro hc
    have h' : (mName a).headD ' ' = (pstr "bag-info.txt").headD ' ' :=
      congrArg (fun l => List.headD l ' ') hc
    rw [mName_headD] at h'
    exact absurd h' (by decide)
  unfold coreRoots
  rw [lookupAssoc_append, lookupAssoc_eq_none ?h, tailPart_lookup_none h1 h2]
  case h =>
    intro kv hkv
    unfold manifestsOf at hkv
    obtain ⟨c, hc, rfl⟩ := List.mem_map.mp hkv
    intro he
    exact ha ((mName_inj (show mName c = mName a from he)) ▸ hc)

theorem allRoots_lookup_core {files : List (PyStr × Bytes)} {cs : List PyStr}
    {today : PyStr} {H : HashImpl} {n : PyStr} {v : PyStr}
    (h : lookupAssoc n (coreRoots files cs today H) = some v) :
    lookupAssoc n (allRoots files cs today H) = some v := by
  unfold allRoots
  rw [lookupAssoc_append, h]

theorem allRoots_lookup_mName_none {files : List (PyStr × Bytes)} {cs : List PyStr}
    {today : PyStr} {H : HashImpl} {a : PyStr} (ha : a ∉ cs) :
    lookupAssoc (mName a) (allRoots files cs today H) = none := by
  unfold allRoots
  rw [lookupAssoc_append, coreRoots_lookup_mName_none ha,
    tagmanifestPart_lookup_none (by rw [mName_headD]; decide)]

theorem allRoots_lookup_tmName {files : List (PyStr × Bytes)} {cs : List PyStr}
    {today : PyStr} {H : HashImpl} {a : PyStr} (ha : a ∈ cs) (hnd : cs.Nodup) :
    lookupAssoc (tmName a) (allRoots files cs today H)
      = some (tmContent (coreRoots files cs today H) H a) := by
  unfold allRoots
  rw [lookupAssoc_append, lookupAssoc_eq_none ?core, lookupAssoc_of_mem_nodup ?mem ?nodup]
  case core =>
    intro kv hkv
    unfold coreRoots at hkv
    rcases List.mem_append.mp hkv with hm | hm
    · unfold manifestsOf at hm
      obtain ⟨c, -, rfl⟩ := List.mem_map.mp hm
      intro he
      have h' : (mName c).headD ' ' = (tmName a).headD ' ' :=
        congrArg (fun l => List.headD l ' ') (show mName c = tmName a from he)
      rw [mName_headD, tmName_headD] at h'
      exact absurd h' (by decide)
    · rcases (show kv = (pstr "bagit.txt", bagitTxtStd)
          ∨ kv = (pstr "bag-info.txt", makeTagFileContent (infoThree files today))
          by simpa using hm) with rfl | rfl
      · intro he
        have h' : (pstr "bagit.txt").headD ' ' = (tmName a).headD ' ' :=
          congrArg (fun l => List.headD l ' ') (show pstr "bagit.txt" = tmName a from he)
        rw [tmName_headD] at h'
        exact absurd h' (by decide)
      · intro he
        have h' : (pstr "bag-info.txt").headD ' ' = (tmName a).headD ' ' :=
          congrArg (fun l => List.headD l ' ')
            (show pstr "bag-info.txt" = tmName a from he)
        rw [tmName_headD] at h'
        exact absurd h' (by decide)
  case mem => exact List.mem_map_of_mem _ ha
  case nodup =>
    rw [List.map_map]
    exact hnd.map (fun _ _ h => tmName_inj h)

theorem allRoots_lookup_tmName_none {files : List (PyStr × Bytes)} {cs : List PyStr}
    {today : PyStr} {H : HashImpl} {a : PyStr} (ha : a ∉ cs)
    (hcs : ∀ c ∈ cs, c ∈ checksumAlgos) :
    lookupAssoc (tmName a) (allRoots files cs today H) = none := by
  unfold allRoots
  rw [lookupAssoc_append, lookupAssoc_eq_none ?core, lookupAssoc_eq_none ?tm]
  case core =>
    intro kv hkv
    rcases rootName_of_mem_coreRoots hkv hcs with hb | hb | ⟨c, -, hb⟩ <;> rw [hb]
    · intro he
      have h' : (pstr "bagit.txt").headD ' ' = (tmName a).headD ' ' :=
        congrArg (fun l => List.headD l ' ') (show pstr "bagit.txt" = tmName a from he)
      rw [tmName_headD] at h'
      exact absurd h' (by decide)
    · intro he
      have h' : (pstr "bag-info.txt").headD ' ' = (tmName a).headD ' ' :=
        congrArg (fun l => List.headD l ' ')
          (show pstr "bag-info.txt" = tmName a from he)
      rw [tmName_headD] at h'
      exact absurd h' (by decide)
    · intro he
      have h' : (mName c).headD ' ' = (tmName a).headD ' ' :=
        congrArg (fun l => List.headD l ' ') (show mName c = tmName a from he)
      rw [mName_headD, tmName_headD] at h'
      exact absurd h' (by decide)
  case tm =>
    intro kv hkv
    obtain ⟨c, hc, rfl⟩ := List.mem_map.mp hkv
    intro he
    exact ha ((tmName_inj (show tmName c = tmName a from he)) ▸ hc)

theorem mem_contains_eq_true {α : Type} [BEq α] [LawfulBEq α] {a : α} {l : List α}
    (h : a ∈ l) : l.contains a = true := List.elem_iff.mpr h

theorem filterMap_lookup_eq {β : Type} (l : List PyStr) (P : PyStr → Bool) (g : PyStr → β)
    (look : PyStr → Option β)
    (hl : ∀ a ∈ l, look a = if P a then some (g a) else none) :
    l.filterMap (fun a => (look a).map (fun c => (a, c)))
      = (l.filter P).map (fun a => (a, g a)) := by
  induction l with
  | nil => rfl
  | cons a t ih =>
    rw [List.filterMap_cons, List.filter_cons, hl a (List.mem_cons_self ..)]
    by_cases hP : P a = true
    · rw [if_pos hP, if_pos hP]
      show (a, g a) :: t.filterMap _ = (a, g a) :: (t.filter P).map _
      rw [ih (fun y hy => hl y (List.mem_cons_of_mem _ hy))]
    · rw [if_neg hP, if_neg hP]
      show t.filterMap _ = (t.filter P).map _
      exact ih (fun y hy => hl y (List.mem_cons_of_mem _ hy))

theorem manifestFilesOf_freshDisk (files : List (PyStr × Bytes)) (cs : List PyStr)
    (today : PyStr) (H : HashImpl) (hcnd : cs.Nodup) :
    manifestFilesOf (freshDisk files cs today H)
      = (algsOf cs).map (fun a =>
          (a, manifestContent H a (dataPrefixed files) (sortedWalk files))) := by
  unfold manifestFilesOf algsOf
  refine filterMap_lookup_eq checksumAlgos (fun a => cs.contains a) _ _ ?_
  intro a ha
  show lookupRoot (freshDisk files cs today H) (pstr "manifest-" ++ a ++ pstr ".txt")
    = if cs.contains a = true
      then some (manifestContent H a (dataPrefixed files) (sortedWalk files)) else none
  by_cases hmem : a ∈ cs
  · rw [if_pos (mem_contains_eq_true hmem)]
    show lookupAssoc (mName a) (allRoots files cs today H) = _
    exact allRoots_lookup_core (coreRoots_lookup_mName hmem hcnd)
  · rw [if_neg (by rw [show cs.contains a = false from by
      cases hc : cs.contains a with
      | false => rfl
      | true => exact absurd (List.elem_iff.mp hc) hmem]; simp)]
    show lookupAssoc (mName a) (allRoots files cs today H) = none
    exact allRoots_lookup_mName_none hmem

theorem tagmanifestFilesOf_freshDisk (files : List (PyStr × Bytes)) (cs : List PyStr)
    (today : PyStr) (H : HashImpl) (hcnd : cs.Nodup) (hcs : ∀ c ∈ cs, c ∈ checksumAlgos) :
    tagmanifestFilesOf (freshDisk files cs today H)
      = (algsOf cs).map (fun a => (a, tmContent (coreRoots files cs today H) H a)) := by
  unfold tagmanifestFilesOf algsOf
  refine filterMap_lookup_eq checksumAlgos (fun a => cs.contains a) _ _ ?_
  intro a ha
  show lookupRoot (freshDisk files cs today H) (pstr "tagmanifest-" ++ a ++ pstr ".txt")
    = if cs.contains a = true
      then some (tmContent (coreRoots files cs today H) H a) else none
  by_cases hmem : a ∈ cs
  · rw [if_pos (mem_contains_eq_true hmem)]
    show lookupAssoc (tmName a) (allRoots files cs today H) = _
    exact allRoots_lookup_tmName hmem hcnd
  · rw [if_neg (by rw [show cs.contains a = false from by
      cases hc : cs.contains a with
      | false => rfl
      | true => exact absurd (List.elem_iff.mp hc) hmem]; simp)]
    show lookupAssoc (tmName a) (allRoots files cs today H) = none
    exact allRoots_lookup_tmName_none hmem hcs

theorem dataPrefixed_keys_nodup {files : List (PyStr × Bytes)}
    (hnd : (files.map Prod.fst).Nodup) : ((dataPrefixed files).map Prod.fst).Nodup := by
  rw [show (dataPrefixed files).map Prod.fst
      = (files.map Prod.fst).map (fun x => pstr "data/" ++ x) from by
    unfold dataPrefixed
    rw [List.map_map, List.map_map]
    rfl]
  exact hnd.map (fun _ _ h => List.append_cancel_left h)

theorem sortedWalk_nodup {files : List (PyStr × Bytes)}
    (hnd : (files.map Prod.fst).Nodup) : (sortedWalk files).Nodup := by
  unfold sortedWalk
  exact (List.perm_insertionSort strLeP _).nodup_iff.mpr (dataPrefixed_keys_nodup hnd)

theorem sortedWalk_mem {files : List (PyStr × Bytes)} {p : PyStr} (hp : p ∈ sortedWalk files) :
    ∃ f ∈ files, p = pstr "data/" ++ f.1 := by
  unfold sortedWalk at hp
  have hmem := (List.perm_insertionSort strLeP _).mem_iff.mp hp
  obtain ⟨q, hq, rfl⟩ := List.mem_map.mp hmem
  unfold dataPrefixed at hq
  obtain ⟨f, hf, rfl⟩ := List.mem_map.mp hq
  exact ⟨f, hf, rfl⟩

theorem lookupAssoc_dataPrefixed_none {files : List (PyStr × Bytes)} {n : PyStr}
    (h : ¬ (n.headD ' ' = 'd')) : lookupAssoc n (dataPrefixed files) = none := by
  refine lookupAssoc_eq_none ?_
  intro kv hkv
  unfold dataPrefixed at hkv
  obtain ⟨f, -, rfl⟩ := List.mem_map.mp hkv
  intro he
  exact h ((show pstr "data/" ++ f.1 = n from he) ▸ dataKey_headD f.1)

theorem oxumOfWalk_fresh (files : List (PyStr × Bytes))
    (hnd : (files.map Prod.fst).Nodup) :
    oxumOfWalk (dataPrefixed files) (sortedWalk files)
      = natStr (((dataPrefixed files).map (fun f => f.2.length)).sum)
        ++ pstr "." ++ natStr (dataPrefixed files).length := by
  unfold oxumOfWalk
  have hperm : List.Perm (sortedWalk files) ((dataPrefixed files).map Prod.fst) :=
    List.perm_insertionSort _ _
  have hlen : (sortedWalk files).length = (dataPrefixed files).length := by
    rw [hperm.length_eq, List.length_map]
  have hsum : ((sortedWalk files).map
        (fun p => ((lookupAssoc p (dataPrefixed files)).getD []).length)).sum
      = ((dataPrefixed files).map (fun f => f.2.length)).sum := by
    rw [(hperm.map (fun p => ((lookupAssoc p (dataPrefixed files)).getD []).length)).sum_eq,
      List.map_map]
    refine congrArg List.sum (List.map_congr_left ?_)
    intro f hf
    show ((lookupAssoc f.1 (dataPrefixed files)).getD []).length = f.2.length
    rw [lookupAssoc_of_mem_nodup (show (f.1, f.2) ∈ dataPrefixed files from hf)
      (dataPrefixed_keys_nodup hnd)]
    rfl
  rw [hsum, hlen]

/-! ## General lemmas: what `make_bag` writes -/

theorem manifests_fold (files : List (PyStr × Bytes)) (cs : List PyStr) (H : HashImpl)
    (hcnd : cs.Nodup) :
    cs.foldl (fun rf c => dictSet rf (mName c)
        (manifestContent H c (dataPrefixed files) (sortedWalk files))) []
      = manifestsOf files cs H := by
  have h := foldl_dictSet_fresh mName
    (fun c => manifestContent H c (dataPrefixed files) (sortedWalk files)) cs
    (hcnd.map (fun _ _ h => mName_inj h)) [] (fun i _ => rfl)
  unfold manifestsOf
  simpa using h

theorem coreRoots_lookup_tm_none (files : List (PyStr × Bytes)) (cs0 : List PyStr)
    (today : PyStr) (H : HashImpl) (hcs0 : ∀ c ∈ cs0, c ∈ checksumAlgos) (c : PyStr) :
    lookupAssoc (tmName c) (coreRoots files cs0 today H) = none := by
  refine lookupAssoc_eq_none ?_
  intro kv hkv
  rcases rootName_of_mem_coreRoots hkv hcs0 with hb | hb | ⟨a, ha, hb⟩ <;> rw [hb]
  · intro he
    have h' : (pstr "bagit.txt").headD ' ' = (tmName c).headD ' ' :=
      congrArg (fun l => List.headD l ' ') (show pstr "bagit.txt" = tmName c from he)
    rw [tmName_headD] at h'
    exact absurd h' (by decide)
  · intro he
    have h' : (pstr "bag-info.txt").headD ' ' = (tmName c).headD ' ' :=
      congrArg (fun l => List.headD l ' ') (show pstr "bag-info.txt" = tmName c from he)
    rw [tmName_headD] at h'
    exact absurd h' (by decide)
  · intro he
    have h' : (mName a).headD ' ' = (tmName c).headD ' ' :=
      congrArg (fun l => List.headD l ' ') (show mName a = tmName c from he)
    rw [mName_headD, tmName_headD] at h'
    exact absurd h' (by decide)

theorem tm_fold (files : List (PyStr × Bytes)) (cs0 : List PyStr) (today : PyStr)
    (H : HashImpl) (hcs0 : ∀ c ∈ cs0, c ∈ checksumAlgos) :
    ∀ (cs' : List PyStr) (acc : List (PyStr × PyStr)),
      cs'.Nodup → (∀ c ∈ cs', c ∈ checksumAlgos) →
      (∀ f ∈ acc, isTagmanifestName f.1 = true) →
      (∀ c ∈ cs', lookupAssoc (tmName c) acc = none) →
      cs'.foldl (fun rf c => dictSet rf (tmName c)
          (((rf.filter (fun f => ¬ isTagmanifestName f.1)).map (fun f =>
            hashApply H c (strBytes f.2) ++ pstr " " ++ f.1 ++ pstr "\n")).flatten))
        (coreRoots files cs0 today H ++ acc)
      = coreRoots files cs0 today H ++ acc
        ++ cs'.map (fun c => (tmName c, tmContent (coreRoots files cs0 today H) H c)) := by
  intro cs'
  induction cs' with
  | nil =>
    intro acc _ _ _ _
    simp
  | cons c t ih =>
    intro acc hnd hchk hacc hfresh
    have hfilter : (coreRoots files cs0 today H ++ acc).filter
        (fun f => ¬ isTagmanifestName f.1) = coreRoots files cs0 today H := by
      rw [List.filter_append, List.filter_eq_self.mpr ?base, List.filter_eq_nil_iff.mpr ?acc,
        List.append_nil]
      case base =>
        intro f hf
        rcases rootName_of_mem_coreRoots hf hcs0 with hb | hb | ⟨a, ha, hb⟩ <;> rw [hb]
        · decide
        · decide
        · obtain ⟨-, -, -, -, -, -, h7, -⟩ := rootName_props (Or.inr (Or.inr ⟨a, ha, rfl⟩))
          simp [h7]
      case acc =>
        intro f hf
        simp [hacc f hf]
    have hstep : lookupAssoc (tmName c) (coreRoots files cs0 today H ++ acc) = none := by
      rw [lookupAssoc_append, coreRoots_lookup_tm_none files cs0 today H hcs0 c,
        hfresh c (List.mem_cons_self ..)]
    simp only [List.foldl_cons]
    rw [hfilter, dictSet_of_none hstep, List.append_assoc,
      show ((coreRoots files cs0 today H).map (fun f =>
          hashApply H c (strBytes f.2) ++ pstr " " ++ f.1 ++ pstr "\n")).flatten
        = tmContent (coreRoots files cs0 today H) H c from rfl]
    rw [ih (acc ++ [(tmName c, tmContent (coreRoots files cs0 today H) H c)])
      hnd.of_cons (fun y hy => hchk y (List.mem_cons_of_mem _ hy)) ?acc2 ?fresh2]
    · simp
    case acc2 =>
      intro f hf
      rcases List.mem_append.mp hf with hf | hf
      · exact hacc f hf
      · rw [List.mem_singleton] at hf
        subst hf
        exact tmName_isTagmanifest (hchk c (List.mem_cons_self ..))
    case fresh2 =>
      intro c' hc'
      rw [lookupAssoc_append, hfresh c' (List.mem_cons_of_mem _ hc')]
      refine lookupAssoc_eq_none ?_
      intro kv hkv
      rw [List.mem_singleton] at hkv
      subst hkv
      intro he
      have : c = c' := tmName_inj (show tmName c = tmName c' from he)
      exact (List.nodup_cons.mp hnd).1 (this ▸ hc')

theorem tm_fold_main (files : List (PyStr × Bytes)) (cs : List PyStr) (today : PyStr)
    (H : HashImpl) (hcs : ∀ c ∈ cs, c ∈ checksumAlgos) (hcnd : cs.Nodup) :
    cs.foldl (fun rf c => dictSet rf (tmName c)
        (((rf.filter (fun f => ¬ isTagmanifestName f.1)).map (fun f =>
          hashApply H c (strBytes f.2) ++ pstr " " ++ f.1 ++ pstr "\n")).flatten))
      (coreRoots files cs today H)
      = allRoots files cs today H := by
  have h := tm_fold files cs today H hcs cs [] hcnd hcs (by simp) (fun c _ => rfl)
  unfold allRoots
  simpa using h

theorem makeBagDisk_freshDisk (files : List (PyStr × Bytes)) (checksum : Option (List PyStr))
    (today : PyStr) (H : HashImpl) {cs : List PyStr} (hres : resolveChecksums checksum = cs)
    (hcs : ∀ c ∈ cs, c ∈ checksumAlgos) (hcnd : cs.Nodup) :
    makeBagDisk files none checksum today H = .ok (freshDisk files cs today H) := by
  have hall : cs.all (fun c => checksumAlgos.contains c) = true :=
    List.all_eq_true.mpr (fun c hc => mem_contains_eq_true (hcs c hc))
  unfold makeBagDisk
  rw [hres, if_neg (by rw [not_not]; exact hall)]
  show Except.ok (BagDisk.mk true (dataPrefixed files)
      (cs.foldl (fun rf c => dictSet rf (tmName c)
          (((rf.filter (fun f => ¬ isTagmanifestName f.1)).map (fun f =>
            hashApply H c (strBytes f.2) ++ pstr " " ++ f.1 ++ pstr "\n")).flatten))
        (dictSet (dictSet (cs.foldl (fun rf c =>
              dictSet rf (mName c) (manifestContent H c (dataPrefixed files) (sortedWalk files)))
            []) (pstr "bagit.txt") bagitTxtStd)
          (pstr "bag-info.txt") (makeTagFileContent (infoThree files today)))))
    = Except.ok (freshDisk files cs today H)
  rw [manifests_fold files cs H hcnd,
    dictSet_of_none (manifestsOf_lookup_none (by decide)),
    dictSet_of_none (show lookupAssoc (pstr "bag-info.txt")
        (manifestsOf files cs H ++ [(pstr "bagit.txt", bagitTxtStd)]) = none from by
      rw [lookupAssoc_append, manifestsOf_lookup_none (by decide)]
      rfl),
    List.append_assoc,
    show [(pstr "bagit.txt", bagitTxtStd)]
        ++ [(pstr "bag-info.txt", makeTagFileContent (infoThree files today))]
      = [(pstr "bagit.txt", bagitTxtStd),
         (pstr "bag-info.txt", makeTagFileContent (infoThree files today))] from rfl,
    show manifestsOf files cs H ++ [(pstr "bagit.txt", bagitTxtStd),
        (pstr "bag-info.txt", makeTagFileContent (infoThree files today))]
      = coreRoots files cs today H from rfl,
    tm_fold_main files cs today H hcs hcnd]
  rfl

/-! ## General lemmas: what `Bag.__init__` reads back from a fresh bag -/

theorem hashApply_good {H : HashImpl} {a : PyStr} (h : GoodHashAt H a) (b : Bytes) :
    goodDigestB (hashApply H a b) = true := by
  obtain ⟨f, hf, hgood⟩ := h
  unfold hashApply
  rw [hf]
  exact hgood b

theorem lookupAssoc_map_self {α : Type} (g : PyStr → α) {a : PyStr} {l : List PyStr}
    (h : a ∈ l) : lookupAssoc a (l.map (fun x => (x, g x))) = some (g a) := by
  induction l with
  | nil => exact absurd h (by simp)
  | cons x t ih =>
    show (if x = a then some (g x) else _) = _
    by_cases hx : x = a
    · rw [if_pos hx, hx]
    · rw [if_neg hx]
      refine ih ?_
      rcases List.mem_cons.mp h with h | h
      · exact absurd h.symm hx
      · exact h

theorem mem_algsOf {cs : List PyStr} {a : PyStr} (h : a ∈ algsOf cs) : a ∈ cs := by
  unfold algsOf at h
  have h2 := (List.mem_filter.mp h).2
  exact List.elem_iff.mp h2

theorem algsOf_nodup (cs : List PyStr) : (algsOf cs).Nodup := by
  unfold algsOf
  exact (show checksumAlgos.Nodup by decide).filter _

theorem algsOf_ne_nil {cs : List PyStr} (hne : cs ≠ []) (hcs : ∀ c ∈ cs, c ∈ checksumAlgos) :
    algsOf cs ≠ [] := by
  obtain ⟨c, t, rfl⟩ := List.exists_cons_of_ne_nil hne
  refine List.ne_nil_of_mem (show c ∈ algsOf (c :: t) from ?_)
  unfold algsOf
  refine List.mem_filter.mpr ⟨hcs c (List.mem_cons_self ..), ?_⟩
  exact mem_contains_eq_true (List.mem_cons_self c t)

theorem resolveChecksums_ne_nil (checksum : Option (List PyStr)) :
    resolveChecksums checksum ≠ [] := by
  cases checksum with
  | none => simp [resolveChecksums]
  | some l =>
    cases l with
    | nil => simp [resolveChecksums]
    | cons x t => simp [resolveChecksums]

theorem headD_mem {l : PyStr} (h : l ≠ []) (d : Char) : l.headD d ∈ l := by
  cases l with
  | nil => exact absurd rfl h
  | cons c t => exact List.mem_cons_self ..

theorem getLastD_mem {l : PyStr} (h : l ≠ []) (d : Char) : l.getLastD d ∈ l := by
  rcases l.eq_nil_or_concat with rfl | ⟨t, b, rfl⟩
  · exact absurd rfl h
  · rw [List.concat_eq_append, List.getLastD_concat]
    exact List.mem_append_right _ (List.mem_cons_self ..)

theorem oxum_chars (x y : Nat) :
    ∀ c ∈ natStr x ++ pstr "." ++ natStr y, pyIsDigit c = true ∨ c = '.' := by
  intro c hc
  rcases List.mem_append.mp hc with hc | hc
  · rcases List.mem_append.mp hc with hc | hc
    · exact Or.inl (natStr_digits x c hc)
    · right
      rw [show pstr "." = ['.'] from rfl] at hc
      simpa using hc
  · exact Or.inl (natStr_digits y c hc)

theorem digits_dot_clean (x y : Nat) :
    pyStrip (stripCRLF (natStr x ++ pstr "." ++ natStr y))
      = natStr x ++ pstr "." ++ natStr y := by
  have hch := oxum_chars x y
  have hnl : ('\n' : Char) ∉ natStr x ++ pstr "." ++ natStr y := by
    intro hm
    rcases hch '\n' hm with h | h
    · exact absurd h (by decide)
    · exact absurd h (by decide)
  have hcr : ('\r' : Char) ∉ natStr x ++ pstr "." ++ natStr y := by
    intro hm
    rcases hch '\r' hm with h | h
    · exact absurd h (by decide)
    · exact absurd h (by decide)
  rw [stripCRLF_eq_self hnl hcr]
  refine pyStrip_eq_self ?_ ?_
  · rw [List.append_assoc, headD_append_of_ne_nil (natStr_ne_nil x)]
    exact digit_not_space (natStr_digits x _ (headD_mem (natStr_ne_nil x) ' '))
  · rw [getLastD_append_of_ne_nil (natStr_ne_nil y)]
    exact digit_not_space (natStr_digits y _ (getLastD_mem (natStr_ne_nil y) ' '))

theorem oxum_clean (P : List (PyStr × Bytes)) (W : List PyStr) :
    pyStrip (stripCRLF (oxumOfWalk P W)) = oxumOfWalk P W :=
  digits_dot_clean _ _

theorem loadTagFile_infoThree (files : List (PyStr × Bytes)) (today : PyStr) :
    loadTagFile (makeTagFileContent (infoThree files today))
      = .ok (freshInfo files today) := by
  have hstep1 : makeTagFileContent (infoThree files today)
      = makeTagFileContent ([(pstr "Bag-Software-Agent", agentString),
          (pstr "Bagging-Date", today),
          (pstr "Payload-Oxum", oxumOfWalk (dataPrefixed files) (sortedWalk files))].map
            (fun kv => (kv.1, TagValue.one kv.2))) := rfl
  rw [hstep1, loadTagFile_makeTagFile _ ?sorted ?nodup ?keys]
  · show Except.ok [(pstr "Bag-Software-Agent", TagValue.one (pyStrip (stripCRLF agentString))),
      (pstr "Bagging-Date", TagValue.one (pyStrip (stripCRLF today))),
      (pstr "Payload-Oxum", TagValue.one (pyStrip (stripCRLF
        (oxumOfWalk (dataPrefixed files) (sortedWalk files)))))] = _
    rw [show pyStrip (stripCRLF agentString) = agentString from by decide,
      oxum_clean (dataPrefixed files) (sortedWalk files)]
    rfl
  case sorted =>
    rw [show [(pstr "Bag-Software-Agent", agentString), (pstr "Bagging-Date", today),
        (pstr "Payload-Oxum", oxumOfWalk (dataPrefixed files) (sortedWalk files))].map Prod.fst
      = [pstr "Bag-Software-Agent", pstr "Bagging-Date", pstr "Payload-Oxum"] from rfl]
    decide
  case nodup =>
    rw [show [(pstr "Bag-Software-Agent", agentString), (pstr "Bagging-Date", today),
        (pstr "Payload-Oxum", oxumOfWalk (dataPrefixed files) (sortedWalk files))].map Prod.fst
      = [pstr "Bag-Software-Agent", pstr "Bagging-Date", pstr "Payload-Oxum"] from rfl]
    decide
  case keys =>
    intro kv hkv
    rcases (show kv = (pstr "Bag-Software-Agent", agentString)
        ∨ kv = (pstr "Bagging-Date", today)
        ∨ kv = (pstr "Payload-Oxum", oxumOfWalk (dataPrefixed files) (sortedWalk files))
        by simpa using hkv) with rfl | rfl | rfl
    · show goodTagKeyB (pstr "Bag-Software-Agent") = true
      decide
    · show goodTagKeyB (pstr "Bagging-Date") = true
      decide
    · show goodTagKeyB (pstr "Payload-Oxum") = true
      decide

theorem manifestContent_lines {files : List (PyStr × Bytes)} {H : HashImpl} {a : PyStr}
    (hpaths : ∀ f ∈ files, goodRelPathB f.1 = true) :
    manifestContent H a (dataPrefixed files) (sortedWalk files)
      = ((sortedWalk files).map (fun p =>
          hashApply H a ((lookupAssoc p (dataPrefixed files)).getD [])
            ++ pstr "  " ++ p ++ pstr "\n")).flatten := by
  unfold manifestContent
  refine congrArg List.flatten (List.map_congr_left ?_)
  intro p hp
  obtain ⟨f, hf, rfl⟩ := sortedWalk_mem hp
  rw [(dataPath_codec (hpaths f hf)).2]

theorem walk_conds {files : List (PyStr × Bytes)} {H : HashImpl} {a : PyStr}
    (hpaths : ∀ f ∈ files, goodRelPathB f.1 = true) (hH : GoodHashAt H a) :
    ∀ p ∈ sortedWalk files,
      goodDigestB (hashApply H a ((lookupAssoc p (dataPrefixed files)).getD [])) = true
      ∧ p ≠ [] ∧ pyIsSpace (p.headD ' ') = false ∧ pyIsSpace (p.getLastD ' ') = false
      ∧ ('\n' : Char) ∉ p
      ∧ decodeFilename (posixNormpath (p.dropWhile (fun c => c = '*'))) = p := by
  intro p hp
  obtain ⟨f, hf, rfl⟩ := sortedWalk_mem hp
  have hg := hpaths f hf
  refine ⟨hashApply_good hH _, dataKey_ne_nil f.1, ?_, dataKey_last_not_space hg,
    dataKey_no_newline hg, (dataPath_codec hg).1⟩
  rw [dataKey_headD]
  decide

theorem manifest_file_fold {files : List (PyStr × Bytes)} {H : HashImpl} {a : PyStr}
    (hpaths : ∀ f ∈ files, goodRelPathB f.1 = true) (hH : GoodHashAt H a) :
    ∀ es, (splitLinesPy (manifestContent H a (dataPrefixed files) (sortedWalk files))).foldl
        (processManifestLine a) es
      = (sortedWalk files).foldl (fun es p => insertEntry es p a
          (hashApply H a ((lookupAssoc p (dataPrefixed files)).getD []))) es := by
  intro es
  rw [manifestContent_lines hpaths]
  exact foldl_lines_insertEntry a (fun p => p)
    (fun p => hashApply H a ((lookupAssoc p (dataPrefixed files)).getD []))
    (pstr "  ") (sortedWalk files) (by decide) (by decide) (by decide)
    (walk_conds hpaths hH) es

theorem tagmanifest_file_fold {files : List (PyStr × Bytes)} {cs0 : List PyStr}
    {today : PyStr} {H : HashImpl} {a : PyStr}
    (hcs0 : ∀ c ∈ cs0, c ∈ checksumAlgos) (hH : GoodHashAt H a) :
    ∀ es, (splitLinesPy (tmContent (coreRoots files cs0 today H) H a)).foldl
        (processManifestLine a) es
      = (coreRoots files cs0 today H).foldl (fun es f =>
          insertEntry es f.1 a (hashApply H a (strBytes f.2))) es := by
  intro es
  refine foldl_lines_insertEntry a Prod.fst (fun f => hashApply H a (strBytes f.2)) (pstr " ")
    (coreRoots files cs0 today H) (by decide) (by decide) (by decide) ?_ es
  intro f hf
  obtain ⟨h1, h2, h3, h4, h5, -⟩ := rootName_props (rootName_of_mem_coreRoots hf hcs0)
  exact ⟨hashApply_good hH _, h1, h2, h3, h4, h5⟩

theorem map_fst_pair {α : Type} (g : PyStr → α) (l : List PyStr) :
    (l.map (fun x => (x, g x))).map Prod.fst = l := by
  induction l with
  | nil => rfl
  | cons x t ih => rw [List.map_cons, List.map_cons, ih]

theorem lookupAssoc_payEntries_none {files : List (PyStr × Bytes)} {cs : List PyStr}
    {H : HashImpl} {n : PyStr} (h : ¬ (n.headD ' ' = 'd')) :
    lookupAssoc n (payEntries files cs H) = none := by
  refine lookupAssoc_eq_none ?_
  intro kv hkv
  unfold payEntries at hkv
  obtain ⟨p, hp, rfl⟩ := List.mem_map.mp hkv
  obtain ⟨f, hf, rfl⟩ := sortedWalk_mem hp
  intro he
  exact h ((show pstr "data/" ++ f.1 = n from he) ▸ dataKey_headD f.1)

theorem loadManifests_freshDisk (files : List (PyStr × Bytes)) (cs : List PyStr)
    (today : PyStr) (H : HashImpl)
    (hpaths : ∀ f ∈ files, goodRelPathB f.1 = true)
    (hnd : (files.map Prod.fst).Nodup)
    (hcs : ∀ c ∈ cs, c ∈ checksumAlgos) (hcnd : cs.Nodup) (hne : cs ≠ [])
    (hH : ∀ c ∈ cs, GoodHashAt H c) :
    loadManifests (freshDisk files cs today H) (pstr "0.97")
      = (payEntries files cs H ++ tagEntries files cs today H, algsOf cs ++ algsOf cs) := by
  have hHalg : ∀ a ∈ algsOf cs, GoodHashAt H a := fun a ha => hH a (mem_algsOf ha)
  have halgnd : (algsOf cs).Nodup := algsOf_nodup cs
  have halgne : algsOf cs ≠ [] := algsOf_ne_nil hne hcs
  have hwnd : ((sortedWalk files).map (fun p => p)).Nodup := by
    have hmid : (sortedWalk files).map (fun p => p) = sortedWalk files := by
      simp
    rw [hmid]
    exact sortedWalk_nodup hnd
  have hphase1 : ((algsOf cs).map (fun a =>
        (a, manifestContent H a (dataPrefixed files) (sortedWalk files)))).foldl
        (fun es f => (splitLinesPy f.2).foldl (processManifestLine f.1) es) []
      = payEntries files cs H := by
    calc ((algsOf cs).map (fun a =>
            (a, manifestContent H a (dataPrefixed files) (sortedWalk files)))).foldl
          (fun es f => (splitLinesPy f.2).foldl (processManifestLine f.1) es) []
        = (algsOf cs).foldl (fun es a => (splitLinesPy
              (manifestContent H a (dataPrefixed files) (sortedWalk files))).foldl
            (processManifestLine a) es) [] := List.foldl_map _ _ _ _
      _ = (algsOf cs).foldl (fun es a => (sortedWalk files).foldl (fun es p =>
            insertEntry es p a (hashApply H a ((lookupAssoc p (dataPrefixed files)).getD [])))
            es) [] := foldlCongrMem (fun b a ha => manifest_file_fold hpaths (hHalg a ha) b) []
      _ = [] ++ (sortedWalk files).map (fun p => (p, (algsOf cs).map (fun a =>
            (a, hashApply H a ((lookupAssoc p (dataPrefixed files)).getD []))))) :=
          foldl_insertEntry_algs (fun p => p)
            (fun a p => hashApply H a ((lookupAssoc p (dataPrefixed files)).getD []))
            (sortedWalk files) (algsOf cs) [] hwnd halgnd halgne (fun i _ => rfl)
      _ = payEntries files cs H := by
          unfold payEntries
          rw [List.nil_append]
  have hdone : ∀ f ∈ coreRoots files cs today H,
      lookupAssoc f.1 (payEntries files cs H) = none := by
    intro f hf
    obtain ⟨-, -, -, -, -, -, -, h8, -⟩ :=
      rootName_props (rootName_of_mem_coreRoots hf hcs)
    exact lookupAssoc_payEntries_none h8
  have hphase2 : ((algsOf cs).map (fun a =>
        (a, tmContent (coreRoots files cs today H) H a))).foldl
        (fun es f => (splitLinesPy f.2).foldl (processManifestLine f.1) es)
        (payEntries files cs H)
      = payEntries files cs H ++ tagEntries files cs today H := by
    calc ((algsOf cs).map (fun a => (a, tmContent (coreRoots files cs today H) H a))).foldl
          (fun es f => (splitLinesPy f.2).foldl (processManifestLine f.1) es)
          (payEntries files cs H)
        = (algsOf cs).foldl (fun es a => (splitLinesPy
              (tmContent (coreRoots files cs today H) H a)).foldl
            (processManifestLine a) es) (payEntries files cs H) := List.foldl_map _ _ _ _
      _ = (algsOf cs).foldl (fun es a => (coreRoots files cs today H).foldl (fun es f =>
            insertEntry es f.1 a (hashApply H a (strBytes f.2))) es)
            (payEntries files cs H) :=
          foldlCongrMem (fun b a ha => tagmanifest_file_fold hcs (hHalg a ha) b) _
      _ = payEntries files cs H ++ (coreRoots files cs today H).map (fun f =>
            (f.1, (algsOf cs).map (fun a => (a, hashApply H a (strBytes f.2))))) :=
          foldl_insertEntry_algs Prod.fst (fun a f => hashApply H a (strBytes f.2))
            (coreRoots files cs today H) (algsOf cs) (payEntries files cs H)
            (coreRoots_keys_nodup hcnd) halgnd halgne hdone
      _ = payEntries files cs H ++ tagEntries files cs today H := by
          unfold tagEntries
          rfl
  unfold loadManifests
  rw [if_pos rfl, manifestFilesOf_freshDisk files cs today H hcnd,
    tagmanifestFilesOf_freshDisk files cs today H hcnd hcs]
  show (((algsOf cs).map (fun a =>
        (a, manifestContent H a (dataPrefixed files) (sortedWalk files)))
      ++ (algsOf cs).map (fun a => (a, tmContent (coreRoots files cs today H) H a))).foldl
      (fun acc f => ((splitLinesPy f.2).foldl (processManifestLine f.1) acc.1,
        acc.2 ++ [f.1])) ([], []))
    = (payEntries files cs H ++ tagEntries files cs today H, algsOf cs ++ algsOf cs)
  rw [loadManifests_split, Prod.mk.injEq]
  refine ⟨?_, ?_⟩
  · rw [List.foldl_append, hphase1, hphase2]
  · rw [List.nil_append, List.map_append, map_fst_pair, map_fst_pair]

theorem loadBag_freshDisk (files : List (PyStr × Bytes)) (cs : List PyStr)
    (today : PyStr) (H : HashImpl)
    (hpaths : ∀ f ∈ files, goodRelPathB f.1 = true)
    (hnd : (files.map Prod.fst).Nodup)
    (hcs : ∀ c ∈ cs, c ∈ checksumAlgos) (hcnd : cs.Nodup) (hne : cs ≠ [])
    (hH : ∀ c ∈ cs, GoodHashAt H c) :
    loadBag (freshDisk files cs today H) = .ok (freshBag files cs today H) := by
  have h1 : lookupRoot (freshDisk files cs today H) (pstr "bagit.txt") = some bagitTxtStd :=
    allRoots_lookup_core (coreRoots_lookup_bagit files cs today H)
  have h2 : lookupRoot (freshDisk files cs today H) (pstr "bag-info.txt")
      = some (makeTagFileContent (infoThree files today)) :=
    allRoots_lookup_core (coreRoots_lookup_baginfo files cs today H)
  unfold loadBag
  rw [h1]
  show (match lookupRoot (freshDisk files cs today H) (pstr "bag-info.txt") with
      | some c => Except.bind (loadTagFile c) (fun info =>
          Except.ok (Bag.mk [(pstr "BagIt-Version", TagValue.one (pstr "0.97")),
              (pstr "Tag-File-Character-Encoding", TagValue.one (pstr "UTF-8"))]
            info (pstr "0.97") (pstr "UTF-8") (pstr "bag-info.txt")
            (loadManifests (freshDisk files cs today H) (pstr "0.97")).1
            (loadManifests (freshDisk files cs today H) (pstr "0.97")).2))
      | none => Except.bind (pure ([] : TagMap)) (fun info =>
          Except.ok (Bag.mk [(pstr "BagIt-Version", TagValue.one (pstr "0.97")),
              (pstr "Tag-File-Character-Encoding", TagValue.one (pstr "UTF-8"))]
            info (pstr "0.97") (pstr "UTF-8") (pstr "bag-info.txt")
            (loadManifests (freshDisk files cs today H) (pstr "0.97")).1
            (loadManifests (freshDisk files cs today H) (pstr "0.97")).2)))
    = Except.ok (freshBag files cs today H)
  rw [h2]
  show Except.bind (loadTagFile (makeTagFileContent (infoThree files today))) (fun info =>
      Except.ok (Bag.mk [(pstr "BagIt-Version", TagValue.one (pstr "0.97")),
          (pstr "Tag-File-Character-Encoding", TagValue.one (pstr "UTF-8"))]
        info (pstr "0.97") (pstr "UTF-8") (pstr "bag-info.txt")
        (loadManifests (freshDisk files cs today H) (pstr "0.97")).1
        (loadManifests (freshDisk files cs today H) (pstr "0.97")).2))
    = Except.ok (freshBag files cs today H)
  rw [loadTagFile_infoThree files today]
  show Except.ok (Bag.mk [(pstr "BagIt-Version", TagValue.one (pstr "0.97")),
      (pstr "Tag-File-Character-Encoding", TagValue.one (pstr "UTF-8"))]
    (freshInfo files today) (pstr "0.97") (pstr "UTF-8") (pstr "bag-info.txt")
    (loadManifests (freshDisk files cs today H) (pstr "0.97")).1
    (loadManifests (freshDisk files cs today H) (pstr "0.97")).2)
    = Except.ok (freshBag files cs today H)
  rw [loadManifests_freshDisk files cs today H hpaths hnd hcs hcnd hne hH]
  rfl

/-! ## General lemmas: validating the fresh bag -/

theorem allRoots_keys_nodup {files : List (PyStr × Bytes)} {cs : List PyStr} {today : PyStr}
    {H : HashImpl} (hcnd : cs.Nodup) (hcs : ∀ c ∈ cs, c ∈ checksumAlgos) :
    ((allRoots files cs today H).map Prod.fst).Nodup := by
  unfold allRoots
  rw [List.map_append, List.map_map]
  refine List.nodup_append.mpr ⟨coreRoots_keys_nodup hcnd, ?_, ?_⟩
  · exact hcnd.map (fun _ _ h => tmName_inj h)
  · intro x hx hx2
    obtain ⟨kv, hkv, rfl⟩ := List.mem_map.mp hx
    obtain ⟨c, -, heq⟩ := List.mem_map.mp hx2
    obtain ⟨-, -, -, -, -, -, -, -, h9⟩ := rootName_props (rootName_of_mem_coreRoots hkv hcs)
    exact h9 ((show tmName c = kv.1 from heq) ▸ tmName_headD c)

theorem freshBag_entries_keys (files : List (PyStr × Bytes)) (cs : List PyStr) (today : PyStr)
    (H : HashImpl) :
    (freshBag files cs today H).entries.map Prod.fst
      = sortedWalk files ++ (coreRoots files cs today H).map Prod.fst := by
  show (payEntries files cs H ++ tagEntries files cs today H).map Prod.fst = _
  rw [List.map_append]
  congr 1
  · unfold payEntries
    exact map_fst_pair _ _
  · unfold tagEntries
    rw [List.map_map]
    rfl

theorem payloadEntriesKeys_freshBag (files : List (PyStr × Bytes)) (cs : List PyStr)
    (today : PyStr) (H : HashImpl) (hcs : ∀ c ∈ cs, c ∈ checksumAlgos) :
    payloadEntriesKeys (freshBag files cs today H) = sortedWalk files := by
  unfold payloadEntriesKeys
  rw [freshBag_entries_keys, List.filter_append, List.filter_eq_self.mpr ?w,
    List.filter_eq_nil_iff.mpr ?t, List.append_nil]
  case w =>
    intro p hp
    obtain ⟨f, hf, rfl⟩ := sortedWalk_mem hp
    exact dataKey_startsWithData f.1
  case t =>
    intro n hn
    obtain ⟨kv, hkv, rfl⟩ := List.mem_map.mp hn
    obtain ⟨-, -, -, -, -, h6, -⟩ := rootName_props (rootName_of_mem_coreRoots hkv hcs)
    simp [h6]

theorem tagfileEntriesKeys_freshBag (files : List (PyStr × Bytes)) (cs : List PyStr)
    (today : PyStr) (H : HashImpl) (hcs : ∀ c ∈ cs, c ∈ checksumAlgos) :
    tagfileEntriesKeys (freshBag files cs today H)
      = (coreRoots files cs today H).map Prod.fst := by
  unfold tagfileEntriesKeys
  rw [freshBag_entries_keys, List.filter_append, List.filter_eq_nil_iff.mpr ?w,
    List.filter_eq_self.mpr ?t, List.nil_append]
  case w =>
    intro p hp
    obtain ⟨f, hf, rfl⟩ := sortedWalk_mem hp
    simp [dataKey_startsWithData f.1]
  case t =>
    intro n hn
    obtain ⟨kv, hkv, rfl⟩ := List.mem_map.mp hn
    obtain ⟨-, -, -, -, -, h6, -⟩ := rootName_props (rootName_of_mem_coreRoots hkv hcs)
    simp [h6]

theorem missingOptional_freshBag (files : List (PyStr × Bytes)) (cs : List PyStr)
    (today : PyStr) (H : HashImpl) (hcnd : cs.Nodup) (hcs : ∀ c ∈ cs, c ∈ checksumAlgos) :
    missingOptionalTagfiles (freshBag files cs today H) (freshDisk files cs today H) = [] := by
  unfold missingOptionalTagfiles
  rw [tagfileEntriesKeys_freshBag files cs today H hcs]
  refine List.filter_eq_nil_iff.mpr ?_
  intro n hn
  obtain ⟨kv, hkv, rfl⟩ := List.mem_map.mp hn
  have hex : fileExistsDisk (freshDisk files cs today H) kv.1 = true := by
    unfold fileExistsDisk
    have hroot : lookupAssoc kv.1 (freshDisk files cs today H).rootFiles = some kv.2 := by
      show lookupAssoc kv.1 (allRoots files cs today H) = some kv.2
      refine lookupAssoc_of_mem_nodup ?_ (allRoots_keys_nodup hcnd hcs)
      unfold allRoots
      exact List.mem_append_left _ (show (kv.1, kv.2) ∈ coreRoots files cs today H from hkv)
    rw [hroot]
    simp
  simp [hex]

theorem compareManifests_freshBag (files : List (PyStr × Bytes)) (cs : List PyStr)
    (today : PyStr) (H : HashImpl) (hnd : (files.map Prod.fst).Nodup)
    (hcnd : cs.Nodup) (hcs : ∀ c ∈ cs, c ∈ checksumAlgos) :
    compareManifestsWithFs (freshBag files cs today H) (freshDisk files cs today H)
      = ([], []) := by
  unfold compareManifestsWithFs
  show ((payloadEntriesKeys (freshBag files cs today H)
      ++ (if (freshBag files cs today H).version = pstr "0.97"
          then missingOptionalTagfiles (freshBag files cs today H) (freshDisk files cs today H)
          else [])).dedup.filter
        (fun p => ¬ (payloadFilesOf (freshDisk files cs today H)).contains p),
     (payloadFilesOf (freshDisk files cs today H)).dedup.filter
        (fun p => ¬ (payloadEntriesKeys (freshBag files cs today H)
          ++ (if (freshBag files cs today H).version = pstr "0.97"
              then missingOptionalTagfiles (freshBag files cs today H)
                (freshDisk files cs today H)
              else [])).contains p))
    = ([], [])
  rw [if_pos (show (freshBag files cs today H).version = pstr "0.97" from rfl),
    missingOptional_freshBag files cs today H hcnd hcs,
    payloadEntriesKeys_freshBag files cs today H hcs, List.append_nil,
    show payloadFilesOf (freshDisk files cs today H) = (dataPrefixed files).map Prod.fst
      from rfl,
    List.dedup_eq_self.mpr (sortedWalk_nodup hnd),
    List.dedup_eq_self.mpr (dataPrefixed_keys_nodup hnd),
    List.filter_eq_nil_iff.mpr ?g1, List.filter_eq_nil_iff.mpr ?g2]
  case g1 =>
    intro p hp
    obtain ⟨q, hq, heq⟩ := List.mem_map.mp ((List.perm_insertionSort strLeP _).mem_iff.mp hp)
    simp
    exact ⟨q.2, heq ▸ (show (q.1, q.2) ∈ dataPrefixed files from hq)⟩
  case g2 =>
    intro p hp
    simp
    exact (List.perm_insertionSort strLeP _).mem_iff.mpr hp

theorem avail_contains {files : List (PyStr × Bytes)} {cs : List PyStr} {today : PyStr}
    {H : HashImpl} (hH : ∀ c ∈ cs, GoodHashAt H c) {a : PyStr} (ha : a ∈ algsOf cs) :
    (availableHashers (freshBag files cs today H) H).contains a = true := by
  refine mem_contains_eq_true ?_
  unfold availableHashers
  refine List.mem_filter.mpr ⟨?_, ?_⟩
  · rw [List.mem_dedup]
    show a ∈ algsOf cs ++ algsOf cs
    exact List.mem_append_left _ ha
  · obtain ⟨f, hf, -⟩ := hH a (mem_algsOf ha)
    simp [hf]

theorem availableHashers_freshBag_ne_nil {files : List (PyStr × Bytes)} {cs : List PyStr}
    {today : PyStr} {H : HashImpl} (hne : cs ≠ []) (hcs : ∀ c ∈ cs, c ∈ checksumAlgos)
    (hH : ∀ c ∈ cs, GoodHashAt H c) :
    ¬ (availableHashers (freshBag files cs today H) H = []) := by
  obtain ⟨a, t, heq⟩ := List.exists_cons_of_ne_nil (algsOf_ne_nil hne hcs)
  have ha : a ∈ algsOf cs := by
    rw [heq]
    exact List.mem_cons_self ..
  intro hc
  have hcont : (availableHashers (freshBag files cs today H) H).contains a = true :=
    avail_contains hH ha
  rw [hc] at hcont
  simp at hcont

theorem checksumMismatches_freshBag (files : List (PyStr × Bytes)) (cs : List PyStr)
    (today : PyStr) (H : HashImpl)
    (hnd : (files.map Prod.fst).Nodup) (hcnd : cs.Nodup)
    (hcs : ∀ c ∈ cs, c ∈ checksumAlgos) (hH : ∀ c ∈ cs, GoodHashAt H c) :
    checksumMismatches (freshBag files cs today H) (freshDisk files cs today H) H = [] := by
  unfold checksumMismatches
  refine List.flatMap_eq_nil_iff.mpr ?_
  intro e he
  rcases List.mem_append.mp
      (show e ∈ payEntries files cs H ++ tagEntries files cs today H from he) with hm | hm
  · obtain ⟨p, hp, rfl⟩ := List.mem_map.mp hm
    obtain ⟨f, hf, rfl⟩ := sortedWalk_mem hp
    have hlook : lookupAssoc (pstr "data/" ++ f.1) (dataPrefixed files) = some f.2 :=
      lookupAssoc_of_mem_nodup (show (pstr "data/" ++ f.1, f.2) ∈ dataPrefixed files from
        List.mem_map_of_mem _ hf) (dataPrefixed_keys_nodup hnd)
    have hcalc : calcHashes (freshDisk files cs today H) H
        (availableHashers (freshBag files cs today H) H) (pstr "data/" ++ f.1)
        ((algsOf cs).map (fun a =>
          (a, hashApply H a ((lookupAssoc (pstr "data/" ++ f.1)
            (dataPrefixed files)).getD []))))
      = (algsOf cs).map (fun a => (a, hashApply H a f.2)) := by
      unfold calcHashes
      rw [map_fst_pair,
        List.filter_eq_self.mpr (fun a ha => avail_contains hH ha),
        show fileContentDisk (freshDisk files cs today H) (pstr "data/" ++ f.1)
            = some f.2 from by
          unfold fileContentDisk
          rw [show (freshDisk files cs today H).payload = dataPrefixed files from rfl, hlook]]
    rw [hcalc]
    refine List.filterMap_eq_nil_iff.mpr ?_
    intro ac hac
    obtain ⟨a, ha, rfl⟩ := List.mem_map.mp hac
    show (if pyLower ((lookupAssoc a ((algsOf cs).map (fun a' =>
          (a', hashApply H a' ((lookupAssoc (pstr "data/" ++ f.1)
            (dataPrefixed files)).getD []))))).getD [])
        ≠ hashApply H a f.2
      then some (ValidationDetail.checksumMismatch (pstr "data/" ++ f.1) a
        (pyLower ((lookupAssoc a ((algsOf cs).map (fun a' =>
          (a', hashApply H a' ((lookupAssoc (pstr "data/" ++ f.1)
            (dataPrefixed files)).getD []))))).getD [])) (hashApply H a f.2))
      else none) = none
    rw [lookupAssoc_map_self (fun a' => hashApply H a'
        ((lookupAssoc (pstr "data/" ++ f.1) (dataPrefixed files)).getD [])) ha, hlook,
      show (some f.2).getD ([] : Bytes) = f.2 from rfl,
      show (some (hashApply H a f.2)).getD ([] : PyStr) = hashApply H a f.2 from rfl,
      (goodDigestB_spec (hashApply_good (hH a (mem_algsOf ha)) f.2)).2.2.2,
      if_neg (not_not_intro rfl)]
  · obtain ⟨kv, hkv, rfl⟩ := List.mem_map.mp hm
    obtain ⟨-, -, -, -, -, -, -, h8, -⟩ := rootName_props (rootName_of_mem_coreRoots hkv hcs)
    have hcontent : fileContentDisk (freshDisk files cs today H) kv.1
        = some (strBytes kv.2) := by
      unfold fileContentDisk
      rw [show (freshDisk files cs today H).payload = dataPrefixed files from rfl,
        lookupAssoc_dataPrefixed_none h8,
        show lookupRoot (freshDisk files cs today H) kv.1
            = lookupAssoc kv.1 (allRoots files cs today H) from rfl,
        lookupAssoc_of_mem_nodup (show (kv.1, kv.2) ∈ allRoots files cs today H from by
          unfold allRoots
          exact List.mem_append_left _ hkv) (allRoots_keys_nodup hcnd hcs)]
      rfl
    have hcalc : calcHashes (freshDisk files cs today H) H
        (availableHashers (freshBag files cs today H) H) kv.1
        ((algsOf cs).map (fun a => (a, hashApply H a (strBytes kv.2))))
      = (algsOf cs).map (fun a => (a, hashApply H a (strBytes kv.2))) := by
      unfold calcHashes
      rw [map_fst_pair,
        List.filter_eq_self.mpr (fun a ha => avail_contains hH ha), hcontent]
    rw [hcalc]
    refine List.filterMap_eq_nil_iff.mpr ?_
    intro ac hac
    obtain ⟨a, ha, rfl⟩ := List.mem_map.mp hac
    show (if pyLower ((lookupAssoc a ((algsOf cs).map (fun a' =>
          (a', hashApply H a' (strBytes kv.2))))).getD [])
        ≠ hashApply H a (strBytes kv.2)
      then some (ValidationDetail.checksumMismatch kv.1 a
        (pyLower ((lookupAssoc a ((algsOf cs).map (fun a' =>
          (a', hashApply H a' (strBytes kv.2))))).getD [])) (hashApply H a (strBytes kv.2)))
      else none) = none
    rw [lookupAssoc_map_self (fun a' => hashApply H a' (strBytes kv.2)) ha,
      show (some (hashApply H a (strBytes kv.2))).getD ([] : PyStr)
          = hashApply H a (strBytes kv.2) from rfl,
      (goodDigestB_spec (hashApply_good (hH a (mem_algsOf ha)) (strBytes kv.2))).2.2.2,
      if_neg (not_not_intro rfl)]

theorem validationDetails_freshBag (files : List (PyStr × Bytes)) (cs : List PyStr)
    (today : PyStr) (H : HashImpl)
    (hnd : (files.map Prod.fst).Nodup) (hcnd : cs.Nodup)
    (hcs : ∀ c ∈ cs, c ∈ checksumAlgos) (hH : ∀ c ∈ cs, GoodHashAt H c) :
    validationDetails (freshBag files cs today H) (freshDisk files cs today H) H = [] := by
  unfold validationDetails
  show (compareManifestsWithFs (freshBag files cs today H)
        (freshDisk files cs today H)).1.map ValidationDetail.fileMissing
      ++ (compareManifestsWithFs (freshBag files cs today H)
        (freshDisk files cs today H)).2.map ValidationDetail.unexpectedFile
      ++ checksumMismatches (freshBag files cs today H) (freshDisk files cs today H) H = []
  rw [compareManifests_freshBag files cs today H hnd hcnd hcs,
    checksumMismatches_freshBag files cs today H hnd hcnd hcs hH]
  rfl

theorem validateEntries_freshBag (files : List (PyStr × Bytes)) (cs : List PyStr)
    (today : PyStr) (H : HashImpl)
    (hnd : (files.map Prod.fst).Nodup) (hcnd : cs.Nodup) (hne : cs ≠ [])
    (hcs : ∀ c ∈ cs, c ∈ checksumAlgos) (hH : ∀ c ∈ cs, GoodHashAt H c) :
    validateEntries (freshBag files cs today H) (freshDisk files cs today H) H = .ok () := by
  unfold validateEntries
  rw [if_neg (availableHashers_freshBag_ne_nil hne hcs hH)]
  show (if validationDetails (freshBag files cs today H) (freshDisk files cs today H) H = []
    then Except.ok () else Except.error (BagErr.bagValidationError (pstr "invalid bag")
      (validationDetails (freshBag files cs today H) (freshDisk files cs today H) H)))
    = Except.ok ()
  rw [validationDetails_freshBag files cs today H hnd hcnd hcs hH, if_pos rfl]

theorem validateStructure_freshDisk (files : List (PyStr × Bytes)) (cs : List PyStr)
    (today : PyStr) (H : HashImpl) (hcnd : cs.Nodup) (hne : cs ≠ [])
    (hcs : ∀ c ∈ cs, c ∈ checksumAlgos) :
    validateStructure (freshDisk files cs today H) = .ok () := by
  have hm : ¬ (manifestFilesOf (freshDisk files cs today H) = []) := by
    rw [manifestFilesOf_freshDisk files cs today H hcnd]
    intro hc
    exact (algsOf_ne_nil hne hcs) (List.map_eq_nil_iff.mp hc)
  have hb : ((freshDisk files cs today H).rootFiles.map Prod.fst).contains
      (pstr "bagit.txt") = true := by
    refine mem_contains_eq_true ?_
    show pstr "bagit.txt" ∈ (allRoots files cs today H).map Prod.fst
    unfold allRoots
    rw [List.map_append, coreRoots_keys]
    exact List.mem_append_left _ (List.mem_append_right _ (by simp))
  unfold validateStructure
  show (if manifestFilesOf (freshDisk files cs today H) = []
      then Except.bind (throw (BagErr.bagValidationError (pstr "Missing manifest file") []))
        (fun _ => if ((freshDisk files cs today H).rootFiles.map Prod.fst).contains
            (pstr "bagit.txt") = true
          then pure () else throw (BagErr.bagValidationError (pstr "Missing bagit.txt") []))
      else Except.bind (pure ())
        (fun _ => if ((freshDisk files cs today H).rootFiles.map Prod.fst).contains
            (pstr "bagit.txt") = true
          then pure () else throw (BagErr.bagValidationError (pstr "Missing bagit.txt") [])))
    = Except.ok ()
  rw [if_neg hm]
  show (if ((freshDisk files cs today H).rootFiles.map Prod.fst).contains
      (pstr "bagit.txt") = true
    then pure () else throw (BagErr.bagValidationError (pstr "Missing bagit.txt") []))
    = Except.ok ()
  rw [if_pos hb]
  rfl

theorem validateBagitTxt_freshDisk (files : List (PyStr × Bytes)) (cs : List PyStr)
    (today : PyStr) (H : HashImpl) :
    validateBagitTxt (freshDisk files cs today H) = .ok () := by
  unfold validateBagitTxt
  rw [show lookupRoot (freshDisk files cs today H) (pstr "bagit.txt") = some bagitTxtStd from
    allRoots_lookup_core (coreRoots_lookup_bagit files cs today H)]
  rfl

theorem validateOxum_freshBag (files : List (PyStr × Bytes)) (cs : List PyStr)
    (today : PyStr) (H : HashImpl) (hnd : (files.map Prod.fst).Nodup) :
    validateOxum (freshBag files cs today H) (freshDisk files cs today H) = .ok () := by
  unfold validateOxum
  show validateOxumStr (oxumOfWalk (dataPrefixed files) (sortedWalk files))
    (freshDisk files cs today H) = Except.ok ()
  rw [oxumOfWalk_fresh files hnd]
  exact validateOxumStr_ok_totals (freshDisk files cs today H)

theorem validate_freshBag (files : List (PyStr × Bytes)) (cs : List PyStr)
    (today : PyStr) (H : HashImpl)
    (hnd : (files.map Prod.fst).Nodup) (hcnd : cs.Nodup) (hne : cs ≠ [])
    (hcs : ∀ c ∈ cs, c ∈ checksumAlgos) (hH : ∀ c ∈ cs, GoodHashAt H c) :
    validate (freshBag files cs today H) (freshDisk files cs today H) H false = .ok () := by
  rw [validate_eq_contents (validateStructure_freshDisk files cs today H hcnd hne hcs)
      (validateBagitTxt_freshDisk files cs today H),
    validateContents_full _ _ _ (validateOxum_freshBag files cs today H hnd)]
  exact validateEntries_freshBag files cs today H hnd hcnd hne hcs hH

/-! ## Claim theorems -/


/-- C1: the claim says a manifest entry whose path contains `..` makes
`Bag(path)` fail with `UnsafePath`.  The source has no path-safety check:
loading the handcrafted bag succeeds and stores the traversal path
`../etc/passwd` in `entries`, so the claim describes the intended behaviour
(the one its own test suite demands) and the code lacks it. -/
theorem c1_unsafe_path_entry_loaded_without_error :
    loadBag c1Disk =
      .ok { tags := [(pstr "BagIt-Version", .one (pstr "0.97")),
                     (pstr "Tag-File-Character-Encoding", .one (pstr "UTF-8"))],
            info := [], version := pstr "0.97", encoding := pstr "UTF-8",
            tagFileName := pstr "bag-info.txt",
            entries := [(pstr "../etc/passwd",
                         [(pstr "sha256", List.replicate 64 '0')])],
            algs := [pstr "sha256"] } := by decide

/-- C2 counterexample: a freshly made bag need not validate.  For a payload
file named `x%0D` the manifest stores the name verbatim, but loading decodes
it to a carriage return, so the fresh bag fails its own full validation. -/
theorem c2_counterexample_fresh_bag_invalid :
    c2xMake = .ok c2xDisk ∧ loadBag c2xDisk = .ok c2xBag
    ∧ (validate c2xBag c2xDisk md5Hashlib false).isOk = false := by decide

/-- C3: `make_bag` with `checksum=['md5']` on a directory holding exactly
`greeting` = `"hello\n"` writes a `manifest-md5.txt` that is exactly the one
claimed line, records `Payload-Oxum: 6.1` in `bag-info.txt`, and the
resulting bag passes full validation. -/
theorem c3_s1_md5_bag_exact_manifest_oxum_and_valid :
    s1Make = .ok s1Disk
    ∧ lookupRoot s1Disk (pstr "manifest-md5.txt") =
        some (pstr "b1946ac92492d2347c6235b4d2611184  data/greeting\n")
    ∧ hasSubstr (pstr "Payload-Oxum: 6.1\n")
        ((lookupRoot s1Disk (pstr "bag-info.txt")).getD []) = true
    ∧ loadBag s1Disk = .ok s1Bag
    ∧ lookupAssoc (pstr "Payload-Oxum") s1Bag.info = some (.one (pstr "6.1"))
    ∧ validate s1Bag s1Disk md5Hashlib false = .ok () := by decide

/-- C6 counterexample: emit-then-parse is not the identity on every CR/LF-free
info map: a value with leading whitespace comes back stripped by the parser. -/
theorem c6_counterexample_leading_space :
    loadTagFile (makeTagFileContent [(pstr "K", .one (pstr " v"))])
      ≠ .ok [(pstr "K", .one (pstr " v"))] := by decide

/-- C6 amended: the tag-file round trip `parse(emit(M)) = M` holds for every
info map whose keys are well-formed tag keys (non-empty, colon- and CR/LF-free,
not starting or ending in whitespace, not starting with a byte-order mark)
listed in strictly sorted order, and whose values are CR/LF-free strings
without leading or trailing whitespace. -/
theorem c6_tag_file_roundtrip (M : List (PyStr × PyStr))
    (hsort : (M.map Prod.fst).Sorted strLeP)
    (hnd : (M.map Prod.fst).Nodup)
    (hkeys : ∀ kv ∈ M, goodTagKeyB kv.1 = true)
    (hvals : ∀ kv ∈ M, ('\n' : Char) ∉ kv.2 ∧ ('\r' : Char) ∉ kv.2 ∧ pyStrip kv.2 = kv.2) :
    loadTagFile (makeTagFileContent (M.map (fun kv => (kv.1, TagValue.one kv.2))))
      = .ok (M.map (fun kv => (kv.1, TagValue.one kv.2))) := by
  rw [loadTagFile_makeTagFile M hsort hnd hkeys]
  congr 1
  refine List.map_congr_left ?_
  intro kv hkv
  obtain ⟨h1, h2, h3⟩ := hvals kv hkv
  rw [stripCRLF_eq_self h1 h2, h3]

theorem c6_roundtrip_witness :
    ([(pstr "Contact-Name", pstr "Alice")].map Prod.fst).Sorted strLeP
    ∧ loadTagFile (makeTagFileContent
        ([(pstr "Contact-Name", pstr "Alice")].map (fun kv => (kv.1, TagValue.one kv.2))))
      = .ok ([(pstr "Contact-Name", pstr "Alice")].map
          (fun kv => (kv.1, TagValue.one kv.2))) :=
  ⟨by decide, c6_tag_file_roundtrip [(pstr "Contact-Name", pstr "Alice")]
    (by decide) (by decide) (by decide) (by decide)⟩

/-- C7: the name codec does not round-trip.  Encoding three carriage returns
yields `%0D%0D%0D`, but decoding replaces only two of the escapes, because
the source passes `re.IGNORECASE` (whose value is 2) as `re.sub`'s positional
`count` argument instead of as a flag. -/
theorem c7_codec_roundtrip_fails_at_three_crs :
    encodeFilename (pstr "\r\r\r") = pstr "%0D%0D%0D"
    ∧ decodeFilename (encodeFilename (pstr "\r\r\r")) = pstr "\r\r%0D"
    ∧ decodeFilename (encodeFilename (pstr "\r\r\r")) ≠ pstr "\r\r\r" := by decide

/-- C8 counterexample: folding the claimed tag file does not produce the
claimed single-spaced value, because the continuation line's leading
whitespace is appended verbatim. -/
theorem c8_counterexample_single_space_value :
    ((loadTagFile c8Content).toOption.bind
      (lookupAssoc (pstr "External-Description")))
      ≠ some (.one (pstr "line one continued line two")) := by decide

/-- C8 amended: the folded value keeps the continuation line's leading
whitespace, giving `line one  continued line two` (two spaces), and
`Contact-Name` parses to `Alice`. -/
theorem c8_line_folding_keeps_leading_whitespace :
    loadTagFile c8Content = .ok
      [(pstr "External-Description", .one (pstr "line one  continued line two")),
       (pstr "Contact-Name", .one (pstr "Alice"))] := by decide

/-- C9 counterexample: `make_bag` without a checksum list does not produce a
`manifest-sha512.txt`. -/
theorem c9_counterexample_no_sha512_manifest :
    (makeBagDisk [] none none (pstr "2026-10-12") md5Hashlib).isOk = true
    ∧ ((makeBagDisk [] none none (pstr "2026-10-12") md5Hashlib).toOption.bind
        (fun d => lookupRoot d (pstr "manifest-sha512.txt"))) = none := by decide


/-- C4: full (non-fast) validation does not stop at the first content error:
the detail list aggregates one `FileMissing` per manifest entry without a
file, one `UnexpectedFile` per payload file absent from the manifests, and
one `ChecksumMismatch` per digest disagreement, all inside a single
`BagValidationError`, and validation succeeds exactly when that list is
empty. -/
theorem c4_full_validation_aggregates (b : Bag) (disk : BagDisk) (H : HashImpl)
    (hstruct : validateStructure disk = .ok ())
    (hbagit : validateBagitTxt disk = .ok ())
    (hox : validateOxum b disk = .ok ())
    (havail : availableHashers b H ≠ []) :
    validationDetails b disk H =
      (compareManifestsWithFs b disk).1.map ValidationDetail.fileMissing
        ++ (compareManifestsWithFs b disk).2.map ValidationDetail.unexpectedFile
        ++ checksumMismatches b disk H
    ∧ validate b disk H false =
        (if validationDetails b disk H = [] then .ok ()
         else .error (.bagValidationError (pstr "invalid bag") (validationDetails b disk H)))
    ∧ (validate b disk H false = .ok () ↔ validationDetails b disk H = []) := by
  have hv : validate b disk H false =
      (if validationDetails b disk H = [] then .ok ()
       else .error (.bagValidationError (pstr "invalid bag") (validationDetails b disk H))) := by
    rw [validate_eq_contents hstruct hbagit, validateContents_full _ _ _ hox]
    unfold validateEntries
    rw [if_neg havail]
  refine ⟨by unfold validationDetails; rw [List.append_assoc], hv, ?_⟩
  rw [hv]
  by_cases hd : validationDetails b disk H = [] <;> simp [hd]

theorem c4_witness :
    validateOxum s1Bag s1Disk = .ok ()
    ∧ (validate s1Bag s1Disk md5Hashlib false = .ok ()
        ↔ validationDetails s1Bag s1Disk md5Hashlib = []) :=
  ⟨by decide, (c4_full_validation_aggregates s1Bag s1Disk md5Hashlib
    (by decide) (by decide) (by decide) (by decide)).2.2⟩

/-- C5: under a passing structural check, fast validation fails with the
`OxumMissing` error exactly when the info has no `Payload-Oxum`; a present
Oxum equal to the payload's actual byte and file totals makes fast validation
succeed; the fast path consults no digest function at all; and the
size-preserving corruption of S1's payload passes fast validation while
default validation reports the checksum mismatch. -/
theorem c5_fast_validation (b : Bag) (disk : BagDisk)
    (hstruct : validateStructure disk = .ok ())
    (hbagit : validateBagitTxt disk = .ok ()) :
    (∀ H, validate b disk H true = .error oxumMissingError ↔
        lookupAssoc (pstr "Payload-Oxum") b.info = none)
    ∧ (∀ H, lookupAssoc (pstr "Payload-Oxum") b.info
          = some (TagValue.one (natStr ((disk.payload.map (fun f => f.2.length)).sum)
              ++ pstr "." ++ natStr disk.payload.length)) →
        validate b disk H true = .ok ())
    ∧ (∀ H₁ H₂, validate b disk H₁ true = validate b disk H₂ true)
    ∧ (validate s1Bag s1CorruptDisk md5Hashlib true = .ok ()
       ∧ validate s1Bag s1CorruptDisk md5Hashlib false
          = .error (.bagValidationError (pstr "invalid bag")
              [.checksumMismatch (pstr "data/greeting") (pstr "md5")
                (pstr "b1946ac92492d2347c6235b4d2611184")
                (pstr "3c5f62ecfb2b4592db9d4ae21a4c91c9")])) := by
  refine ⟨?_, ?_, ?_, by decide, by decide⟩
  · intro H
    rw [validate_eq_contents hstruct hbagit, validateContents_fast]
    constructor
    · intro h
      by_cases hox : hasOxum b = true
      · rw [if_pos hox] at h
        exact absurd rfl (validateOxum_error_shape h)
      · unfold hasOxum at hox
        simpa using hox
    · intro h
      have hox : hasOxum b = false := by
        unfold hasOxum
        rw [h]
        rfl
      rw [if_neg (by simp [hox])]
  · intro H h
    rw [validate_eq_contents hstruct hbagit, validateContents_fast,
      if_pos (show hasOxum b = true by unfold hasOxum; rw [h]; rfl)]
    show validateOxum b disk = .ok ()
    unfold validateOxum
    rw [h]
    exact validateOxumStr_ok_totals disk
  · intro H₁ H₂
    rw [validate_eq_contents hstruct hbagit, validate_eq_contents hstruct hbagit,
      validateContents_fast, validateContents_fast]

theorem c5_witness :
    validateStructure s1Disk = .ok ()
    ∧ (validate s1Bag s1Disk md5Hashlib true = .error oxumMissingError ↔
        lookupAssoc (pstr "Payload-Oxum") s1Bag.info = none) :=
  ⟨by decide, ((c5_fast_validation s1Bag s1Disk (by decide) (by decide)).1) md5Hashlib⟩

/-- C10: `is_valid` turns exactly the `BagError`-class failures of `validate`
into `False` and propagates everything else; when no algorithm named in the
bag's manifests is recognised by the hash library, full validation raises
`RuntimeError`, which escapes both `validate` and `is_valid` instead of being
reported as an invalid bag. -/
theorem c10_is_valid_propagates_runtime_error (b : Bag) (disk : BagDisk) (H : HashImpl)
    (hstruct : validateStructure disk = .ok ())
    (hbagit : validateBagitTxt disk = .ok ())
    (hox : validateOxum b disk = .ok ())
    (halgs : ∀ a ∈ b.algs, H a = none) :
    (∀ fast e, validate b disk H fast = .error e →
        isValid b disk H fast = if e.isBagError then .ok false else .error e)
    ∧ (∀ fast, validate b disk H fast = .ok () → isValid b disk H fast = .ok true)
    ∧ validate b disk H false = .error (.runtimeError (rtUnsupportedMsg b.algs))
    ∧ isValid b disk H false = .error (.runtimeError (rtUnsupportedMsg b.algs)) := by
  have hrt : validate b disk H false = .error (.runtimeError (rtUnsupportedMsg b.algs)) := by
    rw [validate_eq_contents hstruct hbagit, validateContents_full _ _ _ hox]
    unfold validateEntries
    rw [if_pos ?_]
    unfold availableHashers
    refine List.filter_eq_nil_iff.mpr ?_
    intro a ha
    rw [halgs a (List.mem_dedup.mp ha)]
    simp
  refine ⟨?_, ?_, hrt, ?_⟩
  · intro fast e hv
    unfold isValid
    rw [hv]
  · intro fast hv
    unfold isValid
    rw [hv]
  · unfold isValid
    rw [hrt]
    rfl

theorem c10_witness :
    validateOxum s1Bag s1Disk = .ok ()
    ∧ isValid s1Bag s1Disk (fun _ => none) false
        = .error (.runtimeError (rtUnsupportedMsg s1Bag.algs)) :=
  ⟨by decide, (c10_is_valid_propagates_runtime_error s1Bag s1Disk (fun _ => none)
    (by decide) (by decide) (by decide) (fun a _ => rfl)).2.2.2⟩


/-- C9 amended: when `make_bag` is called without an explicit checksum list,
the default algorithm list is `['md5']`, so the created bag contains a
`manifest-md5.txt`. -/
theorem c9_default_checksum_is_md5 (files : List (PyStr × Bytes)) (bagInfo : Option TagMap)
    (today : PyStr) (H : HashImpl) :
    resolveChecksums none = [pstr "md5"]
    ∧ ∃ disk, makeBagDisk files bagInfo none today H = .ok disk
        ∧ (lookupRoot disk (pstr "manifest-md5.txt")).isSome = true := by
  refine ⟨rfl, ?_⟩
  unfold makeBagDisk
  rw [show resolveChecksums none = [pstr "md5"] from rfl, if_neg (by decide)]
  refine ⟨_, rfl, ?_⟩
  unfold lookupRoot
  simp only [List.foldl_cons, List.foldl_nil]
  rw [lookupAssoc_dictSet_ne _ _ (by decide), lookupAssoc_dictSet_ne _ _ (by decide),
    lookupAssoc_dictSet_ne _ _ (by decide),
    show pstr "manifest-" ++ pstr "md5" ++ pstr ".txt" = pstr "manifest-md5.txt" from by decide,
    lookupAssoc_dictSet_self]
  rfl

/-- **C2 (amended).** `make_bag` on a readable, writable directory yields a bag
that passes `validate()`, provided every payload file name survives the
manifest round trip (normalised components, no CR/LF/backslash, no literal
`%0D`/`%0A`, no trailing whitespace), the file names are distinct, the
resolved checksum list is a duplicate-free sublist of the supported
algorithms, and the hash library provides each requested algorithm with
well-formed digests.  The produced directory loads back and fully validates. -/
theorem c2_amended_fresh_bag_validates
    (files : List (PyStr × Bytes)) (checksum : Option (List PyStr)) (today : PyStr)
    (H : HashImpl)
    (hpaths : ∀ f ∈ files, goodRelPathB f.1 = true)
    (hnd : (files.map Prod.fst).Nodup)
    (hcs : ∀ c ∈ resolveChecksums checksum, c ∈ checksumAlgos)
    (hcnd : (resolveChecksums checksum).Nodup)
    (hH : ∀ c ∈ resolveChecksums checksum, GoodHashAt H c) :
    ∃ disk bag, makeBagDisk files none checksum today H = .ok disk
      ∧ loadBag disk = .ok bag ∧ validate bag disk H false = .ok () :=
  ⟨freshDisk files (resolveChecksums checksum) today H,
   freshBag files (resolveChecksums checksum) today H,
   makeBagDisk_freshDisk files checksum today H rfl hcs hcnd,
   loadBag_freshDisk files (resolveChecksums checksum) today H hpaths hnd hcs hcnd
     (resolveChecksums_ne_nil checksum) hH,
   validate_freshBag files (resolveChecksums checksum) today H hnd hcnd
     (resolveChecksums_ne_nil checksum) hcs hH⟩

/-- Witness for the amended C2 theorem: one file named `hi`, the default
checksum list (`md5`), and a hash library whose `md5` returns the constant
well-formed digest `aa`. -/
theorem c2_amended_witness :
    ∃ disk bag, makeBagDisk [(pstr "hi", strBytes (pstr "x"))] none none (pstr "2026-10-12")
        (fun a => if a = pstr "md5" then some (fun _ => pstr "aa") else none) = .ok disk
      ∧ loadBag disk = .ok bag
      ∧ validate bag disk (fun a => if a = pstr "md5" then some (fun _ => pstr "aa") else none)
          false = .ok () := by
  refine c2_amended_fresh_bag_validates _ _ _ _ ?_ ?_ ?_ ?_ ?_
  · intro f hf
    rw [List.mem_singleton] at hf
    subst hf
    decide
  · decide
  · intro c hc
    rw [show resolveChecksums none = [pstr "md5"] from rfl, List.mem_singleton] at hc
    subst hc
    decide
  · decide
  · intro c hc
    rw [show resolveChecksums none = [pstr "md5"] from rfl, List.mem_singleton] at hc
    subst hc
    exact ⟨fun _ => pstr "aa", rfl, fun _ => show goodDigestB (pstr "aa") = true by decide⟩


end Bagit
